import Mathlib

/-!
# Verification of the `html-components.js` component loader

This file is a shallow embedding, in Lean, of the core of the
`html-components` browser library (file `src/html-components.js`).  That file
contains **two revisions** of the library in sequence:

* the "Fixed Version" (first IIFE, referred to here as `V1`), and
* the "Advanced Version" (second IIFE, referred to here as `V2`),

which share most structure but differ in a few load-path details.  Both are
embedded and verified below.

Modelling conventions:

* JavaScript values appearing in property maps are modelled by `JValue`;
  numbers are modelled by integers (the fragment of number behaviour the
  claims exercise).  A property value that is a JS function is modelled by
  `PropV.func r` where `r` is the value the function returns when called.
* The browser DOM is external to the library; it is abstracted as follows:
  an element's content is a list of `Item`s (literal markup, loaded
  component children, created layout sections).  `innerHTML` assignment
  corresponds to replacing an element's items; serialising an element's
  content corresponds to `renderItems` (children contents are concatenated
  after the owning markup text, a deterministic abstraction of the
  browser's serialisation).  `querySelectorAll` over marker attributes is
  abstracted by string scanners over the injected markup
  (`scanAttr`, `scanScripts`).  Document-wide `querySelector` lookups used
  by the `selector` branch of component specs are modelled as misses
  (falling back to the target container), and attribute mutations on the
  target element itself are not tracked because they do not contribute to
  the target's `innerHTML`.
* The runtime is single-threaded and cooperative; promise joins
  (`Promise.allSettled`) are modelled by sequential folds, one legal
  schedule of the cooperative runtime.
* Recursive fragment loading is modelled with explicit fuel; `none` means
  the fuel was exhausted, `some` is a completed (settled) run.
* Observable effects (network fetches, injections, script executions,
  nested-dependency settlement) are recorded in an event trace.
-/

set_option maxHeartbeats 1000000

namespace HtmlComponents

/-! ## JavaScript values and stringification -/

/-- A JavaScript value, as can appear in a property map.  Numbers are
modelled by integers. -/
inductive JValue where
  | null
  | bool (b : Bool)
  | num (n : Int)
  | str (s : String)
  | arr (xs : List JValue)
  | obj (fields : List (String × JValue))
deriving Repr

/-- JSON string escaping (the fragment used by `JSON.stringify`). -/
def jsonEscape (s : String) : String :=
  s.data.foldl (fun acc c =>
    if c = '"' then acc ++ "\\\""
    else if c = '\\' then acc ++ "\\\\"
    else if c = '\n' then acc ++ "\\n"
    else if c = '\t' then acc ++ "\\t"
    else if c = '\r' then acc ++ "\\r"
    else acc.push c) ""

/-- Comma-join a list of strings. -/
def joinComma : List String → String
  | [] => ""
  | [x] => x
  | x :: xs => x ++ "," ++ joinComma xs

/-- `JSON.stringify` on a `JValue`. -/
def jsonStringify : JValue → String
  | .null => "null"
  | .bool b => if b then "true" else "false"
  | .num n => toString n
  | .str s => "\"" ++ jsonEscape s ++ "\""
  | .arr xs => "[" ++ joinComma (xs.attach.map fun x => jsonStringify x.1) ++ "]"
  | .obj fields =>
      "\x7b" ++ joinComma (fields.attach.map fun kv =>
        "\"" ++ jsonEscape kv.1.1 ++ "\":" ++ jsonStringify kv.1.2) ++ "\x7d"
decreasing_by
  · have := List.sizeOf_lt_of_mem x.2
    simp only [JValue.arr.sizeOf_spec]
    omega
  · have h1 := List.sizeOf_lt_of_mem kv.2
    have h2 : sizeOf kv.1.2 < sizeOf kv.1 := by
      obtain ⟨⟨a, b⟩, hm⟩ := kv
      simp
    simp only [JValue.obj.sizeOf_spec]
    omega

/-- Stringification of a prop value for template substitution, mirroring
`processTemplate` (html-components.js lines 1628-1635): `''` for
null/undefined, `JSON.stringify` for objects (including arrays), `String`
otherwise. -/
def stringifyProp (v : JValue) : String :=
  match v with
  | .null => ""
  | .arr _ => jsonStringify v
  | .obj _ => jsonStringify v
  | .bool b => if b then "true" else "false"
  | .num n => toString n
  | .str s => s

/-- JavaScript truthiness on modelled values. -/
def truthy (v : JValue) : Bool :=
  match v with
  | .null => false
  | .bool b => b
  | .num n => n != 0
  | .str s => s != ""
  | .arr _ => true
  | .obj _ => true

/-! ## Placeholder substitution (`processTemplate`)

`processTemplate` (html-components.js lines 1615-1641; the first revision's
lines 407-417 are semantically identical) iterates over the property keys
in order, and for each key `k` globally replaces the regex
`\{\{\s*k\s*\}\}` by the stringified value.  The scanner below implements
this replacement literally; it agrees with the JavaScript regex for keys
without regex metacharacters (the claims below restrict keys to
identifiers, for which the regex is a literal match). -/

/-- Whitespace characters matched by the regex class `\s` (the common
ASCII fragment). -/
def isWsChar (c : Char) : Bool :=
  c = ' ' || c = '\t' || c = '\n' || c = '\r' || c = '\x0b' || c = '\x0c'

/-- Drop leading whitespace (the `\s*` of the placeholder regex). -/
def skipWs : List Char → List Char
  | [] => []
  | c :: cs => if isWsChar c then skipWs cs else c :: cs

/-- Strip an exact prefix; `none` if it does not match. -/
def stripPrefixC : List Char → List Char → Option (List Char)
  | [], s => some s
  | _ :: _, [] => none
  | a :: ks, b :: bs => if a = b then stripPrefixC ks bs else none

/-- Try to match the token `\x7b\x7b\s*k\s*\x7d\x7d` at the start of `s`;
on success return the remainder of `s` after the token. -/
def matchTok (k : List Char) (s : List Char) : Option (List Char) :=
  match s with
  | '{' :: '{' :: rest =>
    match stripPrefixC k (skipWs rest) with
    | none => none
    | some r2 =>
      match skipWs r2 with
      | '}' :: '}' :: r => some r
      | _ => none
  | _ => none

theorem skipWs_length_le (s : List Char) : (skipWs s).length ≤ s.length := by
  induction s with
  | nil => simp [skipWs]
  | cons c cs ih =>
    simp only [skipWs]
    split
    · exact Nat.le_succ_of_le ih
    · simp

theorem stripPrefixC_length_le {k s r : List Char} (h : stripPrefixC k s = some r) :
    r.length ≤ s.length := by
  induction k generalizing s with
  | nil => simp [stripPrefixC] at h; simp [h]
  | cons a ks ih =>
    cases s with
    | nil => simp [stripPrefixC] at h
    | cons b bs =>
      simp only [stripPrefixC] at h
      split at h
      · exact Nat.le_succ_of_le (ih h)
      · exact absurd h (by simp)

theorem matchTok_length {k s r : List Char} (h : matchTok k s = some r) :
    r.length < s.length := by
  unfold matchTok at h
  split at h
  · rename_i rest
    split at h
    · exact absurd h (by simp)
    · rename_i r2 hstrip
      split at h
      · rename_i r3 hskip
        injection h with h
        subst h
        have h1 : (skipWs r2).length ≤ r2.length := skipWs_length_le r2
        rw [hskip] at h1
        have h2 : r2.length ≤ (skipWs rest).length := stripPrefixC_length_le hstrip
        have h3 : (skipWs rest).length ≤ rest.length := skipWs_length_le rest
        simp at h1 ⊢
        omega
      · exact absurd h (by simp)
  · exact absurd h (by simp)

/-- Dollar-pattern expansion of a string replacement (ECMA-262
GetSubstitution, as performed by `String.prototype.replace`): a doubled
dollar emits one dollar, dollar-ampersand emits the matched text,
dollar-backquote (code 96) emits the portion of the subject before the
match, dollar-quote (code 39) emits the portion after it, and any other
dollar is literal (the placeholder regex has no capture groups and no
named groups, so the dollar-digit and dollar-angle forms are literal
too). -/
def expandDollar (matched pre post : List Char) : List Char → List Char
  | [] => []
  | [c] => [c]
  | c :: d :: rest =>
    if c = '$' then
      if d = '$' then '$' :: expandDollar matched pre post rest
      else if d = '&' then matched ++ expandDollar matched pre post rest
      else if d = Char.ofNat 96 then pre ++ expandDollar matched pre post rest
      else if d = Char.ofNat 39 then post ++ expandDollar matched pre post rest
      else c :: expandDollar matched pre post (d :: rest)
    else c :: expandDollar matched pre post (d :: rest)

/-- Text containing no dollar character: its expansion is itself. -/
def dollarFree (s : List Char) : Bool := s.all (fun c => c ≠ '$')

/-- Fueled global replacement of the placeholder token for key `k` by the
string replacement `v`, matching the semantics of
`String.prototype.replace` with a `g`-flagged regex and a string
replacement: the replacement is not rescanned for further tokens, and its
dollar patterns are expanded against each match (`expandDollar`).  `pre`
accumulates the portion of the subject before the current position, as
referenced by the dollar-backquote form. -/
def replaceTokAux (k v : List Char) : Nat → List Char → List Char → List Char
  | _, _, [] => []
  | 0, _, s => s
  | f + 1, pre, c :: cs =>
    match matchTok k (c :: cs) with
    | some rest =>
      let matched := (c :: cs).take ((c :: cs).length - rest.length)
      expandDollar matched pre rest v ++ replaceTokAux k v f (pre ++ matched) rest
    | none => c :: replaceTokAux k v f (pre ++ [c]) cs

/-- Global replacement of the placeholder token for `k` by `v` in `s`. -/
def replaceTok (k v s : List Char) : List Char :=
  replaceTokAux k v s.length [] s

/-- Does `s` contain an occurrence of the placeholder token for key `k`
(whitespace inside the braces tolerated)? -/
def hasTok (k : List Char) : List Char → Bool
  | [] => false
  | c :: cs => (matchTok k (c :: cs)).isSome || hasTok k cs

/-- `processTemplate(template, props)` (html-components.js lines
1615-1641): identity when `props` is empty, otherwise one global
replacement pass per property, in property order, with the replacement
string's dollar patterns expanded per match.  Prop keys are taken
verbatim as token names: the source interpolates the key into a RegExp,
and keys containing regex metacharacters (on which that constructor
would throw) lie outside the identifier-keyed PropertyMap domain
considered here. -/
def processTemplate (template : String) (props : List (String × JValue)) : String :=
  if props.isEmpty then template
  else props.foldl
    (fun acc kv => String.mk (replaceTok kv.1.data (stringifyProp kv.2).data acc.data))
    template

/-! ## Markup scanners

The walker (`loadNestedComponents`) and `executeScripts` discover
references via `querySelectorAll` over the freshly injected markup.  They
are abstracted by scanners over the markup text: `scanAttr attr body`
collects the values of `attr="..."` occurrences in document order, and
`scanScripts` collects script elements. -/

/-- Capture characters up to (excluding) the first occurrence of `c`. -/
def takeUntilChar (c : Char) : List Char → List Char
  | [] => []
  | x :: xs => if x = c then [] else x :: takeUntilChar c xs

/-- Capture characters up to (excluding) the first occurrence of the
character sequence `pat`. -/
def takeUntilSeq (pat : List Char) : List Char → List Char
  | [] => []
  | x :: xs => if (stripPrefixC pat (x :: xs)).isSome then [] else x :: takeUntilSeq pat xs

/-- Scan for occurrences of `pat` followed by a `"`-delimited value;
collect the values in document order. -/
def scanAttrAux (pat : List Char) : List Char → List (List Char)
  | [] => []
  | c :: cs =>
    match stripPrefixC pat (c :: cs) with
    | some rest => takeUntilChar '"' rest :: scanAttrAux pat cs
    | none => scanAttrAux pat cs

/-- Collect the values of the marker attribute `attrName` in `body`
(abstraction of `container.querySelectorAll('[attrName]')` +
`getAttribute`). -/
def scanAttr (attrName : String) (body : String) : List String :=
  (scanAttrAux (attrName ++ "=\"").data body.data).map String.mk

/-- A script element found in injected markup: an external script with a
`src`, or an inline script body. -/
inductive ScriptRef where
  | external (src : String)
  | inlineBody (text : String)
deriving Repr, DecidableEq

/-- Collect script elements of `body` in document order (abstraction of
`container.querySelectorAll('script')`). -/
def scanScriptsAux : List Char → List ScriptRef
  | [] => []
  | c :: cs =>
    match stripPrefixC "<script src=\"".data (c :: cs) with
    | some rest => .external (String.mk (takeUntilChar '"' rest)) :: scanScriptsAux cs
    | none =>
      match stripPrefixC "<script>".data (c :: cs) with
      | some rest => .inlineBody (String.mk (takeUntilSeq "</script>".data rest)) :: scanScriptsAux cs
      | none => scanScriptsAux cs

def scanScripts (body : String) : List ScriptRef := scanScriptsAux body.data

/-! ## Caches

`pageCache` and `fileCache` (html-components.js lines 1110-1207; the
first revision's lines 217-259 are semantically identical) are two
independent instances of the same shape: a key → `{content, timestamp}`
map guarded by an `enabled` flag. -/

/-- A cache entry: `{ content, timestamp: Date.now() }`. -/
structure CacheEntry where
  content : String
  timestamp : Nat
deriving Repr, DecidableEq

/-- One cache instance (`pageCache` / `fileCache`). -/
structure CacheSt where
  enabled : Bool
  entries : List (String × CacheEntry)
deriving Repr, DecidableEq

/-- `Map.prototype.set`: overwrite in place if the key is present,
append otherwise. -/
def mapInsert (k : String) (v : CacheEntry) : List (String × CacheEntry) → List (String × CacheEntry)
  | [] => [(k, v)]
  | (k', v') :: rest => if k' = k then (k, v) :: rest else (k', v') :: mapInsert k v rest

/-- `cache.set(key, content)`: stores iff enabled (with the current
timestamp), otherwise a no-op. -/
def cacheSet (c : CacheSt) (now : Nat) (k content : String) : CacheSt :=
  if c.enabled then { c with entries := mapInsert k ⟨content, now⟩ c.entries } else c

/-- `cache.get(key)`: the stored content iff enabled and present,
otherwise `null` (modelled as `none`). -/
def cacheGet (c : CacheSt) (k : String) : Option String :=
  if c.enabled then (c.entries.lookup k).map CacheEntry.content else none

/-- `cache.clear()`: removes all entries unconditionally. -/
def cacheClear (c : CacheSt) : CacheSt := { c with entries := [] }

/-- `cache.enable()`. -/
def cacheEnable (c : CacheSt) : CacheSt := { c with enabled := true }

/-- `cache.disable()`. -/
def cacheDisable (c : CacheSt) : CacheSt := { c with enabled := false }

/-- A cache lookup as used in `if (cachedContent) ...`: a hit whose
content is the empty string is falsy in JavaScript and is treated as a
miss by the callers. -/
def truthyGet (c : CacheSt) (k : String) : Option String :=
  match cacheGet c k with
  | some s => if s = "" then none else some s
  | none => none

/-! ## Events, DOM content, global state -/

/-- Observable events of a run, in order. -/
inductive Ev where
  | fetchComp (path : String)
  | fetchCss (href : String)
  | fetchJs (src : String)
  | evalJs (src : String)
  | inject (path : String)
  | bindEvents (path : String)
  | execExternal (path : String) (src : String)
  | execInline (path : String) (script : String)
  | nestedSettled (path : String)
deriving Repr, DecidableEq

/-- An item of an element's content.  `textPart` is literal markup;
`compChild` is an element bearing `data-component` together with the
rendered markup of its loaded content; `layoutChild` is a layout section
element created by the page assembler, with its rendered content. -/
inductive Item where
  | textPart (s : String)
  | compChild (path : String) (rendered : String)
  | layoutChild (tag cls idAttr : String) (attrs : List (String × String))
      (styles : List (String × String)) (rendered : String)
deriving Repr, DecidableEq

/-- String.prototype.trim as a structurally reducing function (the
core library's trim does not unfold definitionally). -/
def strTrim (s : String) : String :=
  String.mk (((s.data.dropWhile Char.isWhitespace).reverse.dropWhile Char.isWhitespace).reverse)

/-- Serialisation of attribute pairs. -/
def renderAttrs (attrs : List (String × String)) : String :=
  attrs.foldl (fun acc kv => acc ++ " " ++ kv.1 ++ "=\"" ++ kv.2 ++ "\"") ""

/-- Serialisation of inline styles assigned via `Object.assign(element.style, ...)`. -/
def renderStyles (styles : List (String × String)) : String :=
  if styles.isEmpty then ""
  else " style=\"" ++ strTrim (styles.foldl (fun acc kv => acc ++ kv.1 ++ ": " ++ kv.2 ++ "; ") "") ++ "\""

/-- Serialisation of one item. -/
def renderItem : Item → String
  | .textPart s => s
  | .compChild _ rendered => rendered
  | .layoutChild tag cls idAttr attrs styles rendered =>
      "<" ++ tag
        ++ (if cls = "" then "" else " class=\"" ++ cls ++ "\"")
        ++ (if idAttr = "" then "" else " id=\"" ++ idAttr ++ "\"")
        ++ renderAttrs attrs ++ renderStyles styles
        ++ ">" ++ rendered ++ "</" ++ tag ++ ">"

/-- `element.innerHTML` read-out: serialisation of the element's items. -/
def renderItems (items : List Item) : String :=
  items.foldl (fun acc it => acc ++ renderItem it) ""

/-- The items resulting from assigning `body` to an element's
`innerHTML`: the literal markup plus one (initially unloaded) child per
`data-component` reference. -/
def segmentItems (body : String) : List Item :=
  .textPart body :: (scanAttr "data-component" body).map (fun p => .compChild p "")

/-- Global mutable state of one library revision: the two caches, the
in-flight set (`loadingComponents`), the document head side effects, the
event trace, a clock for timestamps, and the `jsEnabled` flag. -/
structure St where
  fileCache : CacheSt
  pageCache : CacheSt
  inFlight : List String
  trace : List Ev
  headLinks : List String
  jsMarkers : List String
  headScripts : List String
  now : Nat
  jsEnabled : Bool
deriving Repr, DecidableEq

/-- The state at script load time (both revisions initialise identically). -/
def initSt : St :=
  { fileCache := ⟨true, []⟩, pageCache := ⟨true, []⟩, inFlight := [], trace := [],
    headLinks := [], jsMarkers := [], headScripts := [], now := 0, jsEnabled := true }

/-- Append an event to the trace. -/
def emit (st : St) (e : Ev) : St := { st with trace := st.trace ++ [e] }

/-! ## Network environment -/

/-- Outcome of a transport request for a URL. -/
inductive FetchResp where
  | ok (body : String)
  | httpError (status : Nat) (statusText : String)
  | netError (message : String)
deriving Repr, DecidableEq

/-- The transport: URL → response.  External to the library. -/
def Env : Type := String → FetchResp

/-- The error message raised on a non-ok response:
`` `HTTP ${response.status}: ${response.statusText}` ``. -/
def httpMsg (status : Nat) (statusText : String) : String :=
  "HTTP " ++ toString status ++ ": " ++ statusText

/-- The inline error block written into the target on a failed load
(html-components.js lines 1348-1351 and 341-344). -/
def errorBlock (path msg : String) : String :=
  "<div style=\"color: red; padding: 1rem; border: 1px solid red; background: #ffe6e6;\">"
    ++ "<strong>Component Load Error:</strong> " ++ path ++ "<br>"
    ++ "<small>" ++ msg ++ "</small></div>"

/-- Result of one `loadComponentIntoElement` call: the guard-suppressed
no-op success (`Promise.resolve()` with value `undefined`), a fulfilled
load carrying the resolved html, or a rejection carrying the error
message. -/
inductive LRes where
  | skipped
  | loaded (html : String)
  | failed (errMsg : String)
deriving Repr, DecidableEq

/-- Is the promise fulfilled? -/
def LRes.ok : LRes → Bool
  | .failed _ => false
  | _ => true

/-! ## Collaborator loaders (`loadCSS`, `HTMLComponents.loadJS`) -/

/-- `loadCSS(href)` (html-components.js lines 1708-1780) as a state
transform: skip when a matching `<link>` exists; inject from the file
cache when cached; otherwise append a `<link>` (emitting `fetchCss`),
and on a successful transport cache the fetched text (the
cache-populating `fetch` of the `onload` handler is folded into the same
step).  Rejections are swallowed by every caller in the walker
(`.catch(() => null)`), so no failure value is needed. -/
def loadCssModel (env : Env) (st : St) (href : String) : St :=
  if st.headLinks.contains href then st
  else
    match truthyGet st.fileCache href with
    | some _ => st
    | none =>
      let st := { st with headLinks := st.headLinks ++ [href] }
      let st := emit st (.fetchCss href)
      match env href with
      | .ok css =>
          { st with fileCache := cacheSet st.fileCache st.now href css, now := st.now + 1 }
      | _ => st

/-- `HTMLComponents.loadJS(src)` (html-components.js second revision):
skip when the `data-loaded-js` marker exists; otherwise fetch
(`fetchJs`), and on success evaluate the code (`evalJs`) and append the
marker.  Failures are swallowed by the walker. -/
def loadJsModel (env : Env) (st : St) (src : String) : St :=
  if st.jsMarkers.contains src then st
  else
    let st := emit st (.fetchJs src)
    match env src with
    | .ok _code =>
        let st := emit st (.evalJs src)
        { st with jsMarkers := st.jsMarkers ++ [src] }
    | _ => st

/-! ## Script execution -/

/-- The trace events of the first revision's `executeScripts`
(lines 422-442): scripts processed in document order, external scripts
appended to the head, non-blank inline scripts evaluated. -/
def scriptEvsV1 (path body : String) : List Ev :=
  (scanScripts body).filterMap fun sc =>
    match sc with
    | .external src => some (.execExternal path src)
    | .inlineBody t => if strTrim t ≠ "" then some (.execInline path t) else none

/-- External script sources of a body, in document order. -/
def extSrcs (body : String) : List String :=
  (scanScripts body).filterMap fun sc =>
    match sc with
    | .external src => some src
    | .inlineBody _ => none

/-- Non-blank inline script bodies, in document order. -/
def inlineTexts (body : String) : List String :=
  (scanScripts body).filterMap fun sc =>
    match sc with
    | .external _ => none
    | .inlineBody t => if strTrim t ≠ "" then some t else none

/-- First revision `executeScripts(container)`: guarded by `jsEnabled`;
per script in document order, append external sources to the head /
evaluate non-blank inline bodies (the `forEach` loop is written here in
its equivalent batched form). -/
def execScriptsV1 (st : St) (path body : String) : St :=
  if !st.jsEnabled then st
  else
    { st with headScripts := st.headScripts ++ extSrcs body,
              trace := st.trace ++ scriptEvsV1 path body }

/-- The trace events of the second revision's `executeScripts`
(lines 1648-1702): external scripts are batched first, then inline
scripts run. -/
def scriptEvsV2 (path body : String) : List Ev :=
  (extSrcs body).map (Ev.execExternal path) ++ (inlineTexts body).map (Ev.execInline path)

/-- Second revision `executeScripts(container)`. -/
def execScriptsV2 (st : St) (path body : String) : St :=
  if !st.jsEnabled then st
  else
    { st with headScripts := st.headScripts ++ extSrcs body,
              trace := st.trace ++ scriptEvsV2 path body }

/-! ## The fragment loader (`loadComponentIntoElement`), both revisions

An element is represented by its content items; a load call takes the
element's current items and returns the items after the call settles.
`none` means the fuel was exhausted. -/

/-- Sequentially load the `compChild` items of a freshly injected
element through `loadFn`, threading the state; rendered child contents
are updated in place.  This is the component half of
`loadNestedComponents`, with each child guarded by
`.catch(...)`/`.catch(() => null)` so that individual failures do not
abort the walk (`Promise.allSettled`). -/
def loadItemsWith (loadFn : St → String → List Item → Option (St × LRes × List Item)) :
    St → List Item → Option (St × List Item)
  | st, [] => some (st, [])
  | st, .compChild p r :: rest =>
    if p = "" then
      match loadItemsWith loadFn st rest with
      | some (st', rest') => some (st', .compChild p r :: rest')
      | none => none
    else
      match loadFn st p [.textPart r] with
      | some (st1, _res, childItems) =>
        match loadItemsWith loadFn st1 rest with
        | some (st2, rest') => some (st2, .compChild p (renderItems childItems) :: rest')
        | none => none
      | none => none
  | st, it :: rest =>
    match loadItemsWith loadFn st rest with
    | some (st', rest') => some (st', it :: rest')
    | none => none

/-- First revision `loadNestedComponents(container)` (lines 349-363):
stylesheet references then nested component references, all settled. -/
def loadNestedV1 (env : Env)
    (loadFn : St → String → List Item → Option (St × LRes × List Item))
    (st : St) (body : String) (items : List Item) : Option (St × List Item) :=
  let cssRefs := scanAttr "data-css" body
  let st := cssRefs.foldl (fun st href => if href = "" then st else loadCssModel env st href) st
  loadItemsWith loadFn st items

/-- Second revision `loadNestedComponents(container)` (lines 1358-1438):
script-file references, then stylesheet references, then nested
component references; immediate resolution when no references exist. -/
def loadNestedV2 (env : Env)
    (loadFn : St → String → List Item → Option (St × LRes × List Item))
    (st : St) (body : String) (items : List Item) : Option (St × List Item) :=
  let jsRefs := scanAttr "data-js" body
  let cssRefs := scanAttr "data-css" body
  let compRefs := scanAttr "data-component" body
  if jsRefs.length + cssRefs.length + compRefs.length = 0 then some (st, items)
  else
    let st := jsRefs.foldl (fun st src => if src = "" then st else loadJsModel env st src) st
    let st := cssRefs.foldl (fun st href => if href = "" then st else loadCssModel env st href) st
    loadItemsWith loadFn st items

/-- The failure path shared by both revisions' `.catch` handler: release
the guard, replace the target's content with the inline error block, and
propagate the rejection. -/
def failLoad (st : St) (path msg : String) : Option (St × LRes × List Item) :=
  let st := { st with inFlight := st.inFlight.erase path }
  let st := emit st (.inject path)
  some (st, .failed msg, [.textPart (errorBlock path msg)])

/-- First revision `loadComponentIntoElement(element, componentPath,
props)` (html-components.js lines 300-347).  On a (truthy) cache hit the
cached body is substituted with the caller's props and injected, events
bound, nested dependencies settled, then scripts execute and the guard is
released.  On the network path the fetched text is substituted, the
substituted text cached, injected, then the same continuation runs.  On
fetch failure the error block is injected. -/
def loadV1 (env : Env) : Nat → St → String → List (String × JValue) → List Item →
    Option (St × LRes × List Item)
  | 0, _, _, _, _ => none
  | fuel + 1, st0, path, props, el =>
    if st0.inFlight.contains path then
      some (st0, .skipped, el)
    else
      let st1 := { st0 with inFlight := st0.inFlight ++ [path] }
      match truthyGet st1.fileCache path with
      | some cached =>
        let body := processTemplate cached props
        let el1 := segmentItems body
        let st2 := emit st1 (.inject path)
        let st3 := emit st2 (.bindEvents path)
        match loadNestedV1 env (fun st p c => loadV1 env fuel st p [] c) st3 body el1 with
        | some (st4, el2) =>
          let st5 := emit st4 (.nestedSettled path)
          let st6 := execScriptsV1 st5 path body
          let st7 := { st6 with inFlight := st6.inFlight.erase path }
          some (st7, .loaded cached, el2)
        | none => none
      | none =>
        let st2 := emit st1 (.fetchComp path)
        match env path with
        | .ok raw =>
          let body := processTemplate raw props
          let st3 := { st2 with fileCache := cacheSet st2.fileCache st2.now path body,
                                now := st2.now + 1 }
          let el1 := segmentItems body
          let st4 := emit st3 (.inject path)
          let st5 := emit st4 (.bindEvents path)
          match loadNestedV1 env (fun st p c => loadV1 env fuel st p [] c) st5 body el1 with
          | some (st6, el2) =>
            let st7 := emit st6 (.nestedSettled path)
            let st8 := execScriptsV1 st7 path body
            let st9 := { st8 with inFlight := st8.inFlight.erase path }
            some (st9, .loaded body, el2)
          | none => none
        | .httpError status statusText => failLoad st2 path (httpMsg status statusText)
        | .netError msg => failLoad st2 path msg

/-- Second revision `loadComponentIntoElement(element, componentPath,
props)` (html-components.js lines 1280-1355).  Differences from the
first revision, mirrored from the source: on a cache hit the cached body
is injected **without** substituting the caller's props and without
binding event handlers; embedded scripts execute immediately after
injection, **before** nested dependency resolution; on the network path
substitution is applied only when `props` is non-empty. -/
def loadV2 (env : Env) : Nat → St → String → List (String × JValue) → List Item →
    Option (St × LRes × List Item)
  | 0, _, _, _, _ => none
  | fuel + 1, st0, path, props, el =>
    if st0.inFlight.contains path then
      some (st0, .skipped, el)
    else
      let st1 := { st0 with inFlight := st0.inFlight ++ [path] }
      match truthyGet st1.fileCache path with
      | some cached =>
        let el1 := segmentItems cached
        let st2 := emit st1 (.inject path)
        let st3 := execScriptsV2 st2 path cached
        match loadNestedV2 env (fun st p c => loadV2 env fuel st p [] c) st3 cached el1 with
        | some (st4, el2) =>
          let st5 := emit st4 (.nestedSettled path)
          let st6 := { st5 with inFlight := st5.inFlight.erase path }
          some (st6, .loaded cached, el2)
        | none => none
      | none =>
        let st2 := emit st1 (.fetchComp path)
        match env path with
        | .ok raw =>
          let body := if props.isEmpty then raw else processTemplate raw props
          let st3 := { st2 with fileCache := cacheSet st2.fileCache st2.now path body,
                                now := st2.now + 1 }
          let el1 := segmentItems body
          let st4 := emit st3 (.inject path)
          let st5 := execScriptsV2 st4 path body
          let st6 := emit st5 (.bindEvents path)
          match loadNestedV2 env (fun st p c => loadV2 env fuel st p [] c) st6 body el1 with
          | some (st7, el2) =>
            let st8 := emit st7 (.nestedSettled path)
            let st9 := { st8 with inFlight := st8.inFlight.erase path }
            some (st9, .loaded body, el2)
          | none => none
        | .httpError status statusText => failLoad st2 path (httpMsg status statusText)
        | .netError msg => failLoad st2 path msg

/-! ## Component specifications and page definitions -/

/-- A prop value in a component spec: a plain value, or a function
(modelled by the value it returns when called). -/
inductive PropV where
  | value (v : JValue)
  | func (result : JValue)
deriving Repr

/-- Build the final `processedProps` map: call each function-valued prop
(once), keep plain values (html-components.js lines 2092-2102 /
599-602). -/
def evalProps (props : List (String × PropV)) : List (String × JValue) :=
  props.map fun kv =>
    (kv.1, match kv.2 with
           | .value v => v
           | .func r => r)

/-- The `css` field of a spec: a space-separated class string or a class
list. -/
inductive CssSpec where
  | str (s : String)
  | list (cs : List String)
deriving Repr

def cssClasses : CssSpec → List String
  | .str s => s.splitOn " "
  | .list cs => cs

/-- `element.classList.add(...classes)`: append each class not already
present.  (Empty class names would throw in the browser and are skipped
here.) -/
def addClasses (cls : String) (newCs : List String) : String :=
  newCs.foldl
    (fun acc c =>
      if c = "" then acc
      else if (acc.splitOn " ").contains c then acc
      else if acc = "" then c else acc ++ " " ++ c)
    cls

/-- The `layout` field: a bare class string, or an object with optional
class/id/tag plus attributes and inline styles. -/
inductive LayoutSpec where
  | cls (s : String)
  | obj (cls idAttr tag : Option String)
      (attrs : List (String × String)) (styles : List (String × String))
deriving Repr

/-- `typeof layout === 'string' ? layout : layout.class || ''`. -/
def layoutCls : LayoutSpec → String
  | .cls s => s
  | .obj c _ _ _ _ => c.getD ""

/-- `typeof layout === 'string' ? '' : layout.id || ''`. -/
def layoutId : LayoutSpec → String
  | .cls _ => ""
  | .obj _ i _ _ _ => i.getD ""

/-- `typeof layout === 'object' ? layout.tag || 'section' : 'section'`. -/
def layoutTag : LayoutSpec → String
  | .cls _ => "section"
  | .obj _ _ t _ _ =>
    match t with
    | some s => if s = "" then "section" else s
    | none => "section"

/-- The `condition` field: a plain value or a function (modelled by its
return value; it is evaluated once). -/
inductive CondSpec where
  | value (v : JValue)
  | func (result : JValue)
deriving Repr

/-- `typeof condition === 'function' ? condition() : condition`. -/
def condResult : CondSpec → JValue
  | .value v => v
  | .func r => r

/-- A component spec: a fragment identifier shorthand, a structured
object, or a value of any other type (processed as a no-op). -/
inductive CompSpec where
  | strSpec (path : String)
  | objSpec (name : String) (selector : Option String) (props : List (String × PropV))
      (layout : Option LayoutSpec) (children : Option (List CompSpec))
      (css : Option CssSpec) (idAttr : Option String) (condition : Option CondSpec)
  | invalid
deriving Repr

/-- `if (id) element.id = id` after the layout id was applied. -/
def applyId (cur : String) (idAttr : Option String) : String :=
  match idAttr with
  | some i => if i ≠ "" then i else cur
  | none => cur

/-- JSON serialisation of a prop entry; function-valued properties are
omitted by `JSON.stringify`. -/
def jsonOfPropV : String × PropV → Option String
  | (k, .value v) => some ("\"" ++ jsonEscape k ++ "\":" ++ jsonStringify v)
  | (_, .func _) => none

def jsonOfLayout : LayoutSpec → String
  | .cls s => jsonStringify (.str s)
  | .obj c i t attrs styles =>
      "\x7b" ++ joinComma (
        (match c with | some s => ["\"class\":" ++ jsonStringify (.str s)] | none => [])
        ++ (match i with | some s => ["\"id\":" ++ jsonStringify (.str s)] | none => [])
        ++ (match t with | some s => ["\"tag\":" ++ jsonStringify (.str s)] | none => [])
        ++ (if attrs.isEmpty then [] else
            ["\"attrs\":\x7b" ++ joinComma (attrs.map fun kv =>
              "\"" ++ jsonEscape kv.1 ++ "\":" ++ jsonStringify (.str kv.2)) ++ "\x7d"])
        ++ (if styles.isEmpty then [] else
            ["\"styles\":\x7b" ++ joinComma (styles.map fun kv =>
              "\"" ++ jsonEscape kv.1 ++ "\":" ++ jsonStringify (.str kv.2)) ++ "\x7d"])) ++ "\x7d"

def jsonOfCss : CssSpec → String
  | .str s => jsonStringify (.str s)
  | .list cs => "[" ++ joinComma (cs.map fun c => jsonStringify (.str c)) ++ "]"

/-- `JSON.stringify` of a component spec (canonical field order; fields
that are absent — or function-valued, which `JSON.stringify` omits — do
not appear).  Used only to derive default cache keys, which are opaque. -/
def jsonOfComp : CompSpec → String
  | .strSpec p => jsonStringify (.str p)
  | .invalid => "null"
  | .objSpec name sel props layout children css idAttr condition =>
      "\x7b" ++ joinComma (
        ["\"name\":" ++ jsonStringify (.str name)]
        ++ (match sel with | some s => ["\"selector\":" ++ jsonStringify (.str s)] | none => [])
        ++ (if props.isEmpty then [] else
            ["\"props\":\x7b" ++ joinComma (props.filterMap jsonOfPropV) ++ "\x7d"])
        ++ (match layout with | some l => ["\"layout\":" ++ jsonOfLayout l] | none => [])
        ++ (match children with
            | some cs => ["\"children\":[" ++ joinComma (cs.attach.map fun c => jsonOfComp c.1) ++ "]"]
            | none => [])
        ++ (match css with | some c => ["\"css\":" ++ jsonOfCss c] | none => [])
        ++ (match idAttr with | some s => ["\"id\":" ++ jsonStringify (.str s)] | none => [])
        ++ (match condition with
            | some (.value v) => ["\"condition\":" ++ jsonStringify v]
            | some (.func _) => []
            | none => [])) ++ "\x7d"
decreasing_by
  have := List.sizeOf_lt_of_mem c.2
  simp only [CompSpec.objSpec.sizeOf_spec, Option.some.sizeOf_spec]
  omega

/-- `JSON.stringify(components)` over a component list. -/
def jsonOfComps (cs : List CompSpec) : String :=
  "[" ++ joinComma (cs.map jsonOfComp) ++ "]"

/-- A page definition: the legacy ordered list of specs, or the enhanced
record. -/
inductive PageDef where
  | arr (comps : List CompSpec)
  | obj (title description layoutName : Option String)
      (styles : List String) (meta : List (String × String))
      (comps : Option (List CompSpec)) (cacheKey : Option String) (cache : Option Bool)
deriving Repr

/-- The component list of a page definition
(`Array.isArray(pageDef) ? pageDef : pageDef.components || []`). -/
def PageDef.components : PageDef → List CompSpec
  | .arr cs => cs
  | .obj _ _ _ _ _ cs _ _ => cs.getD []

/-- Document-level state: title, meta description, and the build target
element's content. -/
structure DocSt where
  title : String
  metaDesc : Option String
  target : List Item
deriving Repr, DecidableEq

/-- Result of a `buildPage` call. -/
inductive BuildRes where
  | targetNotFound
  | fromCache
  | settled (oks : List Bool)
deriving Repr, DecidableEq

/-- Sequentially process a list of component specs against an element,
threading the state and collecting one settled outcome per spec
(`Promise.allSettled`: a spec's failure does not abort its siblings). -/
def processListWith (f : St → List Item → CompSpec → Option (St × List Item × Bool)) :
    St → List Item → List CompSpec → Option (St × List Item × List Bool)
  | st, el, [] => some (st, el, [])
  | st, el, c :: cs =>
    match f st el c with
    | some (st1, el1, ok) =>
      match processListWith f st1 el1 cs with
      | some (st2, el2, oks) => some (st2, el2, ok :: oks)
      | none => none
    | none => none

/-- First revision `processComponentDefinition(comp, target)`
(html-components.js lines 564-614).  String specs load directly into the
target with empty props.  Object specs: the `condition` gates processing;
a `layout` creates a new container appended to the target (class/id/tag
only in this revision); otherwise a `selector` is resolved against the
document (modelled as a miss, falling back to the target); `css`/`id` are
applied to the container; prop functions are evaluated; the loader is
invoked with the computed props; `children` (when a non-empty list) are
processed against the container after the load settles. -/
def processCompDefV1 (env : Env) : Nat → St → List Item → CompSpec → Option (St × List Item × Bool)
  | 0, _, _, _ => none
  | fuel + 1, st, target, comp =>
    match comp with
    | .strSpec path =>
      match loadV1 env fuel st path [] target with
      | some (st', res, target') => some (st', target', res.ok)
      | none => none
    | .invalid => some (st, target, true)
    | .objSpec name _selector props layout children css idAttr condition =>
      let skip := match condition with
        | some c => !truthy (condResult c)
        | none => false
      if skip then some (st, target, true)
      else
        let pp := evalProps props
        match layout with
        | some l =>
          let cls1 := match css with
            | some c => addClasses (layoutCls l) (cssClasses c)
            | none => layoutCls l
          let id1 := applyId (layoutId l) idAttr
          match loadV1 env fuel st name pp [] with
          | some (st1, res, elItems) =>
            if res.ok then
              match children with
              | some cs =>
                if cs.isEmpty then
                  some (st1, target ++ [.layoutChild (layoutTag l) cls1 id1 [] [] (renderItems elItems)], true)
                else
                  match processListWith (processCompDefV1 env fuel) st1 elItems cs with
                  | some (st2, elItems', _oks) =>
                    some (st2, target ++ [.layoutChild (layoutTag l) cls1 id1 [] [] (renderItems elItems')], true)
                  | none => none
              | none =>
                some (st1, target ++ [.layoutChild (layoutTag l) cls1 id1 [] [] (renderItems elItems)], true)
            else
              some (st1, target ++ [.layoutChild (layoutTag l) cls1 id1 [] [] (renderItems elItems)], false)
          | none => none
        | none =>
          match loadV1 env fuel st name pp target with
          | some (st1, res, target1) =>
            if res.ok then
              match children with
              | some cs =>
                if cs.isEmpty then some (st1, target1, true)
                else
                  match processListWith (processCompDefV1 env fuel) st1 target1 cs with
                  | some (st2, target2, _oks) => some (st2, target2, true)
                  | none => none
              | none => some (st1, target1, true)
            else some (st1, target1, false)
          | none => none

/-- Second revision `processComponentDefinition(component, target)`
(html-components.js lines 2006-2144).  As the first revision, except:
layout objects also carry attributes and inline styles; `children` is
processed whenever it is an array; and — mirrored faithfully from line
2120 — the computed `processedProps` are **not** passed to
`loadComponentIntoElement(element, name)`, which therefore receives its
default empty props. -/
def processCompDefV2 (env : Env) : Nat → St → List Item → CompSpec → Option (St × List Item × Bool)
  | 0, _, _, _ => none
  | fuel + 1, st, target, comp =>
    match comp with
    | .strSpec path =>
      match loadV2 env fuel st path [] target with
      | some (st', res, target') => some (st', target', res.ok)
      | none => none
    | .invalid => some (st, target, true)
    | .objSpec name _selector props layout children css idAttr _condition =>
      let skip := match _condition with
        | some c => !truthy (condResult c)
        | none => false
      if skip then some (st, target, true)
      else
        let _processedProps := evalProps props
        match layout with
        | some l =>
          let lattrs := match l with
            | .cls _ => []
            | .obj _ _ _ attrs _ => attrs
          let lstyles := match l with
            | .cls _ => []
            | .obj _ _ _ _ styles => styles
          let cls1 := match css with
            | some c => addClasses (layoutCls l) (cssClasses c)
            | none => layoutCls l
          let id1 := applyId (layoutId l) idAttr
          match loadV2 env fuel st name [] [] with
          | some (st1, res, elItems) =>
            if res.ok then
              match children with
              | some cs =>
                match processListWith (processCompDefV2 env fuel) st1 elItems cs with
                | some (st2, elItems', _oks) =>
                  some (st2, target ++ [.layoutChild (layoutTag l) cls1 id1 lattrs lstyles (renderItems elItems')], true)
                | none => none
              | none =>
                some (st1, target ++ [.layoutChild (layoutTag l) cls1 id1 lattrs lstyles (renderItems elItems)], true)
            else
              some (st1, target ++ [.layoutChild (layoutTag l) cls1 id1 lattrs lstyles (renderItems elItems)], false)
          | none => none
        | none =>
          match loadV2 env fuel st name [] target with
          | some (st1, res, target1) =>
            if res.ok then
              match children with
              | some cs =>
                match processListWith (processCompDefV2 env fuel) st1 target1 cs with
                | some (st2, target2, _oks) => some (st2, target2, true)
                | none => none
              | none => some (st1, target1, true)
            else some (st1, target1, false)
          | none => none

/-! ## Page building -/

/-- First revision `buildPageFromComponents(pageDef, targetElement,
clearTarget)` (html-components.js lines 508-562).  The cache key is the
definition's `cacheKey` or the first 50 characters of
`JSON.stringify(components)`; a truthy `pageCache` hit replaces the
target content and returns immediately; otherwise the target is cleared
when requested or empty, page metadata is applied, every spec is
processed in order (all-settled), and the target's final markup is
stored in the page cache (whose `set` is itself guarded by `enabled`). -/
def buildPageV1 (env : Env) (fuel : Nat) (st : St) (doc : DocSt) (targetFound : Bool)
    (pageDef : PageDef) (clearTarget : Bool) : Option (St × DocSt × BuildRes) :=
  if !targetFound then some (st, doc, .targetNotFound)
  else
    let components := pageDef.components
    let cacheKey := match pageDef with
      | .arr _ => (jsonOfComps components).take 50
      | .obj _ _ _ _ _ _ ck _ =>
        match ck with
        | some k => if k ≠ "" then k else (jsonOfComps components).take 50
        | none => (jsonOfComps components).take 50
    match truthyGet st.pageCache cacheKey with
    | some cached => some (st, { doc with target := [.textPart cached] }, .fromCache)
    | none =>
      let target0 := if clearTarget || strTrim (renderItems doc.target) = "" then [] else doc.target
      let st := match pageDef with
        | .arr _ => st
        | .obj _ _ _ styles _ _ _ _ => styles.foldl (fun st url => loadCssModel env st url) st
      let doc := match pageDef with
        | .arr _ => doc
        | .obj title _ _ _ _ _ _ _ =>
          match title with
          | some t => if t ≠ "" then { doc with title := t } else doc
          | none => doc
      let doc := match pageDef with
        | .arr _ => doc
        | .obj _ description _ _ _ _ _ _ =>
          match description with
          | some d => if d ≠ "" then { doc with metaDesc := some d } else doc
          | none => doc
      match processListWith (processCompDefV1 env fuel) st target0 components with
      | some (st1, target1, oks) =>
        let st2 := { st1 with
          pageCache := cacheSet st1.pageCache st1.now cacheKey (renderItems target1),
          now := st1.now + 1 }
        some (st2, { doc with target := target1 }, .settled oks)
      | none => none

/-- `generateCacheKey(pageDefinition, targetElement)` (html-components.js
lines 1971-2003). -/
def base64Chars : List Char :=
  "ABCDEFGHIJKLMNOPQRSTUVWXYZabcdefghijklmnopqrstuvwxyz0123456789+/".data

def b64At (n : Nat) : Char := base64Chars.getD n 'A'

/-- `btoa` on the ASCII fragment. -/
def btoaAux : List Char → List Char
  | [] => []
  | [a] =>
      let x := a.toNat
      [b64At (x / 4), b64At ((x % 4) * 16), '=', '=']
  | [a, b] =>
      let x := a.toNat; let y := b.toNat
      [b64At (x / 4), b64At ((x % 4) * 16 + y / 16), b64At ((y % 16) * 4), '=']
  | a :: b :: c :: rest =>
      let x := a.toNat; let y := b.toNat; let z := c.toNat
      b64At (x / 4) :: b64At ((x % 4) * 16 + y / 16) :: b64At ((y % 16) * 4 + z / 64)
        :: b64At (z % 64) :: btoaAux rest

def btoa (s : String) : String := String.mk (btoaAux s.data)

def generateCacheKey (pageDef : PageDef) (targetElement : String) : String :=
  match pageDef with
  | .arr comps => "array_" ++ (btoa (jsonOfComps comps)).take 16 ++ "_" ++ targetElement
  | .obj title _ layoutName _ _ comps _ _ =>
      let keyParts : List String :=
        (match title with | some t => if t ≠ "" then [t] else [] | none => [])
        ++ (match layoutName with | some l => if l ≠ "" then [l] else [] | none => [])
        ++ (match comps with | some cs => [toString cs.length] | none => [])
        ++ [targetElement]
      "object_" ++ (btoa (String.intercalate "|" keyParts)).take 16

/-- Second revision `buildPageFromComponents(pageDefinition,
targetElement, clearTarget, cacheOptions)` (html-components.js lines
1844-1968).  `useCache` defaults to the page cache's flag and can be
overridden by `cacheOptions.enabled` then by the definition's `cache`;
the cache key comes from `cacheOptions.key`, the definition's
`cacheKey`, or — when caching is on — `generateCacheKey`.  With caching
on and a key, a truthy hit replaces the target content and returns
immediately; otherwise the page is built as in the first revision (the
emptiness check also accepts the two placeholder comments) and the final
markup is stored iff caching is on and a key exists. -/
def buildPageV2 (env : Env) (fuel : Nat) (st : St) (doc : DocSt) (targetFound : Bool)
    (pageDef : PageDef) (targetSel : String) (clearTarget : Bool)
    (optKey : Option String) (optEnabled : Option Bool) : Option (St × DocSt × BuildRes) :=
  if !targetFound then some (st, doc, .targetNotFound)
  else
    let componentList := pageDef.components
    let cacheKey0 : Option String := match optKey with
      | some k => if k ≠ "" then some k else none
      | none => none
    let useCache0 := match optEnabled with
      | some b => b
      | none => st.pageCache.enabled
    let cacheKey1 := match pageDef with
      | .arr _ => cacheKey0
      | .obj _ _ _ _ _ _ ck _ =>
        match ck with
        | some k => if k ≠ "" then some k else cacheKey0
        | none => cacheKey0
    let useCache := match pageDef with
      | .arr _ => useCache0
      | .obj _ _ _ _ _ _ _ c =>
        match c with
        | some b => b
        | none => useCache0
    let cacheKey := match cacheKey1 with
      | some k => some k
      | none => if useCache then some (generateCacheKey pageDef targetSel) else none
    let hit := match cacheKey with
      | some k => if useCache then truthyGet st.pageCache k else none
      | none => none
    match hit with
    | some cached => some (st, { doc with target := [.textPart cached] }, .fromCache)
    | none =>
      let tHtml := strTrim (renderItems doc.target)
      let isEmpty := tHtml = ""
        || tHtml = "<!-- Everything will be built by JavaScript! -->"
        || tHtml = "<!-- Everything built by JS -->"
      let target0 := if clearTarget || isEmpty then [] else doc.target
      let st := match pageDef with
        | .arr _ => st
        | .obj _ _ _ styles _ _ _ _ => styles.foldl (fun st url => loadCssModel env st url) st
      let doc := match pageDef with
        | .arr _ => doc
        | .obj title _ _ _ _ _ _ _ =>
          match title with
          | some t => if t ≠ "" then { doc with title := t } else doc
          | none => doc
      let doc := match pageDef with
        | .arr _ => doc
        | .obj _ description _ _ _ _ _ _ =>
          match description with
          | some d => if d ≠ "" then { doc with metaDesc := some d } else doc
          | none => doc
      match processListWith (processCompDefV2 env fuel) st target0 componentList with
      | some (st1, target1, oks) =>
        let st2 := match cacheKey with
          | some k =>
            if useCache then
              { st1 with pageCache := cacheSet st1.pageCache st1.now k (renderItems target1),
                         now := st1.now + 1 }
            else st1
          | none => st1
        some (st2, { doc with target := target1 }, .settled oks)
      | none => none

/-! ## Script-after-nested ordering checker

`scriptsOk t settled` walks a trace and checks that every script
execution event of a fragment is preceded by the settlement of that
fragment's nested dependency resolution. -/

/-- Is the event a script execution (external or inline)? -/
def isExecEv : Ev → Bool
  | .execExternal _ _ => true
  | .execInline _ _ => true
  | _ => false

/-- Walk the trace; `settled` accumulates fragments whose nested
dependencies have settled; every script execution event must belong to
an already-settled fragment. -/
def scriptsOk : List Ev → List String → Bool
  | [], _ => true
  | .nestedSettled p :: rest, settled => scriptsOk rest (p :: settled)
  | .execExternal p _ :: rest, settled => settled.contains p && scriptsOk rest settled
  | .execInline p _ :: rest, settled => settled.contains p && scriptsOk rest settled
  | _ :: rest, settled => scriptsOk rest settled

/-- The settled-set accumulated by a trace. -/
def settledAfter : List Ev → List String → List String
  | [], s => s
  | .nestedSettled p :: rest, s => settledAfter rest (p :: s)
  | _ :: rest, s => settledAfter rest s

/-! ## Generic preservation lemmas -/

theorem loadItemsWith_rel (P : St → St → Prop)
    (htrans : ∀ {a b c : St}, P a b → P b c → P a c)
    (hrefl : ∀ s, P s s)
    (loadFn : St → String → List Item → Option (St × LRes × List Item))
    (hfn : ∀ st p el st' r el', loadFn st p el = some (st', r, el') → P st st') :
    ∀ items st st' items', loadItemsWith loadFn st items = some (st', items') → P st st' := by
  intro items
  induction items with
  | nil =>
    intro st st' items' h
    simp only [loadItemsWith, Option.some.injEq, Prod.mk.injEq] at h
    obtain ⟨h1, _⟩ := h
    subst h1
    exact hrefl _
  | cons it rest ih =>
    intro st st' items' h
    cases it with
    | compChild p r =>
      simp only [loadItemsWith] at h
      split at h
      · split at h
        · rename_i st1 rest' heq
          simp only [Option.some.injEq, Prod.mk.injEq] at h
          obtain ⟨h1, _⟩ := h
          subst h1
          exact ih _ _ _ heq
        · exact absurd h (by simp)
      · split at h
        · rename_i st1 res childItems heq
          split at h
          · rename_i st2 rest' heq2
            simp only [Option.some.injEq, Prod.mk.injEq] at h
            obtain ⟨h1, _⟩ := h
            subst h1
            exact htrans (hfn _ _ _ _ _ _ heq) (ih _ _ _ heq2)
          · exact absurd h (by simp)
        · exact absurd h (by simp)
    | textPart s =>
      simp only [loadItemsWith] at h
      split at h
      · rename_i st1 rest' heq
        simp only [Option.some.injEq, Prod.mk.injEq] at h
        obtain ⟨h1, _⟩ := h
        subst h1
        exact ih _ _ _ heq
      · exact absurd h (by simp)
    | layoutChild tag cls idAttr attrs styles r =>
      simp only [loadItemsWith] at h
      split at h
      · rename_i st1 rest' heq
        simp only [Option.some.injEq, Prod.mk.injEq] at h
        obtain ⟨h1, _⟩ := h
        subst h1
        exact ih _ _ _ heq
      · exact absurd h (by simp)

theorem processListWith_rel (P : St → St → Prop)
    (htrans : ∀ {a b c : St}, P a b → P b c → P a c)
    (hrefl : ∀ s, P s s)
    (f : St → List Item → CompSpec → Option (St × List Item × Bool))
    (hf : ∀ st el c st' el' ok, f st el c = some (st', el', ok) → P st st') :
    ∀ cs st el st' el' oks, processListWith f st el cs = some (st', el', oks) → P st st' := by
  intro cs
  induction cs with
  | nil =>
    intro st el st' el' oks h
    simp only [processListWith, Option.some.injEq, Prod.mk.injEq] at h
    obtain ⟨h1, _⟩ := h
    subst h1
    exact hrefl _
  | cons c rest ih =>
    intro st el st' el' oks h
    simp only [processListWith] at h
    split at h
    · rename_i st1 el1 ok heq
      split at h
      · rename_i st2 el2 oks2 heq2
        simp only [Option.some.injEq, Prod.mk.injEq] at h
        obtain ⟨h1, _⟩ := h
        subst h1
        exact htrans (hf _ _ _ _ _ _ heq) (ih _ _ _ _ _ heq2)
      · exact absurd h (by simp)
    · exact absurd h (by simp)

theorem foldl_rel (P : St → St → Prop)
    (htrans : ∀ {a b c : St}, P a b → P b c → P a c)
    (hrefl : ∀ s, P s s)
    (g : St → String → St) (hg : ∀ st x, P st (g st x)) :
    ∀ (xs : List String) (st : St), P st (xs.foldl g st) := by
  intro xs
  induction xs with
  | nil => intro st; exact hrefl st
  | cons x rest ih =>
    intro st
    exact htrans (hg st x) (ih (g st x))

/-- The base invariant of every collaborator call and every fragment
load: the in-flight set is restored, the rendered-page cache is
untouched, and the trace only grows. -/
def PBase (a b : St) : Prop :=
  b.inFlight = a.inFlight ∧ b.pageCache = a.pageCache ∧ ∃ Δ, b.trace = a.trace ++ Δ

theorem PBase_refl (s : St) : PBase s s := ⟨rfl, rfl, [], by simp⟩

theorem PBase_trans {a b c : St} (h1 : PBase a b) (h2 : PBase b c) : PBase a c := by
  obtain ⟨i1, p1, Δ1, t1⟩ := h1
  obtain ⟨i2, p2, Δ2, t2⟩ := h2
  exact ⟨i2.trans i1, p2.trans p1, Δ1 ++ Δ2, by rw [t2, t1, List.append_assoc]⟩

theorem loadCssModel_pbase (env : Env) (st : St) (href : String) :
    PBase st (loadCssModel env st href) := by
  unfold loadCssModel
  split
  · exact PBase_refl st
  · split
    · exact PBase_refl st
    · simp only [emit]
      split
      · exact ⟨rfl, rfl, [.fetchCss href], rfl⟩
      · exact ⟨rfl, rfl, [.fetchCss href], rfl⟩

theorem loadJsModel_pbase (env : Env) (st : St) (src : String) :
    PBase st (loadJsModel env st src) := by
  unfold loadJsModel
  split
  · exact PBase_refl st
  · simp only [emit]
    split
    · exact ⟨rfl, rfl, [.fetchJs src, .evalJs src], by simp⟩
    · exact ⟨rfl, rfl, [.fetchJs src], rfl⟩

theorem execScriptsV1_eff (st : St) (path body : String) :
    (execScriptsV1 st path body).inFlight = st.inFlight ∧
    (execScriptsV1 st path body).pageCache = st.pageCache ∧
    ((execScriptsV1 st path body).trace = st.trace ∨
      (execScriptsV1 st path body).trace = st.trace ++ scriptEvsV1 path body) := by
  unfold execScriptsV1
  split
  · exact ⟨rfl, rfl, Or.inl rfl⟩
  · exact ⟨rfl, rfl, Or.inr rfl⟩

theorem execScriptsV2_eff (st : St) (path body : String) :
    (execScriptsV2 st path body).inFlight = st.inFlight ∧
    (execScriptsV2 st path body).pageCache = st.pageCache ∧
    ((execScriptsV2 st path body).trace = st.trace ∨
      (execScriptsV2 st path body).trace = st.trace ++ scriptEvsV2 path body) := by
  unfold execScriptsV2
  split
  · exact ⟨rfl, rfl, Or.inl rfl⟩
  · exact ⟨rfl, rfl, Or.inr rfl⟩

theorem execScriptsV1_pbase (st : St) (path body : String) :
    PBase st (execScriptsV1 st path body) := by
  obtain ⟨h1, h2, h3⟩ := execScriptsV1_eff st path body
  rcases h3 with h3 | h3
  · exact ⟨h1, h2, [], by simpa using h3⟩
  · exact ⟨h1, h2, scriptEvsV1 path body, h3⟩

theorem execScriptsV2_pbase (st : St) (path body : String) :
    PBase st (execScriptsV2 st path body) := by
  obtain ⟨h1, h2, h3⟩ := execScriptsV2_eff st path body
  rcases h3 with h3 | h3
  · exact ⟨h1, h2, [], by simpa using h3⟩
  · exact ⟨h1, h2, scriptEvsV2 path body, h3⟩

theorem loadNestedV1_rel (P : St → St → Prop)
    (htrans : ∀ {a b c : St}, P a b → P b c → P a c)
    (hrefl : ∀ s, P s s)
    (env : Env) (loadFn : St → String → List Item → Option (St × LRes × List Item))
    (hcss : ∀ st href, P st (loadCssModel env st href))
    (hfn : ∀ st p el st' r el', loadFn st p el = some (st', r, el') → P st st') :
    ∀ st body items st' items', loadNestedV1 env loadFn st body items = some (st', items') →
      P st st' := by
  intro st body items st' items' h
  unfold loadNestedV1 at h
  refine htrans (foldl_rel P htrans hrefl _ ?_ _ st) (loadItemsWith_rel P htrans hrefl loadFn hfn _ _ _ _ h)
  intro st x
  split
  · exact hrefl st
  · exact hcss st x

theorem loadNestedV2_rel (P : St → St → Prop)
    (htrans : ∀ {a b c : St}, P a b → P b c → P a c)
    (hrefl : ∀ s, P s s)
    (env : Env) (loadFn : St → String → List Item → Option (St × LRes × List Item))
    (hcss : ∀ st href, P st (loadCssModel env st href))
    (hjs : ∀ st src, P st (loadJsModel env st src))
    (hfn : ∀ st p el st' r el', loadFn st p el = some (st', r, el') → P st st') :
    ∀ st body items st' items', loadNestedV2 env loadFn st body items = some (st', items') →
      P st st' := by
  intro st body items st' items' h
  unfold loadNestedV2 at h
  simp only [] at h
  split at h
  · simp only [Option.some.injEq, Prod.mk.injEq] at h
    obtain ⟨h1, _⟩ := h
    subst h1
    exact hrefl _
  · refine htrans (foldl_rel P htrans hrefl _ ?_ _ st)
      (htrans (foldl_rel P htrans hrefl _ ?_ _ _)
        (loadItemsWith_rel P htrans hrefl loadFn hfn _ _ _ _ h))
    · intro st x
      split
      · exact hrefl st
      · exact hjs st x
    · intro st x
      split
      · exact hrefl st
      · exact hcss st x

theorem erase_append_self (l : List String) (p : String) (h : p ∉ l) :
    (l ++ [p]).erase p = l := by
  rw [List.erase_append_right _ (by simpa using h)]
  simp

theorem loadV1_pbase : ∀ (fuel : Nat) (env : Env) (st : St) (path : String)
    (props : List (String × JValue)) (el : List Item) (st' : St) (r : LRes) (el' : List Item),
    loadV1 env fuel st path props el = some (st', r, el') → PBase st st' := by
  intro fuel
  induction fuel with
  | zero =>
    intro env st path props el st' r el' h
    simp [loadV1] at h
  | succ fuel ih =>
    intro env st path props el st' r el' h
    simp only [loadV1] at h
    split at h
    · simp only [Option.some.injEq, Prod.mk.injEq] at h
      obtain ⟨h1, _⟩ := h
      subst h1
      exact PBase_refl st
    · rename_i hguard
      have hmem : path ∉ st.inFlight := by simpa using hguard
      split at h
      · -- cache hit branch
        rename_i cached hcache
        split at h
        · rename_i st4 el2 hnested
          simp only [Option.some.injEq, Prod.mk.injEq] at h
          obtain ⟨h1, _⟩ := h
          subst h1
          have hb : PBase
              (emit (emit { st with inFlight := st.inFlight ++ [path] } (.inject path)) (.bindEvents path)) st4 :=
            loadNestedV1_rel PBase PBase_trans PBase_refl env _ (loadCssModel_pbase env)
              (fun _ _ _ _ _ _ hh => ih _ _ _ _ _ _ _ _ hh) _ _ _ _ _ hnested
          obtain ⟨hi, hp, Δ, ht⟩ := hb
          obtain ⟨si, sp, strace⟩ := execScriptsV1_eff (emit st4 (.nestedSettled path)) path (processTemplate cached props)
          refine ⟨?_, ?_, ?_⟩
          · show (execScriptsV1 (emit st4 (.nestedSettled path)) path _).inFlight.erase path = st.inFlight
            rw [si]
            show st4.inFlight.erase path = st.inFlight
            rw [hi]
            show (st.inFlight ++ [path]).erase path = st.inFlight
            exact erase_append_self _ _ hmem
          · show (execScriptsV1 (emit st4 (.nestedSettled path)) path _).pageCache = st.pageCache
            rw [sp]
            show st4.pageCache = st.pageCache
            rw [hp]
            rfl
          · rcases strace with hs | hs
            · refine ⟨[.inject path, .bindEvents path] ++ Δ ++ [.nestedSettled path], ?_⟩
              show (execScriptsV1 (emit st4 (.nestedSettled path)) path _).trace = _
              rw [hs]
              show st4.trace ++ [.nestedSettled path] = _
              rw [ht]
              simp [emit]
            · refine ⟨[.inject path, .bindEvents path] ++ Δ ++ [.nestedSettled path] ++ scriptEvsV1 path (processTemplate cached props), ?_⟩
              show (execScriptsV1 (emit st4 (.nestedSettled path)) path _).trace = _
              rw [hs]
              show st4.trace ++ [.nestedSettled path] ++ _ = _
              rw [ht]
              simp [emit]
        · exact absurd h (by simp)
      · -- cache miss branch
        rename_i hcache
        split at h
        · -- fetch ok
          rename_i raw hraw
          split at h
          · rename_i st6 el2 hnested
            simp only [Option.some.injEq, Prod.mk.injEq] at h
            obtain ⟨h1, _⟩ := h
            subst h1
            set stA := emit { st with inFlight := st.inFlight ++ [path] } (.fetchComp path) with hstA
            set body := processTemplate raw props with hbody
            set stB := emit (emit { stA with fileCache := cacheSet stA.fileCache stA.now path body, now := stA.now + 1 } (.inject path)) (.bindEvents path) with hstB
            have hb : PBase stB st6 :=
              loadNestedV1_rel PBase PBase_trans PBase_refl env _ (loadCssModel_pbase env)
                (fun _ _ _ _ _ _ hh => ih _ _ _ _ _ _ _ _ hh) _ _ _ _ _ hnested
            obtain ⟨hi, hp, Δ, ht⟩ := hb
            obtain ⟨si, sp, strace⟩ := execScriptsV1_eff (emit st6 (.nestedSettled path)) path body
            refine ⟨?_, ?_, ?_⟩
            · show (execScriptsV1 (emit st6 (.nestedSettled path)) path _).inFlight.erase path = st.inFlight
              rw [si]
              show st6.inFlight.erase path = st.inFlight
              rw [hi]
              show (st.inFlight ++ [path]).erase path = st.inFlight
              exact erase_append_self _ _ hmem
            · show (execScriptsV1 (emit st6 (.nestedSettled path)) path _).pageCache = st.pageCache
              rw [sp]
              show st6.pageCache = st.pageCache
              rw [hp]
              rfl
            · rcases strace with hs | hs
              · refine ⟨[.fetchComp path, .inject path, .bindEvents path] ++ Δ ++ [.nestedSettled path], ?_⟩
                show (execScriptsV1 (emit st6 (.nestedSettled path)) path _).trace = _
                rw [hs]
                show st6.trace ++ [.nestedSettled path] = _
                rw [ht]
                simp [hstB, hstA, emit]
              · refine ⟨[.fetchComp path, .inject path, .bindEvents path] ++ Δ ++ [.nestedSettled path] ++ scriptEvsV1 path body, ?_⟩
                show (execScriptsV1 (emit st6 (.nestedSettled path)) path _).trace = _
                rw [hs]
                show st6.trace ++ [.nestedSettled path] ++ _ = _
                rw [ht]
                simp [hstB, hstA, emit]
          · exact absurd h (by simp)
        · -- http error
          rename_i status statusText hresp
          unfold failLoad at h
          simp only [Option.some.injEq, Prod.mk.injEq] at h
          obtain ⟨h1, _⟩ := h
          subst h1
          refine ⟨?_, rfl, [.fetchComp path, .inject path], ?_⟩
          · show ((st.inFlight ++ [path]).erase path) = st.inFlight
            exact erase_append_self _ _ hmem
          · simp [emit]
        · -- net error
          rename_i msg hresp
          unfold failLoad at h
          simp only [Option.some.injEq, Prod.mk.injEq] at h
          obtain ⟨h1, _⟩ := h
          subst h1
          refine ⟨?_, rfl, [.fetchComp path, .inject path], ?_⟩
          · show ((st.inFlight ++ [path]).erase path) = st.inFlight
            exact erase_append_self _ _ hmem
          · simp [emit]

theorem loadV2_pbase : ∀ (fuel : Nat) (env : Env) (st : St) (path : String)
    (props : List (String × JValue)) (el : List Item) (st' : St) (r : LRes) (el' : List Item),
    loadV2 env fuel st path props el = some (st', r, el') → PBase st st' := by
  intro fuel
  induction fuel with
  | zero =>
    intro env st path props el st' r el' h
    simp [loadV2] at h
  | succ fuel ih =>
    intro env st path props el st' r el' h
    simp only [loadV2] at h
    split at h
    · simp only [Option.some.injEq, Prod.mk.injEq] at h
      obtain ⟨h1, _⟩ := h
      subst h1
      exact PBase_refl st
    · rename_i hguard
      have hmem : path ∉ st.inFlight := by simpa using hguard
      split at h
      · -- cache hit branch
        rename_i cached hcache
        split at h
        · rename_i st4 el2 hnested
          simp only [Option.some.injEq, Prod.mk.injEq] at h
          obtain ⟨h1, _⟩ := h
          subst h1
          set stA := execScriptsV2 (emit { st with inFlight := st.inFlight ++ [path] } (.inject path)) path cached with hstA
          have hb : PBase stA st4 :=
            loadNestedV2_rel PBase PBase_trans PBase_refl env _ (loadCssModel_pbase env)
              (loadJsModel_pbase env)
              (fun _ _ _ _ _ _ hh => ih _ _ _ _ _ _ _ _ hh) _ _ _ _ _ hnested
          obtain ⟨hi, hp, Δ, ht⟩ := hb
          obtain ⟨si, sp, strace⟩ :=
            execScriptsV2_eff (emit { st with inFlight := st.inFlight ++ [path] } (.inject path)) path cached
          refine ⟨?_, ?_, ?_⟩
          · show (emit st4 (.nestedSettled path)).inFlight.erase path = st.inFlight
            show st4.inFlight.erase path = st.inFlight
            rw [hi, hstA, si]
            show (st.inFlight ++ [path]).erase path = st.inFlight
            exact erase_append_self _ _ hmem
          · show (emit st4 (.nestedSettled path)).pageCache = st.pageCache
            show st4.pageCache = st.pageCache
            rw [hp, hstA, sp]
            rfl
          · rcases strace with hs | hs
            · refine ⟨[.inject path] ++ Δ ++ [.nestedSettled path], ?_⟩
              show st4.trace ++ [.nestedSettled path] = _
              rw [ht, hstA, hs]
              simp [emit]
            · refine ⟨[.inject path] ++ scriptEvsV2 path cached ++ Δ ++ [.nestedSettled path], ?_⟩
              show st4.trace ++ [.nestedSettled path] = _
              rw [ht, hstA, hs]
              simp [emit]
        · exact absurd h (by simp)
      · -- cache miss branch
        rename_i hcache
        split at h
        · -- fetch ok
          rename_i raw hraw
          split at h
          · rename_i st7 el2 hnested
            simp only [Option.some.injEq, Prod.mk.injEq] at h
            obtain ⟨h1, _⟩ := h
            subst h1
            set body := if props.isEmpty then raw else processTemplate raw props with hbody
            set stA := emit { st with inFlight := st.inFlight ++ [path] } (.fetchComp path) with hstA
            set stB := emit (execScriptsV2 (emit { stA with fileCache := cacheSet stA.fileCache stA.now path body, now := stA.now + 1 } (.inject path)) path body) (.bindEvents path) with hstB
            have hb : PBase stB st7 :=
              loadNestedV2_rel PBase PBase_trans PBase_refl env _ (loadCssModel_pbase env)
                (loadJsModel_pbase env)
                (fun _ _ _ _ _ _ hh => ih _ _ _ _ _ _ _ _ hh) _ _ _ _ _ hnested
            obtain ⟨hi, hp, Δ, ht⟩ := hb
            obtain ⟨si, sp, strace⟩ :=
              execScriptsV2_eff (emit { stA with fileCache := cacheSet stA.fileCache stA.now path body, now := stA.now + 1 } (.inject path)) path body
            refine ⟨?_, ?_, ?_⟩
            · show (emit st7 (.nestedSettled path)).inFlight.erase path = st.inFlight
              show st7.inFlight.erase path = st.inFlight
              rw [hi]
              show (emit _ (.bindEvents path)).inFlight.erase path = st.inFlight
              show (execScriptsV2 _ path body).inFlight.erase path = st.inFlight
              rw [si]
              show (st.inFlight ++ [path]).erase path = st.inFlight
              exact erase_append_self _ _ hmem
            · show (emit st7 (.nestedSettled path)).pageCache = st.pageCache
              show st7.pageCache = st.pageCache
              rw [hp]
              show (execScriptsV2 _ path body).pageCache = st.pageCache
              rw [sp]
              rfl
            · rcases strace with hs | hs
              · refine ⟨[.fetchComp path, .inject path] ++ ([.bindEvents path] ++ Δ ++ [.nestedSettled path]), ?_⟩
                show st7.trace ++ [.nestedSettled path] = _
                rw [ht]
                show ((execScriptsV2 _ path body).trace ++ [Ev.bindEvents path]) ++ Δ ++ _ = _
                rw [hs]
                simp [hstA, emit]
              · refine ⟨[.fetchComp path, .inject path] ++ scriptEvsV2 path body ++ ([.bindEvents path] ++ Δ ++ [.nestedSettled path]), ?_⟩
                show st7.trace ++ [.nestedSettled path] = _
                rw [ht]
                show ((execScriptsV2 _ path body).trace ++ [Ev.bindEvents path]) ++ Δ ++ _ = _
                rw [hs]
                simp [hstA, emit]
          · exact absurd h (by simp)
        · -- http error
          rename_i status statusText hresp
          unfold failLoad at h
          simp only [Option.some.injEq, Prod.mk.injEq] at h
          obtain ⟨h1, _⟩ := h
          subst h1
          refine ⟨?_, rfl, [.fetchComp path, .inject path], ?_⟩
          · show ((st.inFlight ++ [path]).erase path) = st.inFlight
            exact erase_append_self _ _ hmem
          · simp [emit]
        · -- net error
          rename_i msg hresp
          unfold failLoad at h
          simp only [Option.some.injEq, Prod.mk.injEq] at h
          obtain ⟨h1, _⟩ := h
          subst h1
          refine ⟨?_, rfl, [.fetchComp path, .inject path], ?_⟩
          · show ((st.inFlight ++ [path]).erase path) = st.inFlight
            exact erase_append_self _ _ hmem
          · simp [emit]

/-- While `p` is in flight, no call may fetch `p` over the network (its
guard rejects it) and `p` stays in flight. -/
def PCount (p : String) (a b : St) : Prop :=
  p ∈ a.inFlight → b.trace.count (.fetchComp p) = a.trace.count (.fetchComp p) ∧ p ∈ b.inFlight

theorem PCount_refl (p : String) (s : St) : PCount p s s := fun hp => ⟨rfl, hp⟩

theorem PCount_trans {p : String} {a b c : St} (h1 : PCount p a b) (h2 : PCount p b c) :
    PCount p a c := by
  intro hp
  obtain ⟨c1, m1⟩ := h1 hp
  obtain ⟨c2, m2⟩ := h2 m1
  exact ⟨c2.trans c1, m2⟩

theorem count_append_nil_of_not_mem {e : Ev} {Δ : List Ev} (h : e ∉ Δ) (t : List Ev) :
    (t ++ Δ).count e = t.count e := by
  rw [List.count_append, List.count_eq_zero.mpr h]
  simp

theorem loadCssModel_pcount (p : String) (env : Env) (st : St) (href : String) :
    PCount p st (loadCssModel env st href) := by
  intro hp
  unfold loadCssModel
  split
  · exact ⟨rfl, hp⟩
  · split
    · exact ⟨rfl, hp⟩
    · simp only [emit]
      split
      · exact ⟨count_append_nil_of_not_mem (by simp) _, hp⟩
      · exact ⟨count_append_nil_of_not_mem (by simp) _, hp⟩

theorem loadJsModel_pcount (p : String) (env : Env) (st : St) (src : String) :
    PCount p st (loadJsModel env st src) := by
  intro hp
  unfold loadJsModel
  split
  · exact ⟨rfl, hp⟩
  · simp only [emit]
    split
    · exact ⟨(count_append_nil_of_not_mem (by simp) _).trans
        (count_append_nil_of_not_mem (by simp) _), hp⟩
    · exact ⟨count_append_nil_of_not_mem (by simp) _, hp⟩

theorem scriptEvs_no_fetchComp_v1 (p path body : String) :
    Ev.fetchComp p ∉ scriptEvsV1 path body := by
  intro hmem
  unfold scriptEvsV1 at hmem
  rw [List.mem_filterMap] at hmem
  obtain ⟨sc, _, hsc⟩ := hmem
  cases sc with
  | external src => simp at hsc
  | inlineBody t => split at hsc <;> simp at hsc

theorem scriptEvs_no_fetchComp_v2 (p path body : String) :
    Ev.fetchComp p ∉ scriptEvsV2 path body := by
  intro hmem
  unfold scriptEvsV2 at hmem
  rw [List.mem_append] at hmem
  rcases hmem with hmem | hmem <;>
  · rw [List.mem_map] at hmem
    obtain ⟨a, _, ha⟩ := hmem
    simp at ha

theorem execScriptsV1_pcount (p : String) (st : St) (path body : String) :
    PCount p st (execScriptsV1 st path body) := by
  intro hp
  obtain ⟨hi, _, ht⟩ := execScriptsV1_eff st path body
  rcases ht with ht | ht
  · rw [ht, hi]; exact ⟨rfl, hp⟩
  · rw [ht, hi]
    exact ⟨count_append_nil_of_not_mem (scriptEvs_no_fetchComp_v1 p path body) _, hp⟩

theorem execScriptsV2_pcount (p : String) (st : St) (path body : String) :
    PCount p st (execScriptsV2 st path body) := by
  intro hp
  obtain ⟨hi, _, ht⟩ := execScriptsV2_eff st path body
  rcases ht with ht | ht
  · rw [ht, hi]; exact ⟨rfl, hp⟩
  · rw [ht, hi]
    exact ⟨count_append_nil_of_not_mem (scriptEvs_no_fetchComp_v2 p path body) _, hp⟩

theorem loadV1_pcount (p : String) : ∀ (fuel : Nat) (env : Env) (st : St) (path : String)
    (props : List (String × JValue)) (el : List Item) (st' : St) (r : LRes) (el' : List Item),
    loadV1 env fuel st path props el = some (st', r, el') → PCount p st st' := by
  intro fuel
  induction fuel with
  | zero =>
    intro env st path props el st' r el' h
    simp [loadV1] at h
  | succ fuel ih =>
    intro env st path props el st' r el' h
    simp only [loadV1] at h
    split at h
    · simp only [Option.some.injEq, Prod.mk.injEq] at h
      obtain ⟨h1, _⟩ := h
      subst h1
      exact PCount_refl p st
    · rename_i hguard
      have hmem : path ∉ st.inFlight := by simpa using hguard
      split at h
      · -- cache hit branch
        rename_i cached hcache
        split at h
        · rename_i st4 el2 hnested
          simp only [Option.some.injEq, Prod.mk.injEq] at h
          obtain ⟨h1, _⟩ := h
          subst h1
          intro hp
          have hne : p ≠ path := fun hpp => hmem (hpp ▸ hp)
          set stB := emit (emit { st with inFlight := st.inFlight ++ [path] } (.inject path)) (.bindEvents path) with hstB
          have hpB : p ∈ stB.inFlight := List.mem_append_left _ hp
          have hcB : stB.trace.count (.fetchComp p) = st.trace.count (.fetchComp p) := by
            rw [hstB]
            show (st.trace ++ [Ev.inject path] ++ [Ev.bindEvents path]).count _ = _
            rw [List.append_assoc]
            exact count_append_nil_of_not_mem (by simp) _
          have hb : PCount p stB st4 :=
            loadNestedV1_rel (PCount p) PCount_trans (PCount_refl p) env _
              (loadCssModel_pcount p env)
              (fun _ _ _ _ _ _ hh => ih _ _ _ _ _ _ _ _ hh) _ _ _ _ _ hnested
          obtain ⟨c4, m4⟩ := hb hpB
          have hsc := execScriptsV1_pcount p (emit st4 (.nestedSettled path)) path
            (processTemplate cached props)
          have hpSettle : p ∈ (emit st4 (.nestedSettled path)).inFlight := m4
          have hcSettle : (emit st4 (.nestedSettled path)).trace.count (.fetchComp p)
              = st.trace.count (.fetchComp p) := by
            show (st4.trace ++ [Ev.nestedSettled path]).count _ = _
            rw [count_append_nil_of_not_mem (by simp) _, c4, hcB]
          obtain ⟨cS, mS⟩ := hsc hpSettle
          constructor
          · show (execScriptsV1 (emit st4 (.nestedSettled path)) path _).trace.count _ = _
            rw [cS, hcSettle]
          · show p ∈ (execScriptsV1 (emit st4 (.nestedSettled path)) path _).inFlight.erase path
            exact List.mem_erase_of_ne hne |>.mpr mS
        · exact absurd h (by simp)
      · -- cache miss branch
        rename_i hcache
        split at h
        · -- fetch ok
          rename_i raw hraw
          split at h
          · rename_i st6 el2 hnested
            simp only [Option.some.injEq, Prod.mk.injEq] at h
            obtain ⟨h1, _⟩ := h
            subst h1
            intro hp
            have hne : p ≠ path := fun hpp => hmem (hpp ▸ hp)
            set body := processTemplate raw props with hbody
            set stA := emit { st with inFlight := st.inFlight ++ [path] } (.fetchComp path) with hstA
            set stB := emit (emit { stA with fileCache := cacheSet stA.fileCache stA.now path body, now := stA.now + 1 } (.inject path)) (.bindEvents path) with hstB
            have hpB : p ∈ stB.inFlight := List.mem_append_left _ hp
            have hcB : stB.trace.count (.fetchComp p) = st.trace.count (.fetchComp p) := by
              rw [hstB, hstA]
              show (st.trace ++ [Ev.fetchComp path] ++ [Ev.inject path] ++ [Ev.bindEvents path]).count _ = _
              rw [List.append_assoc, List.append_assoc]
              refine count_append_nil_of_not_mem ?_ _
              simp [hne]
            have hb : PCount p stB st6 :=
              loadNestedV1_rel (PCount p) PCount_trans (PCount_refl p) env _
                (loadCssModel_pcount p env)
                (fun _ _ _ _ _ _ hh => ih _ _ _ _ _ _ _ _ hh) _ _ _ _ _ hnested
            obtain ⟨c6, m6⟩ := hb hpB
            have hsc := execScriptsV1_pcount p (emit st6 (.nestedSettled path)) path body
            have hpSettle : p ∈ (emit st6 (.nestedSettled path)).inFlight := m6
            have hcSettle : (emit st6 (.nestedSettled path)).trace.count (.fetchComp p)
                = st.trace.count (.fetchComp p) := by
              show (st6.trace ++ [Ev.nestedSettled path]).count _ = _
              rw [count_append_nil_of_not_mem (by simp) _, c6, hcB]
            obtain ⟨cS, mS⟩ := hsc hpSettle
            constructor
            · show (execScriptsV1 (emit st6 (.nestedSettled path)) path _).trace.count _ = _
              rw [cS, hcSettle]
            · show p ∈ (execScriptsV1 (emit st6 (.nestedSettled path)) path _).inFlight.erase path
              exact List.mem_erase_of_ne hne |>.mpr mS
          · exact absurd h (by simp)
        · -- http error
          rename_i status statusText hresp
          unfold failLoad at h
          simp only [Option.some.injEq, Prod.mk.injEq] at h
          obtain ⟨h1, _⟩ := h
          subst h1
          intro hp
          have hne : p ≠ path := fun hpp => hmem (hpp ▸ hp)
          constructor
          · show (st.trace ++ [Ev.fetchComp path] ++ [Ev.inject path]).count _ = _
            rw [List.append_assoc]
            refine count_append_nil_of_not_mem ?_ _
            simp [hne]
          · show p ∈ (st.inFlight ++ [path]).erase path
            refine List.mem_erase_of_ne hne |>.mpr (List.mem_append_left _ hp)
        · -- net error
          rename_i msg hresp
          unfold failLoad at h
          simp only [Option.some.injEq, Prod.mk.injEq] at h
          obtain ⟨h1, _⟩ := h
          subst h1
          intro hp
          have hne : p ≠ path := fun hpp => hmem (hpp ▸ hp)
          constructor
          · show (st.trace ++ [Ev.fetchComp path] ++ [Ev.inject path]).count _ = _
            rw [List.append_assoc]
            refine count_append_nil_of_not_mem ?_ _
            simp [hne]
          · show p ∈ (st.inFlight ++ [path]).erase path
            refine List.mem_erase_of_ne hne |>.mpr (List.mem_append_left _ hp)

theorem loadV2_pcount (p : String) : ∀ (fuel : Nat) (env : Env) (st : St) (path : String)
    (props : List (String × JValue)) (el : List Item) (st' : St) (r : LRes) (el' : List Item),
    loadV2 env fuel st path props el = some (st', r, el') → PCount p st st' := by
  intro fuel
  induction fuel with
  | zero =>
    intro env st path props el st' r el' h
    simp [loadV2] at h
  | succ fuel ih =>
    intro env st path props el st' r el' h
    simp only [loadV2] at h
    split at h
    · simp only [Option.some.injEq, Prod.mk.injEq] at h
      obtain ⟨h1, _⟩ := h
      subst h1
      exact PCount_refl p st
    · rename_i hguard
      have hmem : path ∉ st.inFlight := by simpa using hguard
      split at h
      · -- cache hit branch
        rename_i cached hcache
        split at h
        · rename_i st4 el2 hnested
          simp only [Option.some.injEq, Prod.mk.injEq] at h
          obtain ⟨h1, _⟩ := h
          subst h1
          intro hp
          have hne : p ≠ path := fun hpp => hmem (hpp ▸ hp)
          set stA := emit { st with inFlight := st.inFlight ++ [path] } (.inject path) with hstA
          have hpA : p ∈ stA.inFlight := List.mem_append_left _ hp
          have hcA : stA.trace.count (.fetchComp p) = st.trace.count (.fetchComp p) := by
            rw [hstA]
            exact count_append_nil_of_not_mem (by simp) _
          obtain ⟨cB, mB⟩ := execScriptsV2_pcount p stA path cached hpA
          have hb : PCount p (execScriptsV2 stA path cached) st4 :=
            loadNestedV2_rel (PCount p) PCount_trans (PCount_refl p) env _
              (loadCssModel_pcount p env) (loadJsModel_pcount p env)
              (fun _ _ _ _ _ _ hh => ih _ _ _ _ _ _ _ _ hh) _ _ _ _ _ hnested
          obtain ⟨c4, m4⟩ := hb mB
          constructor
          · show (emit st4 (.nestedSettled path)).trace.count _ = _
            show (st4.trace ++ [Ev.nestedSettled path]).count _ = _
            rw [count_append_nil_of_not_mem (by simp) _, c4, cB, hcA]
          · show p ∈ (emit st4 (.nestedSettled path)).inFlight.erase path
            exact List.mem_erase_of_ne hne |>.mpr m4
        · exact absurd h (by simp)
      · -- cache miss branch
        rename_i hcache
        split at h
        · -- fetch ok
          rename_i raw hraw
          split at h
          · rename_i st7 el2 hnested
            simp only [Option.some.injEq, Prod.mk.injEq] at h
            obtain ⟨h1, _⟩ := h
            subst h1
            intro hp
            have hne : p ≠ path := fun hpp => hmem (hpp ▸ hp)
            set body := if props.isEmpty then raw else processTemplate raw props with hbody
            set stA := emit { st with inFlight := st.inFlight ++ [path] } (.fetchComp path) with hstA
            set stI := emit { stA with fileCache := cacheSet stA.fileCache stA.now path body, now := stA.now + 1 } (.inject path) with hstI
            have hpI : p ∈ stI.inFlight := List.mem_append_left _ hp
            have hcI : stI.trace.count (.fetchComp p) = st.trace.count (.fetchComp p) := by
              rw [hstI, hstA]
              show (st.trace ++ [Ev.fetchComp path] ++ [Ev.inject path]).count _ = _
              rw [List.append_assoc]
              refine count_append_nil_of_not_mem ?_ _
              simp [hne]
            obtain ⟨cE, mE⟩ := execScriptsV2_pcount p stI path body hpI
            have hpB : p ∈ (emit (execScriptsV2 stI path body) (.bindEvents path)).inFlight := mE
            have hcB : (emit (execScriptsV2 stI path body) (.bindEvents path)).trace.count (.fetchComp p)
                = st.trace.count (.fetchComp p) := by
              show ((execScriptsV2 stI path body).trace ++ [Ev.bindEvents path]).count _ = _
              rw [count_append_nil_of_not_mem (by simp) _, cE, hcI]
            have hb : PCount p (emit (execScriptsV2 stI path body) (.bindEvents path)) st7 :=
              loadNestedV2_rel (PCount p) PCount_trans (PCount_refl p) env _
                (loadCssModel_pcount p env) (loadJsModel_pcount p env)
                (fun _ _ _ _ _ _ hh => ih _ _ _ _ _ _ _ _ hh) _ _ _ _ _ hnested
            obtain ⟨c7, m7⟩ := hb hpB
            constructor
            · show (emit st7 (.nestedSettled path)).trace.count _ = _
              show (st7.trace ++ [Ev.nestedSettled path]).count _ = _
              rw [count_append_nil_of_not_mem (by simp) _, c7, hcB]
            · show p ∈ (emit st7 (.nestedSettled path)).inFlight.erase path
              exact List.mem_erase_of_ne hne |>.mpr m7
          · exact absurd h (by simp)
        · -- http error
          rename_i status statusText hresp
          unfold failLoad at h
          simp only [Option.some.injEq, Prod.mk.injEq] at h
          obtain ⟨h1, _⟩ := h
          subst h1
          intro hp
          have hne : p ≠ path := fun hpp => hmem (hpp ▸ hp)
          constructor
          · show (st.trace ++ [Ev.fetchComp path] ++ [Ev.inject path]).count _ = _
            rw [List.append_assoc]
            refine count_append_nil_of_not_mem ?_ _
            simp [hne]
          · show p ∈ (st.inFlight ++ [path]).erase path
            refine List.mem_erase_of_ne hne |>.mpr (List.mem_append_left _ hp)
        · -- net error
          rename_i msg hresp
          unfold failLoad at h
          simp only [Option.some.injEq, Prod.mk.injEq] at h
          obtain ⟨h1, _⟩ := h
          subst h1
          intro hp
          have hne : p ≠ path := fun hpp => hmem (hpp ▸ hp)
          constructor
          · show (st.trace ++ [Ev.fetchComp path] ++ [Ev.inject path]).count _ = _
            rw [List.append_assoc]
            refine count_append_nil_of_not_mem ?_ _
            simp [hne]
          · show p ∈ (st.inFlight ++ [path]).erase path
            refine List.mem_erase_of_ne hne |>.mpr (List.mem_append_left _ hp)

theorem scriptsOk_append : ∀ (t1 t2 : List Ev) (s : List String),
    scriptsOk (t1 ++ t2) s = (scriptsOk t1 s && scriptsOk t2 (settledAfter t1 s)) := by
  intro t1
  induction t1 with
  | nil => intro t2 s; simp [scriptsOk, settledAfter]
  | cons e rest ih =>
    intro t2 s
    cases e <;> simp [scriptsOk, settledAfter, ih, Bool.and_assoc]

theorem settledAfter_append : ∀ (t1 t2 : List Ev) (s : List String),
    settledAfter (t1 ++ t2) s = settledAfter t2 (settledAfter t1 s) := by
  intro t1
  induction t1 with
  | nil => intro t2 s; simp [settledAfter]
  | cons e rest ih =>
    intro t2 s
    cases e <;> simp [settledAfter, ih]

/-- A run whose new trace events always execute a fragment's scripts
only after that fragment's nested-settlement marker. -/
def POrder (a b : St) : Prop :=
  ∃ Δ, b.trace = a.trace ++ Δ ∧ ∀ s, scriptsOk Δ s = true

theorem POrder_refl (s : St) : POrder s s := ⟨[], by simp, fun _ => rfl⟩

theorem POrder_trans {a b c : St} (h1 : POrder a b) (h2 : POrder b c) : POrder a c := by
  obtain ⟨Δ1, t1, k1⟩ := h1
  obtain ⟨Δ2, t2, k2⟩ := h2
  refine ⟨Δ1 ++ Δ2, by rw [t2, t1, List.append_assoc], fun s => ?_⟩
  rw [scriptsOk_append, k1, k2]
  rfl

theorem loadCssModel_porder (env : Env) (st : St) (href : String) :
    POrder st (loadCssModel env st href) := by
  unfold loadCssModel
  split
  · exact POrder_refl st
  · split
    · exact POrder_refl st
    · simp only [emit]
      split
      · exact ⟨[.fetchCss href], rfl, fun s => rfl⟩
      · exact ⟨[.fetchCss href], rfl, fun s => rfl⟩

theorem loadJsModel_porder (env : Env) (st : St) (src : String) :
    POrder st (loadJsModel env st src) := by
  unfold loadJsModel
  split
  · exact POrder_refl st
  · simp only [emit]
    split
    · exact ⟨[.fetchJs src, .evalJs src], by simp, fun s => rfl⟩
    · exact ⟨[.fetchJs src], rfl, fun s => rfl⟩

theorem scriptsOk_execEvs (p : String) : ∀ (evs : List Ev),
    (∀ e ∈ evs, (∃ src, e = .execExternal p src) ∨ (∃ t, e = .execInline p t)) →
    ∀ (s : List String), s.contains p = true → scriptsOk evs s = true := by
  intro evs
  induction evs with
  | nil => intro _ s _; rfl
  | cons e rest ih =>
    intro hevs s hs
    rcases hevs e (List.mem_cons_self e rest) with ⟨src, he⟩ | ⟨t, he⟩ <;> subst he <;>
      simp only [scriptsOk, hs, Bool.true_and] <;>
      exact ih (fun e' he' => hevs e' (List.mem_cons_of_mem _ he')) s hs

theorem scriptEvsV1_shape (path body : String) :
    ∀ e ∈ scriptEvsV1 path body,
      (∃ src, e = .execExternal path src) ∨ (∃ t, e = .execInline path t) := by
  intro e he
  unfold scriptEvsV1 at he
  rw [List.mem_filterMap] at he
  obtain ⟨sc, _, hsc⟩ := he
  cases sc with
  | external src =>
    simp only [Option.some.injEq] at hsc
    exact Or.inl ⟨src, hsc.symm⟩
  | inlineBody t =>
    dsimp only at hsc
    split at hsc
    · simp only [Option.some.injEq] at hsc
      exact Or.inr ⟨t, hsc.symm⟩
    · simp at hsc

theorem scriptsOk_scriptEvsV1 (path body : String) (s : List String)
    (hs : s.contains path = true) : scriptsOk (scriptEvsV1 path body) s = true :=
  scriptsOk_execEvs path _ (scriptEvsV1_shape path body) s hs

theorem scriptsOk_loadBlock (pre Δn scriptΔ : List Ev) (path : String)
    (hpre : ∀ s, scriptsOk pre s = true)
    (hn : ∀ s, scriptsOk Δn s = true)
    (hscripts : ∀ s, s.contains path = true → scriptsOk scriptΔ s = true) :
    ∀ s, scriptsOk (pre ++ Δn ++ [.nestedSettled path] ++ scriptΔ) s = true := by
  intro s
  rw [scriptsOk_append, scriptsOk_append, scriptsOk_append,
      settledAfter_append, settledAfter_append, settledAfter_append, hpre, hn]
  have h1 : scriptsOk [Ev.nestedSettled path] (settledAfter Δn (settledAfter pre s)) = true := rfl
  have h2 : settledAfter [Ev.nestedSettled path] (settledAfter Δn (settledAfter pre s))
      = path :: settledAfter Δn (settledAfter pre s) := rfl
  rw [h1, h2, hscripts _ (by simp)]
  rfl

theorem loadV1_porder : ∀ (fuel : Nat) (env : Env) (st : St) (path : String)
    (props : List (String × JValue)) (el : List Item) (st' : St) (r : LRes) (el' : List Item),
    loadV1 env fuel st path props el = some (st', r, el') → POrder st st' := by
  intro fuel
  induction fuel with
  | zero =>
    intro env st path props el st' r el' h
    simp [loadV1] at h
  | succ fuel ih =>
    intro env st path props el st' r el' h
    simp only [loadV1] at h
    split at h
    · simp only [Option.some.injEq, Prod.mk.injEq] at h
      obtain ⟨h1, _⟩ := h
      subst h1
      exact POrder_refl st
    · rename_i hguard
      split at h
      · -- cache hit branch
        rename_i cached hcache
        split at h
        · rename_i st4 el2 hnested
          simp only [Option.some.injEq, Prod.mk.injEq] at h
          obtain ⟨h1, _⟩ := h
          subst h1
          have hb : POrder
              (emit (emit { st with inFlight := st.inFlight ++ [path] } (.inject path)) (.bindEvents path)) st4 :=
            loadNestedV1_rel POrder POrder_trans POrder_refl env _ (loadCssModel_porder env)
              (fun _ _ _ _ _ _ hh => ih _ _ _ _ _ _ _ _ hh) _ _ _ _ _ hnested
          obtain ⟨Δ, ht, hok⟩ := hb
          obtain ⟨_, _, strace⟩ := execScriptsV1_eff (emit st4 (.nestedSettled path)) path (processTemplate cached props)
          rcases strace with hs | hs
          · refine ⟨[.inject path, .bindEvents path] ++ Δ ++ [.nestedSettled path] ++ [], ?_, ?_⟩
            · show (execScriptsV1 (emit st4 (.nestedSettled path)) path _).trace = _
              rw [hs]
              show st4.trace ++ [.nestedSettled path] = _
              rw [ht]
              simp [emit]
            · exact scriptsOk_loadBlock _ _ _ path (fun s => rfl) hok (fun s _ => rfl)
          · refine ⟨[.inject path, .bindEvents path] ++ Δ ++ [.nestedSettled path]
              ++ scriptEvsV1 path (processTemplate cached props), ?_, ?_⟩
            · show (execScriptsV1 (emit st4 (.nestedSettled path)) path _).trace = _
              rw [hs]
              show st4.trace ++ [.nestedSettled path] ++ _ = _
              rw [ht]
              simp [emit]
            · exact scriptsOk_loadBlock _ _ _ path (fun s => rfl) hok
                (fun s hp => scriptsOk_scriptEvsV1 path _ s hp)
        · exact absurd h (by simp)
      · -- cache miss branch
        rename_i hcache
        split at h
        · -- fetch ok
          rename_i raw hraw
          split at h
          · rename_i st6 el2 hnested
            simp only [Option.some.injEq, Prod.mk.injEq] at h
            obtain ⟨h1, _⟩ := h
            subst h1
            set body := processTemplate raw props with hbody
            set stA := emit { st with inFlight := st.inFlight ++ [path] } (.fetchComp path) with hstA
            set stB := emit (emit { stA with fileCache := cacheSet stA.fileCache stA.now path body, now := stA.now + 1 } (.inject path)) (.bindEvents path) with hstB
            have hb : POrder stB st6 :=
              loadNestedV1_rel POrder POrder_trans POrder_refl env _ (loadCssModel_porder env)
                (fun _ _ _ _ _ _ hh => ih _ _ _ _ _ _ _ _ hh) _ _ _ _ _ hnested
            obtain ⟨Δ, ht, hok⟩ := hb
            obtain ⟨_, _, strace⟩ := execScriptsV1_eff (emit st6 (.nestedSettled path)) path body
            rcases strace with hs | hs
            · refine ⟨[.fetchComp path, .inject path, .bindEvents path] ++ Δ ++ [.nestedSettled path] ++ [], ?_, ?_⟩
              · show (execScriptsV1 (emit st6 (.nestedSettled path)) path _).trace = _
                rw [hs]
                show st6.trace ++ [.nestedSettled path] = _
                rw [ht]
                simp [hstB, hstA, emit]
              · exact scriptsOk_loadBlock _ _ _ path (fun s => rfl) hok (fun s _ => rfl)
            · refine ⟨[.fetchComp path, .inject path, .bindEvents path] ++ Δ ++ [.nestedSettled path]
                ++ scriptEvsV1 path body, ?_, ?_⟩
              · show (execScriptsV1 (emit st6 (.nestedSettled path)) path _).trace = _
                rw [hs]
                show st6.trace ++ [.nestedSettled path] ++ _ = _
                rw [ht]
                simp [hstB, hstA, emit]
              · exact scriptsOk_loadBlock _ _ _ path (fun s => rfl) hok
                  (fun s hp => scriptsOk_scriptEvsV1 path _ s hp)
          · exact absurd h (by simp)
        · -- http error
          rename_i status statusText hresp
          unfold failLoad at h
          simp only [Option.some.injEq, Prod.mk.injEq] at h
          obtain ⟨h1, _⟩ := h
          subst h1
          exact ⟨[.fetchComp path, .inject path], by simp [emit], fun s => rfl⟩
        · -- net error
          rename_i msg hresp
          unfold failLoad at h
          simp only [Option.some.injEq, Prod.mk.injEq] at h
          obtain ⟨h1, _⟩ := h
          subst h1
          exact ⟨[.fetchComp path, .inject path], by simp [emit], fun s => rfl⟩

theorem processCompDefV1_pbase : ∀ (fuel : Nat) (env : Env) (st : St) (target : List Item)
    (comp : CompSpec) (st' : St) (target' : List Item) (ok : Bool),
    processCompDefV1 env fuel st target comp = some (st', target', ok) → PBase st st' := by
  intro fuel
  induction fuel with
  | zero =>
    intro env st target comp st' target' ok h
    simp [processCompDefV1] at h
  | succ fuel ih =>
    intro env st target comp st' target' ok h
    cases comp with
    | strSpec path =>
      simp only [processCompDefV1] at h
      split at h
      · rename_i st1 res target1 heq
        simp only [Option.some.injEq, Prod.mk.injEq] at h
        obtain ⟨h1, _⟩ := h
        subst h1
        exact loadV1_pbase _ _ _ _ _ _ _ _ _ heq
      · exact absurd h (by simp)
    | invalid =>
      simp only [processCompDefV1, Option.some.injEq, Prod.mk.injEq] at h
      obtain ⟨h1, _⟩ := h
      subst h1
      exact PBase_refl st
    | objSpec name sel props layout children css idAttr condition =>
      simp only [processCompDefV1] at h
      split at h
      · simp only [Option.some.injEq, Prod.mk.injEq] at h
        obtain ⟨h1, _⟩ := h
        subst h1
        exact PBase_refl st
      · split at h
        · -- layout present
          rename_i l
          split at h
          · rename_i st1 res elItems hload
            have hb1 : PBase st st1 := loadV1_pbase _ _ _ _ _ _ _ _ _ hload
            split at h
            · -- res ok
              split at h
              · -- children some
                rename_i cs
                split at h
                · -- cs empty
                  simp only [Option.some.injEq, Prod.mk.injEq] at h
                  obtain ⟨h1, _⟩ := h
                  subst h1
                  exact hb1
                · split at h
                  · rename_i st2 el2 oks2 hpl
                    simp only [Option.some.injEq, Prod.mk.injEq] at h
                    obtain ⟨h1, _⟩ := h
                    subst h1
                    exact PBase_trans hb1
                      (processListWith_rel PBase PBase_trans PBase_refl _
                        (fun _ _ _ _ _ _ hh => ih _ _ _ _ _ _ _ hh) _ _ _ _ _ _ hpl)
                  · exact absurd h (by simp)
              · simp only [Option.some.injEq, Prod.mk.injEq] at h
                obtain ⟨h1, _⟩ := h
                subst h1
                exact hb1
            · simp only [Option.some.injEq, Prod.mk.injEq] at h
              obtain ⟨h1, _⟩ := h
              subst h1
              exact hb1
          · exact absurd h (by simp)
        · -- no layout
          split at h
          · rename_i st1 res target1 hload
            have hb1 : PBase st st1 := loadV1_pbase _ _ _ _ _ _ _ _ _ hload
            split at h
            · split at h
              · rename_i cs
                split at h
                · simp only [Option.some.injEq, Prod.mk.injEq] at h
                  obtain ⟨h1, _⟩ := h
                  subst h1
                  exact hb1
                · split at h
                  · rename_i st2 el2 oks2 hpl
                    simp only [Option.some.injEq, Prod.mk.injEq] at h
                    obtain ⟨h1, _⟩ := h
                    subst h1
                    exact PBase_trans hb1
                      (processListWith_rel PBase PBase_trans PBase_refl _
                        (fun _ _ _ _ _ _ hh => ih _ _ _ _ _ _ _ hh) _ _ _ _ _ _ hpl)
                  · exact absurd h (by simp)
              · simp only [Option.some.injEq, Prod.mk.injEq] at h
                obtain ⟨h1, _⟩ := h
                subst h1
                exact hb1
            · simp only [Option.some.injEq, Prod.mk.injEq] at h
              obtain ⟨h1, _⟩ := h
              subst h1
              exact hb1
          · exact absurd h (by simp)

theorem processCompDefV2_pbase : ∀ (fuel : Nat) (env : Env) (st : St) (target : List Item)
    (comp : CompSpec) (st' : St) (target' : List Item) (ok : Bool),
    processCompDefV2 env fuel st target comp = some (st', target', ok) → PBase st st' := by
  intro fuel
  induction fuel with
  | zero =>
    intro env st target comp st' target' ok h
    simp [processCompDefV2] at h
  | succ fuel ih =>
    intro env st target comp st' target' ok h
    cases comp with
    | strSpec path =>
      simp only [processCompDefV2] at h
      split at h
      · rename_i st1 res target1 heq
        simp only [Option.some.injEq, Prod.mk.injEq] at h
        obtain ⟨h1, _⟩ := h
        subst h1
        exact loadV2_pbase _ _ _ _ _ _ _ _ _ heq
      · exact absurd h (by simp)
    | invalid =>
      simp only [processCompDefV2, Option.some.injEq, Prod.mk.injEq] at h
      obtain ⟨h1, _⟩ := h
      subst h1
      exact PBase_refl st
    | objSpec name sel props layout children css idAttr condition =>
      simp only [processCompDefV2] at h
      split at h
      · simp only [Option.some.injEq, Prod.mk.injEq] at h
        obtain ⟨h1, _⟩ := h
        subst h1
        exact PBase_refl st
      · split at h
        · -- layout present
          rename_i l
          split at h
          · rename_i st1 res elItems hload
            have hb1 : PBase st st1 := loadV2_pbase _ _ _ _ _ _ _ _ _ hload
            split at h
            · split at h
              · rename_i cs
                split at h
                · rename_i st2 el2 oks2 hpl
                  simp only [Option.some.injEq, Prod.mk.injEq] at h
                  obtain ⟨h1, _⟩ := h
                  subst h1
                  exact PBase_trans hb1
                    (processListWith_rel PBase PBase_trans PBase_refl _
                      (fun _ _ _ _ _ _ hh => ih _ _ _ _ _ _ _ hh) _ _ _ _ _ _ hpl)
                · exact absurd h (by simp)
              · simp only [Option.some.injEq, Prod.mk.injEq] at h
                obtain ⟨h1, _⟩ := h
                subst h1
                exact hb1
            · simp only [Option.some.injEq, Prod.mk.injEq] at h
              obtain ⟨h1, _⟩ := h
              subst h1
              exact hb1
          · exact absurd h (by simp)
        · -- no layout
          split at h
          · rename_i st1 res target1 hload
            have hb1 : PBase st st1 := loadV2_pbase _ _ _ _ _ _ _ _ _ hload
            split at h
            · split at h
              · rename_i cs
                split at h
                · rename_i st2 el2 oks2 hpl
                  simp only [Option.some.injEq, Prod.mk.injEq] at h
                  obtain ⟨h1, _⟩ := h
                  subst h1
                  exact PBase_trans hb1
                    (processListWith_rel PBase PBase_trans PBase_refl _
                      (fun _ _ _ _ _ _ hh => ih _ _ _ _ _ _ _ hh) _ _ _ _ _ _ hpl)
                · exact absurd h (by simp)
              · simp only [Option.some.injEq, Prod.mk.injEq] at h
                obtain ⟨h1, _⟩ := h
                subst h1
                exact hb1
            · simp only [Option.some.injEq, Prod.mk.injEq] at h
              obtain ⟨h1, _⟩ := h
              subst h1
              exact hb1
          · exact absurd h (by simp)

theorem mapInsert_lookup (k : String) (v : CacheEntry) :
    ∀ es : List (String × CacheEntry), (mapInsert k v es).lookup k = some v := by
  intro es
  induction es with
  | nil => simp [mapInsert, List.lookup]
  | cons kv rest ih =>
    obtain ⟨k', v'⟩ := kv
    simp only [mapInsert]
    split
    · simp [List.lookup]
    · rename_i hne
      have hbeq : (k == k') = false := by
        simp only [beq_eq_false_iff_ne, ne_eq]
        exact fun hh => hne hh.symm
      simp only [List.lookup, hbeq]
      exact ih

theorem renderItems_single (s : String) : renderItems [.textPart s] = s := by
  simp [renderItems, renderItem]

theorem buildPageV1_hit (env : Env) (fuel : Nat) (st : St) (doc : DocSt) (clearT : Bool)
    (title desc ln : Option String) (styles : List String) (meta : List (String × String))
    (comps : Option (List CompSpec)) (cache : Option Bool) (k cached : String)
    (hk : k ≠ "") (hhit : truthyGet st.pageCache k = some cached) :
    buildPageV1 env fuel st doc true (.obj title desc ln styles meta comps (some k) cache) clearT
      = some (st, { doc with target := [.textPart cached] }, .fromCache) := by
  unfold buildPageV1
  simp only [Bool.not_true, Bool.false_eq_true, if_false, ite_false]
  rw [if_pos hk]
  simp only [hhit]

theorem buildPageV1_stores (env : Env) (fuel : Nat) (st : St) (doc : DocSt) (clearT : Bool)
    (title desc ln : Option String) (styles : List String) (meta : List (String × String))
    (comps : Option (List CompSpec)) (cache : Option Bool) (k : String)
    (hk : k ≠ "") (hmiss : truthyGet st.pageCache k = none) (hen : st.pageCache.enabled = true) :
    ∀ st' doc' oks,
      buildPageV1 env fuel st doc true (.obj title desc ln styles meta comps (some k) cache) clearT
        = some (st', doc', .settled oks) →
      st'.pageCache.enabled = true ∧
      (st'.pageCache.entries.lookup k).map CacheEntry.content = some (renderItems doc'.target) := by
  intro st' doc' oks h
  unfold buildPageV1 at h
  simp only [Bool.not_true, Bool.false_eq_true, if_false, ite_false] at h
  rw [if_pos hk] at h
  simp only [hmiss] at h
  split at h
  · rename_i st1 target1 oks1 hpl
    simp only [Option.some.injEq, Prod.mk.injEq] at h
    obtain ⟨h1, h2, _⟩ := h
    have hfold : PBase st (styles.foldl (fun st url => loadCssModel env st url) st) :=
      foldl_rel PBase PBase_trans PBase_refl _ (fun st x => loadCssModel_pbase env st x) styles st
    have hproc : PBase (styles.foldl (fun st url => loadCssModel env st url) st) st1 :=
      processListWith_rel PBase PBase_trans PBase_refl _
        (fun _ _ _ _ _ _ hh => processCompDefV1_pbase _ _ _ _ _ _ _ _ hh) _ _ _ _ _ _ hpl
    have hpc : st1.pageCache = st.pageCache := by
      rw [hproc.2.1, hfold.2.1]
    have hdoc : doc'.target = target1 := by rw [← h2]
    constructor
    · rw [← h1]
      show (cacheSet st1.pageCache st1.now k (renderItems target1)).enabled = true
      unfold cacheSet
      rw [hpc]
      split
      · exact hen
      · exact hen
    · rw [← h1]
      show ((cacheSet st1.pageCache st1.now k (renderItems target1)).entries.lookup k).map CacheEntry.content = _
      unfold cacheSet
      rw [hpc, if_pos hen]
      show ((mapInsert k _ _).lookup k).map _ = _
      rw [mapInsert_lookup]
      simp [hdoc]
  · exact absurd h (by simp)

theorem buildPageV2_hit (env : Env) (fuel : Nat) (st : St) (doc : DocSt)
    (targetSel : String) (clearT : Bool)
    (title desc ln : Option String) (styles : List String) (meta : List (String × String))
    (comps : Option (List CompSpec)) (k cached : String)
    (hk : k ≠ "") (hen : st.pageCache.enabled = true)
    (hhit : truthyGet st.pageCache k = some cached) :
    buildPageV2 env fuel st doc true (.obj title desc ln styles meta comps (some k) none)
        targetSel clearT none none
      = some (st, { doc with target := [.textPart cached] }, .fromCache) := by
  unfold buildPageV2
  simp only [Bool.not_true, Bool.false_eq_true, if_false, ite_false]
  rw [if_pos hk]
  simp only [hen, if_true, ite_true, hhit]

theorem buildPageV2_stores (env : Env) (fuel : Nat) (st : St) (doc : DocSt)
    (targetSel : String) (clearT : Bool)
    (title desc ln : Option String) (styles : List String) (meta : List (String × String))
    (comps : Option (List CompSpec)) (k : String)
    (hk : k ≠ "") (hen : st.pageCache.enabled = true)
    (hmiss : truthyGet st.pageCache k = none) :
    ∀ st' doc' oks,
      buildPageV2 env fuel st doc true (.obj title desc ln styles meta comps (some k) none)
          targetSel clearT none none
        = some (st', doc', .settled oks) →
      st'.pageCache.enabled = true ∧
      (st'.pageCache.entries.lookup k).map CacheEntry.content = some (renderItems doc'.target) := by
  intro st' doc' oks h
  unfold buildPageV2 at h
  simp only [Bool.not_true, Bool.false_eq_true, if_false, ite_false] at h
  rw [if_pos hk] at h
  simp only [hen, if_true, ite_true, hmiss] at h
  split at h
  · rename_i st1 target1 oks1 hpl
    simp only [Option.some.injEq, Prod.mk.injEq] at h
    obtain ⟨h1, h2, _⟩ := h
    have hfold : PBase st (styles.foldl (fun st url => loadCssModel env st url) st) :=
      foldl_rel PBase PBase_trans PBase_refl _ (fun st x => loadCssModel_pbase env st x) styles st
    have hproc : PBase (styles.foldl (fun st url => loadCssModel env st url) st) st1 :=
      processListWith_rel PBase PBase_trans PBase_refl _
        (fun _ _ _ _ _ _ hh => processCompDefV2_pbase _ _ _ _ _ _ _ _ hh) _ _ _ _ _ _ hpl
    have hpc : st1.pageCache = st.pageCache := by
      rw [hproc.2.1, hfold.2.1]
    have hdoc : doc'.target = target1 := by rw [← h2]
    constructor
    · rw [← h1]
      show (cacheSet st1.pageCache st1.now k (renderItems target1)).enabled = true
      unfold cacheSet
      rw [hpc]
      split
      · exact hen
      · exact hen
    · rw [← h1]
      show ((cacheSet st1.pageCache st1.now k (renderItems target1)).entries.lookup k).map CacheEntry.content = _
      unfold cacheSet
      rw [hpc, if_pos hen]
      show ((mapInsert k _ _).lookup k).map _ = _
      rw [mapInsert_lookup]
      simp [hdoc]
  · exact absurd h (by simp)

/-! ## Well-formed templates as segment lists (C5 support) -/

/-- A template segment: literal text, or a placeholder token
written with optional whitespace around an identifier name. -/
inductive Seg where
  | lit (s : List Char)
  | tok (w1 name w2 : List Char)
deriving Repr

def renderSeg : Seg → List Char
  | .lit s => s
  | .tok w1 n w2 => '{' :: '{' :: (w1 ++ (n ++ (w2 ++ ['}', '}'])))

def renderSegs (segs : List Seg) : List Char := (segs.map renderSeg).flatten

def isIdentChar (c : Char) : Bool := c.isAlphanum || c = '_'

def identOk (k : List Char) : Bool := !k.isEmpty && k.all isIdentChar

def litOk (s : List Char) : Bool := s.all (fun c => c ≠ '{' && c ≠ '}')

def segOk : Seg → Bool
  | .lit s => litOk s
  | .tok w1 n w2 => w1.all isWsChar && identOk n && w2.all isWsChar

def segsOk (segs : List Seg) : Bool := segs.all segOk

/-- One key's substitution on segments: tokens named `k` become the
literal value, everything else is unchanged. -/
def substSeg (k v : List Char) : Seg → Seg
  | .lit s => .lit s
  | .tok w1 n w2 => if n = k then .lit v else .tok w1 n w2

/-- The sequential substitution of all props on segments, in prop order. -/
def substSegs (props : List (String × JValue)) (segs : List Seg) : List Seg :=
  props.foldl (fun acc kv => acc.map (substSeg kv.1.data (stringifyProp kv.2).data)) segs

/-! ### Character-class facts -/

theorem ws_chars (c : Char) (h : isWsChar c = true) :
    c = ' ' ∨ c = '\t' ∨ c = '\n' ∨ c = '\r' ∨ c = '\x0b' ∨ c = '\x0c' := by
  unfold isWsChar at h
  simp only [Bool.or_eq_true, decide_eq_true_eq] at h
  tauto

theorem ident_not_ws {c : Char} (h : isIdentChar c = true) : isWsChar c = false := by
  by_contra hc
  have hw : isWsChar c = true := by
    cases hx : isWsChar c
    · exact absurd hx hc
    · rfl
  rcases ws_chars c hw with h1 | h1 | h1 | h1 | h1 | h1 <;> subst h1 <;> simp [isIdentChar] at h

theorem ident_ne_lbrace {c : Char} (h : isIdentChar c = true) : c ≠ '{' := by
  intro hc
  subst hc
  simp [isIdentChar] at h

theorem ident_ne_rbrace {c : Char} (h : isIdentChar c = true) : c ≠ '}' := by
  intro hc
  subst hc
  simp [isIdentChar] at h

theorem ws_ne_lbrace {c : Char} (h : isWsChar c = true) : c ≠ '{' := by
  rcases ws_chars c h with h1 | h1 | h1 | h1 | h1 | h1 <;> subst h1 <;> decide

theorem ws_ne_rbrace {c : Char} (h : isWsChar c = true) : c ≠ '}' := by
  rcases ws_chars c h with h1 | h1 | h1 | h1 | h1 | h1 <;> subst h1 <;> decide

/-! ### Scanner equation lemmas -/

theorem expandDollar_dollarFree (matched pre post : List Char) :
    ∀ (v : List Char), dollarFree v = true → expandDollar matched pre post v = v := by
  intro v
  induction v with
  | nil => intro _; rfl
  | cons c cs ih =>
    intro hv
    simp only [dollarFree, List.all_cons, Bool.and_eq_true, decide_eq_true_eq] at hv
    have hc : c ≠ '$' := hv.1
    have hcs : dollarFree cs = true := hv.2
    cases cs with
    | nil => rfl
    | cons d rest =>
      simp only [expandDollar]
      rw [if_neg hc, ih hcs]

theorem replaceTokAux_congr (k v : List Char) (hv : dollarFree v = true) :
    ∀ (f : Nat), ∀ (g : Nat) (s pre pre' : List Char), s.length ≤ f → s.length ≤ g →
      replaceTokAux k v f pre s = replaceTokAux k v g pre' s := by
  intro f
  induction f with
  | zero =>
    intro g s pre pre' hf _
    have : s = [] := by
      cases s
      · rfl
      · simp at hf
    subst this
    cases g <;> rfl
  | succ f ih =>
    intro g s pre pre' hf hg
    cases s with
    | nil => cases g <;> rfl
    | cons c cs =>
      cases g with
      | zero => simp at hg
      | succ g =>
        simp only [replaceTokAux]
        simp only [List.length_cons, Nat.succ_le_succ_iff] at hf hg
        split
        · rename_i rest hm
          have hlen : rest.length < cs.length + 1 := matchTok_length hm
          rw [expandDollar_dollarFree _ _ _ v hv]
          rw [expandDollar_dollarFree _ _ _ v hv]
          exact congrArg (v ++ ·) (ih g rest _ _ (by omega) (by omega))
        · exact congrArg (c :: ·) (ih g cs _ _ hf hg)

theorem replaceTok_nil (k v : List Char) : replaceTok k v [] = [] := rfl

theorem replaceTok_cons_match {k : List Char} (v : List Char) (hv : dollarFree v = true)
    {c : Char} {cs rest : List Char}
    (h : matchTok k (c :: cs) = some rest) :
    replaceTok k v (c :: cs) = v ++ replaceTok k v rest := by
  show replaceTokAux k v (c :: cs).length [] (c :: cs) = _
  have : (c :: cs).length = cs.length + 1 := rfl
  rw [this]
  simp only [replaceTokAux, h]
  have hlen : rest.length < cs.length + 1 := matchTok_length h
  rw [expandDollar_dollarFree _ _ _ v hv]
  rw [replaceTokAux_congr k v hv cs.length rest.length rest _ [] (by omega) (le_refl _)]
  rfl

theorem replaceTok_cons_nomatch {k : List Char} (v : List Char) (hv : dollarFree v = true)
    {c : Char} {cs : List Char}
    (h : matchTok k (c :: cs) = none) :
    replaceTok k v (c :: cs) = c :: replaceTok k v cs := by
  show replaceTokAux k v (c :: cs).length [] (c :: cs) = _
  have : (c :: cs).length = cs.length + 1 := rfl
  rw [this]
  simp only [replaceTokAux, h]
  rw [replaceTokAux_congr k v hv cs.length cs.length cs _ [] (le_refl _) (le_refl _)]
  rfl

theorem matchTok_ne_first {k : List Char} {c : Char} {cs : List Char} (h : c ≠ '{') :
    matchTok k (c :: cs) = none := by
  unfold matchTok
  split
  · rename_i rest heq
    injection heq with h1 _
    exact absurd h1 h
  · rfl

theorem matchTok_ne_second {k : List Char} {c2 : Char} {cs : List Char} (h : c2 ≠ '{') :
    matchTok k ('{' :: c2 :: cs) = none := by
  unfold matchTok
  split
  · rename_i rest heq
    injection heq with _ h2
    injection h2 with h2 _
    exact absurd h2 h
  · rfl

theorem stripPrefixC_self : ∀ (k s : List Char), stripPrefixC k (k ++ s) = some s := by
  intro k
  induction k with
  | nil => intro s; rfl
  | cons a ks ih =>
    intro s
    simp only [List.cons_append, stripPrefixC, if_pos rfl]
    exact ih s

/-- The head of the list is not whitespace (or the list is empty). -/
def headNotWs : List Char → Prop
  | [] => True
  | c :: _ => isWsChar c = false

theorem skipWs_not_ws : ∀ (s : List Char), headNotWs s → skipWs s = s := by
  intro s hs
  cases s with
  | nil => rfl
  | cons c cs =>
    simp only [skipWs]
    rw [if_neg]
    simp only [headNotWs] at hs
    simp [hs]

theorem skipWs_ws_append : ∀ (w : List Char), w.all isWsChar = true → ∀ (s : List Char),
    headNotWs s → skipWs (w ++ s) = s := by
  intro w
  induction w with
  | nil =>
    intro _ s hs
    exact skipWs_not_ws s hs
  | cons c w' ih =>
    intro hw s hs
    simp only [List.all_cons, Bool.and_eq_true] at hw
    simp only [List.cons_append, skipWs, if_pos hw.1]
    exact ih hw.2 s hs

theorem headNotWs_ident_append {n : List Char} (hn : identOk n = true) (rest : List Char) :
    headNotWs (n ++ rest) := by
  cases n with
  | nil => simp [identOk] at hn
  | cons c n' =>
    have hc : isIdentChar c = true := by
      simp only [identOk, Bool.and_eq_true, List.all_cons] at hn
      exact hn.2.1
    simp only [List.cons_append, headNotWs]
    exact ident_not_ws hc

theorem headNotWs_rbrace (rest : List Char) : headNotWs ('}' :: rest) := by
  simp only [headNotWs]
  decide

/-- One-step unfolding of `matchTok` past the two opening braces. -/
theorem matchTok_cons_braces (k X : List Char) :
    matchTok k ('{' :: '{' :: X)
      = match stripPrefixC k (skipWs X) with
        | none => none
        | some r2 =>
          match skipWs r2 with
          | '}' :: '}' :: r => some r
          | _ => none := rfl

theorem matchTok_self (w1 k w2 s : List Char)
    (h1 : w1.all isWsChar = true) (hk : identOk k = true) (h2 : w2.all isWsChar = true) :
    matchTok k ('{' :: '{' :: (w1 ++ (k ++ (w2 ++ ('}' :: '}' :: s))))) = some s := by
  rw [matchTok_cons_braces]
  have e1 : skipWs (w1 ++ (k ++ (w2 ++ ('}' :: '}' :: s)))) = k ++ (w2 ++ ('}' :: '}' :: s)) :=
    skipWs_ws_append w1 h1 _ (headNotWs_ident_append hk _)
  rw [e1, stripPrefixC_self]
  have e2 : skipWs (w2 ++ ('}' :: '}' :: s)) = '}' :: '}' :: s :=
    skipWs_ws_append w2 h2 _ (headNotWs_rbrace _)
  show (match skipWs (w2 ++ ('}' :: '}' :: s)) with
        | '}' :: '}' :: r => some r
        | _ => none) = some s
  rw [e2]
  rfl

theorem matchTail_ne : ∀ (k n : List Char), k.all isIdentChar = true → n.all isIdentChar = true →
    k ≠ n → ∀ (w2 s : List Char), w2.all isWsChar = true →
    (stripPrefixC k (n ++ (w2 ++ ('}' :: '}' :: s)))).bind
        (fun r2 => match skipWs r2 with
          | '}' :: '}' :: r => some r
          | _ => none) = none := by
  intro k
  induction k with
  | nil =>
    intro n _ hn hne w2 s hw2
    cases n with
    | nil => exact absurd rfl hne
    | cons b n' =>
      simp only [List.all_cons, Bool.and_eq_true] at hn
      show (some ((b :: n') ++ (w2 ++ ('}' :: '}' :: s)))).bind _ = none
      simp only [Option.some_bind]
      have hskip : skipWs ((b :: n') ++ (w2 ++ ('}' :: '}' :: s)))
          = b :: (n' ++ (w2 ++ ('}' :: '}' :: s))) := by
        apply skipWs_not_ws
        simp only [List.cons_append, headNotWs]
        exact ident_not_ws hn.1
      rw [hskip]
      split
      · rename_i r heq
        injection heq with hh _
        exact absurd hh (ident_ne_rbrace hn.1)
      · rfl
  | cons a k' ih =>
    intro n hk hn hne w2 s hw2
    simp only [List.all_cons, Bool.and_eq_true] at hk
    cases n with
    | nil =>
      simp only [List.nil_append]
      cases w2 with
      | nil =>
        simp only [List.nil_append, stripPrefixC]
        rw [if_neg (ident_ne_rbrace hk.1)]
        rfl
      | cons cw w2' =>
        simp only [List.all_cons, Bool.and_eq_true] at hw2
        simp only [List.cons_append, stripPrefixC]
        rw [if_neg]
        · rfl
        · intro hac
          subst hac
          have := ident_not_ws hk.1
          rw [hw2.1] at this
          exact absurd this (by simp)
    | cons b n' =>
      simp only [List.all_cons, Bool.and_eq_true] at hn
      simp only [List.cons_append, stripPrefixC]
      by_cases hab : a = b
      · subst hab
        rw [if_pos rfl]
        have hne' : k' ≠ n' := by
          intro hh
          exact hne (by rw [hh])
        have := ih n' hk.2 hn.2 hne' w2 s hw2
        simpa using this
      · rw [if_neg hab]
        rfl

theorem matchTok_tok_ne (w1 k n w2 s : List Char)
    (h1 : w1.all isWsChar = true) (hk : identOk k = true) (hn : identOk n = true)
    (hne : n ≠ k) (h2 : w2.all isWsChar = true) :
    matchTok k ('{' :: '{' :: (w1 ++ (n ++ (w2 ++ ('}' :: '}' :: s))))) = none := by
  rw [matchTok_cons_braces]
  have e1 : skipWs (w1 ++ (n ++ (w2 ++ ('}' :: '}' :: s)))) = n ++ (w2 ++ ('}' :: '}' :: s)) :=
    skipWs_ws_append w1 h1 _ (headNotWs_ident_append hn _)
  rw [e1]
  have hkall : k.all isIdentChar = true := by
    simp only [identOk, Bool.and_eq_true] at hk
    exact hk.2
  have hnall : n.all isIdentChar = true := by
    simp only [identOk, Bool.and_eq_true] at hn
    exact hn.2
  have hmain := matchTail_ne k n hkall hnall (fun hh => hne hh.symm) w2 s h2
  revert hmain
  cases stripPrefixC k (n ++ (w2 ++ ('}' :: '}' :: s))) with
  | none => intro _; rfl
  | some r2 =>
    intro hmain
    simpa using hmain

theorem replaceTok_append_noBrace (k v : List Char) (hv : dollarFree v = true) :
    ∀ (l : List Char), (∀ c ∈ l, c ≠ '{') →
    ∀ s, replaceTok k v (l ++ s) = l ++ replaceTok k v s := by
  intro l
  induction l with
  | nil => intro _ s; rfl
  | cons c l' ih =>
    intro hl s
    have hc : c ≠ '{' := hl c (List.mem_cons_self c l')
    simp only [List.cons_append]
    rw [replaceTok_cons_nomatch v hv (matchTok_ne_first hc)]
    rw [ih (fun x hx => hl x (List.mem_cons_of_mem _ hx)) s]

theorem hasTok_append_noBrace (k : List Char) :
    ∀ (l : List Char), (∀ c ∈ l, c ≠ '{') →
    ∀ s, hasTok k (l ++ s) = hasTok k s := by
  intro l
  induction l with
  | nil => intro _ s; rfl
  | cons c l' ih =>
    intro hl s
    have hc : c ≠ '{' := hl c (List.mem_cons_self c l')
    simp only [List.cons_append, hasTok]
    rw [matchTok_ne_first hc]
    simp only [List.append_eq]
    rw [ih (fun x hx => hl x (List.mem_cons_of_mem _ hx)) s]
    rfl

theorem tok_body_noBrace (w1 n w2 : List Char)
    (h1 : w1.all isWsChar = true) (hn : identOk n = true) (h2 : w2.all isWsChar = true) :
    ∀ c ∈ w1 ++ (n ++ (w2 ++ ['}', '}'])), c ≠ '{' := by
  intro c hc
  simp only [List.mem_append, List.mem_cons, List.not_mem_nil, or_false] at hc
  rw [List.all_eq_true] at h1 h2
  have hnall : ∀ x ∈ n, isIdentChar x = true := by
    simp only [identOk, Bool.and_eq_true, List.all_eq_true] at hn
    exact fun x hx => hn.2 x hx
  rcases hc with hc | hc | hc | hc | hc
  · exact ws_ne_lbrace (by simpa using h1 c hc)
  · exact ident_ne_lbrace (hnall c hc)
  · exact ws_ne_lbrace (by simpa using h2 c hc)
  · subst hc; decide
  · subst hc; decide

theorem matchTok_tok_second (k w1 n w2 s : List Char)
    (h1 : w1.all isWsChar = true) (hn : identOk n = true) :
    matchTok k ('{' :: (w1 ++ (n ++ (w2 ++ ('}' :: '}' :: s))))) = none := by
  cases w1 with
  | nil =>
    cases n with
    | nil => simp [identOk] at hn
    | cons b n' =>
      have hb : isIdentChar b = true := by
        simp only [identOk, Bool.and_eq_true, List.all_cons] at hn
        exact hn.2.1
      simp only [List.nil_append, List.cons_append]
      exact matchTok_ne_second (ident_ne_lbrace hb)
  | cons c w1' =>
    have hc : isWsChar c = true := by
      simp only [List.all_cons, Bool.and_eq_true] at h1
      exact h1.1
    simp only [List.cons_append]
    exact matchTok_ne_second (ws_ne_lbrace hc)

theorem renderSeg_tok_append (w1 n w2 s : List Char) :
    renderSeg (.tok w1 n w2) ++ s = '{' :: '{' :: (w1 ++ (n ++ (w2 ++ ('}' :: '}' :: s)))) := by
  simp [renderSeg, List.append_assoc]

theorem replaceTok_tok_ne_chunk (k v w1 n w2 : List Char) (hv : dollarFree v = true)
    (s : List Char)
    (h1 : w1.all isWsChar = true) (hk : identOk k = true) (hn : identOk n = true)
    (hne : n ≠ k) (h2 : w2.all isWsChar = true) :
    replaceTok k v (renderSeg (.tok w1 n w2) ++ s)
      = renderSeg (.tok w1 n w2) ++ replaceTok k v s := by
  rw [renderSeg_tok_append]
  rw [replaceTok_cons_nomatch v hv (matchTok_tok_ne w1 k n w2 s h1 hk hn hne h2)]
  rw [replaceTok_cons_nomatch v hv (matchTok_tok_second k w1 n w2 s h1 hn)]
  have hassoc : w1 ++ (n ++ (w2 ++ ('}' :: '}' :: s)))
      = (w1 ++ (n ++ (w2 ++ ['}', '}']))) ++ s := by
    simp [List.append_assoc]
  rw [hassoc, replaceTok_append_noBrace k v hv _ (tok_body_noBrace w1 n w2 h1 hn h2) s]
  rw [renderSeg_tok_append]
  simp [List.append_assoc]

theorem replaceTok_tok_self_chunk (k v w1 w2 : List Char) (hv : dollarFree v = true)
    (s : List Char)
    (h1 : w1.all isWsChar = true) (hk : identOk k = true) (h2 : w2.all isWsChar = true) :
    replaceTok k v (renderSeg (.tok w1 k w2) ++ s) = v ++ replaceTok k v s := by
  rw [renderSeg_tok_append]
  rw [replaceTok_cons_match v hv (matchTok_self w1 k w2 s h1 hk h2)]

theorem hasTok_tok_ne_chunk (k w1 n w2 : List Char) (s : List Char)
    (h1 : w1.all isWsChar = true) (hk : identOk k = true) (hn : identOk n = true)
    (hne : n ≠ k) (h2 : w2.all isWsChar = true) :
    hasTok k (renderSeg (.tok w1 n w2) ++ s) = hasTok k s := by
  rw [renderSeg_tok_append]
  show ((matchTok k _).isSome || hasTok k _) = _
  rw [matchTok_tok_ne w1 k n w2 s h1 hk hn hne h2]
  show (false || hasTok k ('{' :: (w1 ++ (n ++ (w2 ++ ('}' :: '}' :: s)))))) = _
  rw [Bool.false_or]
  show ((matchTok k _).isSome || hasTok k _) = _
  rw [matchTok_tok_second k w1 n w2 s h1 hn]
  show (false || hasTok k (w1 ++ (n ++ (w2 ++ ('}' :: '}' :: s))))) = _
  rw [Bool.false_or]
  have hassoc : w1 ++ (n ++ (w2 ++ ('}' :: '}' :: s)))
      = (w1 ++ (n ++ (w2 ++ ['}', '}']))) ++ s := by
    simp [List.append_assoc]
  rw [hassoc, hasTok_append_noBrace k _ (tok_body_noBrace w1 n w2 h1 hn h2) s]

theorem litOk_noBrace {s : List Char} (hs : litOk s = true) : ∀ c ∈ s, c ≠ '{' := by
  intro c hc
  rw [litOk, List.all_eq_true] at hs
  have := hs c hc
  simp only [Bool.and_eq_true, decide_eq_true_eq] at this
  exact this.1

theorem renderSegs_cons (sg : Seg) (rest : List Seg) :
    renderSegs (sg :: rest) = renderSeg sg ++ renderSegs rest := by
  simp [renderSegs]

theorem replaceTok_renderSegs (k v : List Char) (hk : identOk k = true)
    (hv : dollarFree v = true) :
    ∀ (segs : List Seg), segsOk segs = true →
    replaceTok k v (renderSegs segs) = renderSegs (segs.map (substSeg k v)) := by
  intro segs
  induction segs with
  | nil => intro _; rfl
  | cons sg rest ih =>
    intro hok
    simp only [segsOk, List.all_cons, Bool.and_eq_true] at hok
    have hok' : segsOk rest = true := hok.2
    cases sg with
    | lit s =>
      rw [renderSegs_cons]
      simp only [renderSeg]
      rw [replaceTok_append_noBrace k v hv s (litOk_noBrace hok.1) _, ih hok']
      rw [List.map_cons, renderSegs_cons]
      rfl
    | tok w1 n w2 =>
      have h1 : w1.all isWsChar = true := by
        simp only [segOk, Bool.and_eq_true] at hok
        exact hok.1.1.1
      have hn : identOk n = true := by
        simp only [segOk, Bool.and_eq_true] at hok
        exact hok.1.1.2
      have h2 : w2.all isWsChar = true := by
        simp only [segOk, Bool.and_eq_true] at hok
        exact hok.1.2
      rw [renderSegs_cons]
      by_cases hnk : n = k
      · rw [hnk]
        rw [replaceTok_tok_self_chunk k v w1 w2 hv _ h1 hk h2, ih hok']
        rw [List.map_cons, renderSegs_cons]
        simp [substSeg, renderSeg, hnk]
      · rw [replaceTok_tok_ne_chunk k v w1 n w2 hv _ h1 hk hn hnk h2, ih hok']
        rw [List.map_cons, renderSegs_cons]
        simp [substSeg, hnk]

theorem hasTok_renderSegs (k : List Char) (hk : identOk k = true) :
    ∀ (segs : List Seg), segsOk segs = true →
    (∀ w1 n w2, Seg.tok w1 n w2 ∈ segs → n ≠ k) →
    hasTok k (renderSegs segs) = false := by
  intro segs
  induction segs with
  | nil => intro _ _; rfl
  | cons sg rest ih =>
    intro hok hno
    simp only [segsOk, List.all_cons, Bool.and_eq_true] at hok
    have hok' : segsOk rest = true := hok.2
    have hno' : ∀ w1 n w2, Seg.tok w1 n w2 ∈ rest → n ≠ k :=
      fun w1 n w2 hm => hno w1 n w2 (List.mem_cons_of_mem _ hm)
    cases sg with
    | lit s =>
      rw [renderSegs_cons]
      simp only [renderSeg]
      rw [hasTok_append_noBrace k s (litOk_noBrace hok.1) _]
      exact ih hok' hno'
    | tok w1 n w2 =>
      have h1 : w1.all isWsChar = true := by
        simp only [segOk, Bool.and_eq_true] at hok
        exact hok.1.1.1
      have hn : identOk n = true := by
        simp only [segOk, Bool.and_eq_true] at hok
        exact hok.1.1.2
      have h2 : w2.all isWsChar = true := by
        simp only [segOk, Bool.and_eq_true] at hok
        exact hok.1.2
      have hne : n ≠ k := hno w1 n w2 (List.mem_cons_self _ _)
      rw [renderSegs_cons]
      rw [hasTok_tok_ne_chunk k w1 n w2 _ h1 hk hn hne h2]
      exact ih hok' hno'

theorem segsOk_map_substSeg (k v : List Char) (hv : litOk v = true) :
    ∀ (segs : List Seg), segsOk segs = true → segsOk (segs.map (substSeg k v)) = true := by
  intro segs
  induction segs with
  | nil => intro _; rfl
  | cons sg rest ih =>
    intro hok
    simp only [segsOk, List.all_cons, Bool.and_eq_true] at hok
    rw [List.map_cons]
    simp only [segsOk, List.all_cons, Bool.and_eq_true]
    refine ⟨?_, ih hok.2⟩
    cases sg with
    | lit s => exact hok.1
    | tok w1 n w2 =>
      simp only [substSeg]
      split
      · exact hv
      · exact hok.1

theorem map_substSeg_no_tok (k v x : List Char) :
    ∀ (segs : List Seg), (∀ w1 n w2, Seg.tok w1 n w2 ∈ segs → n ≠ x) →
    ∀ w1 n w2, Seg.tok w1 n w2 ∈ segs.map (substSeg k v) → n ≠ x := by
  intro segs hno w1 n w2 hm
  rw [List.mem_map] at hm
  obtain ⟨sg, hsg, hmap⟩ := hm
  cases sg with
  | lit s => simp [substSeg] at hmap
  | tok u1 m u2 =>
    simp only [substSeg] at hmap
    split at hmap
    · simp at hmap
    · injection hmap with e1 e2 e3
      exact e2 ▸ hno u1 m u2 hsg

theorem map_substSeg_self_no_tok (k v : List Char) :
    ∀ (segs : List Seg), ∀ w1 n w2, Seg.tok w1 n w2 ∈ segs.map (substSeg k v) → n ≠ k := by
  intro segs w1 n w2 hm
  rw [List.mem_map] at hm
  obtain ⟨sg, hsg, hmap⟩ := hm
  cases sg with
  | lit s => simp [substSeg] at hmap
  | tok u1 m u2 =>
    simp only [substSeg] at hmap
    split at hmap
    · simp at hmap
    · rename_i hmk
      injection hmap with e1 e2 e3
      exact e2 ▸ hmk

theorem substSegs_nil (segs : List Seg) : substSegs [] segs = segs := rfl

theorem substSegs_cons (kv : String × JValue) (props : List (String × JValue)) (segs : List Seg) :
    substSegs (kv :: props) segs
      = substSegs props (segs.map (substSeg kv.1.data (stringifyProp kv.2).data)) := rfl

theorem foldl_replace_renderSegs :
    ∀ (props : List (String × JValue)), ∀ (segs : List Seg),
      (∀ kv ∈ props, identOk kv.1.data = true) →
      (∀ kv ∈ props, litOk (stringifyProp kv.2).data = true) →
      (∀ kv ∈ props, dollarFree (stringifyProp kv.2).data = true) →
      segsOk segs = true →
      props.foldl (fun acc kv => String.mk (replaceTok kv.1.data (stringifyProp kv.2).data acc.data))
          (String.mk (renderSegs segs))
        = String.mk (renderSegs (substSegs props segs)) := by
  intro props
  induction props with
  | nil => intro segs _ _ _ _; rfl
  | cons kv props' ih =>
    intro segs hkeys hvals hdollar hok
    rw [List.foldl_cons]
    have hstep : String.mk (replaceTok kv.1.data (stringifyProp kv.2).data
        (String.mk (renderSegs segs)).data)
        = String.mk (renderSegs (segs.map (substSeg kv.1.data (stringifyProp kv.2).data))) := by
      show String.mk (replaceTok kv.1.data (stringifyProp kv.2).data (renderSegs segs)) = _
      rw [replaceTok_renderSegs kv.1.data (stringifyProp kv.2).data
        (hkeys kv (List.mem_cons_self _ _)) (hdollar kv (List.mem_cons_self _ _)) segs hok]
    rw [hstep]
    rw [ih _ (fun x hx => hkeys x (List.mem_cons_of_mem _ hx))
      (fun x hx => hvals x (List.mem_cons_of_mem _ hx))
      (fun x hx => hdollar x (List.mem_cons_of_mem _ hx))
      (segsOk_map_substSeg _ _ (hvals kv (List.mem_cons_self _ _)) segs hok)]
    rw [substSegs_cons]

theorem substSegs_preserves_no_tok (x : List Char) :
    ∀ (props : List (String × JValue)) (segs : List Seg),
      (∀ w1 n w2, Seg.tok w1 n w2 ∈ segs → n ≠ x) →
      ∀ w1 n w2, Seg.tok w1 n w2 ∈ substSegs props segs → n ≠ x := by
  intro props
  induction props with
  | nil => intro segs hno; exact hno
  | cons kv props' ih =>
    intro segs hno
    rw [substSegs_cons]
    exact ih _ (map_substSeg_no_tok _ _ x segs hno)

theorem substSegs_no_key_tok :
    ∀ (props : List (String × JValue)) (segs : List Seg) (k : String),
      k ∈ props.map Prod.fst →
      ∀ w1 n w2, Seg.tok w1 n w2 ∈ substSegs props segs → n ≠ k.data := by
  intro props
  induction props with
  | nil => intro segs k hk; simp at hk
  | cons kv props' ih =>
    intro segs k hk
    rw [List.map_cons, List.mem_cons] at hk
    rw [substSegs_cons]
    rcases hk with hk | hk
    · subst hk
      exact substSegs_preserves_no_tok _ props' _
        (map_substSeg_self_no_tok _ _ segs)
    · exact ih _ k hk

theorem segsOk_substSegs :
    ∀ (props : List (String × JValue)) (segs : List Seg),
      (∀ kv ∈ props, litOk (stringifyProp kv.2).data = true) →
      segsOk segs = true → segsOk (substSegs props segs) = true := by
  intro props
  induction props with
  | nil => intro segs _ hok; exact hok
  | cons kv props' ih =>
    intro segs hvals hok
    rw [substSegs_cons]
    exact ih _ (fun x hx => hvals x (List.mem_cons_of_mem _ hx))
      (segsOk_map_substSeg _ _ (hvals kv (List.mem_cons_self _ _)) segs hok)

/-- `processTemplate` on a well-formed template (given as its segment
decomposition) equals the segment-wise substitution. -/
theorem processTemplate_renderSegs (props : List (String × JValue)) (segs : List Seg)
    (hne : props ≠ [])
    (hkeys : ∀ kv ∈ props, identOk kv.1.data = true)
    (hvals : ∀ kv ∈ props, litOk (stringifyProp kv.2).data = true)
    (hdollar : ∀ kv ∈ props, dollarFree (stringifyProp kv.2).data = true)
    (hok : segsOk segs = true) :
    processTemplate (String.mk (renderSegs segs)) props
      = String.mk (renderSegs (substSegs props segs)) := by
  unfold processTemplate
  rw [if_neg]
  · exact foldl_replace_renderSegs props segs hkeys hvals hdollar hok
  · simp [hne]

/-- After substitution on a well-formed template, no placeholder token of
any substituted key remains. -/
theorem processTemplate_no_key_tok (props : List (String × JValue)) (segs : List Seg)
    (hne : props ≠ [])
    (hkeys : ∀ kv ∈ props, identOk kv.1.data = true)
    (hvals : ∀ kv ∈ props, litOk (stringifyProp kv.2).data = true)
    (hdollar : ∀ kv ∈ props, dollarFree (stringifyProp kv.2).data = true)
    (hok : segsOk segs = true) :
    ∀ k ∈ props.map Prod.fst,
      hasTok k.data (processTemplate (String.mk (renderSegs segs)) props).data = false := by
  intro k hk
  rw [processTemplate_renderSegs props segs hne hkeys hvals hdollar hok]
  show hasTok k.data (renderSegs (substSegs props segs)) = false
  refine hasTok_renderSegs k.data ?_ _ (segsOk_substSegs props segs hvals hok)
    (substSegs_no_key_tok props segs k hk)
  obtain ⟨kv, hkv, hfst⟩ := List.mem_map.mp hk
  subst hfst
  exact hkeys kv hkv

theorem loadItemsWith_textPart_head
    (loadFn : St → String → List Item → Option (St × LRes × List Item))
    (st : St) (s : String) (rest : List Item) (st' : St) (items' : List Item)
    (h : loadItemsWith loadFn st (.textPart s :: rest) = some (st', items')) :
    ∃ rest', items' = .textPart s :: rest' := by
  simp only [loadItemsWith] at h
  split at h
  · rename_i st1 rest' heq
    simp only [Option.some.injEq, Prod.mk.injEq] at h
    exact ⟨rest', h.2.symm⟩
  · exact absurd h (by simp)

theorem loadNestedV1_textPart_head (env : Env)
    (loadFn : St → String → List Item → Option (St × LRes × List Item))
    (st : St) (body s : String) (rest : List Item) (st' : St) (items' : List Item)
    (h : loadNestedV1 env loadFn st body (.textPart s :: rest) = some (st', items')) :
    ∃ rest', items' = .textPart s :: rest' := by
  unfold loadNestedV1 at h
  exact loadItemsWith_textPart_head _ _ _ _ _ _ h

theorem loadNestedV2_textPart_head (env : Env)
    (loadFn : St → String → List Item → Option (St × LRes × List Item))
    (st : St) (body s : String) (rest : List Item) (st' : St) (items' : List Item)
    (h : loadNestedV2 env loadFn st body (.textPart s :: rest) = some (st', items')) :
    ∃ rest', items' = .textPart s :: rest' := by
  unfold loadNestedV2 at h
  simp only [] at h
  split at h
  · simp only [Option.some.injEq, Prod.mk.injEq] at h
    exact ⟨rest, h.2.symm⟩
  · exact loadItemsWith_textPart_head _ _ _ _ _ _ h

/-- First revision, cache hit: the injected markup is the cached body
with the caller's props substituted; the call fulfils with the cached
content; no network fetch of the fragment occurs. -/
theorem loadV1_cacheHit (env : Env) (fuel : Nat) (st : St) (path : String)
    (props : List (String × JValue)) (el : List Item) (cached : String)
    (hguard : st.inFlight.contains path = false)
    (hcache : truthyGet st.fileCache path = some cached) :
    ∀ st' r el', loadV1 env (fuel + 1) st path props el = some (st', r, el') →
      r = .loaded cached ∧
      (∃ rest, el' = .textPart (processTemplate cached props) :: rest) ∧
      st'.trace.count (.fetchComp path) = st.trace.count (.fetchComp path) := by
  intro st' r el' h
  simp only [loadV1, hguard, Bool.false_eq_true, if_false, ite_false] at h
  have hc2 : truthyGet ({ st with inFlight := st.inFlight ++ [path] } : St).fileCache path
      = some cached := hcache
  rw [hc2] at h
  split at h
  case h_2 htmp => exact absurd htmp (by simp)
  case h_1 cv htmp =>
  injection htmp with htmp
  subst htmp
  split at h
  · rename_i st4 el2 hnested
    simp only [Option.some.injEq, Prod.mk.injEq] at h
    obtain ⟨h1, h2, h3⟩ := h
    refine ⟨h2.symm, ?_, ?_⟩
    · obtain ⟨rest', hr⟩ := loadNestedV1_textPart_head env _ _ _ _
        ((scanAttr "data-component" (processTemplate cached props)).map fun p => Item.compChild p "")
        _ _ hnested
      exact ⟨rest', h3 ▸ hr⟩
    · subst h1
      set stB := emit (emit { st with inFlight := st.inFlight ++ [path] } (.inject path)) (.bindEvents path) with hstB
      have hpB : path ∈ stB.inFlight := List.mem_append_right _ (by simp)
      have hcB : stB.trace.count (.fetchComp path) = st.trace.count (.fetchComp path) := by
        rw [hstB]
        show (st.trace ++ [Ev.inject path] ++ [Ev.bindEvents path]).count _ = _
        rw [List.append_assoc]
        exact count_append_nil_of_not_mem (by simp) _
      have hb : PCount path stB st4 :=
        loadNestedV1_rel (PCount path) PCount_trans (PCount_refl path) env _
          (loadCssModel_pcount path env)
          (fun _ _ _ _ _ _ hh => loadV1_pcount path fuel _ _ _ _ _ _ _ _ hh) _ _ _ _ _ hnested
      obtain ⟨c4, m4⟩ := hb hpB
      obtain ⟨cS, _⟩ := execScriptsV1_pcount path (emit st4 (.nestedSettled path)) path
        (processTemplate cached props) (by exact m4)
      show (execScriptsV1 (emit st4 (.nestedSettled path)) path _).trace.count _ = _
      rw [cS]
      show (st4.trace ++ [Ev.nestedSettled path]).count _ = _
      rw [count_append_nil_of_not_mem (by simp) _, c4, hcB]
  · exact absurd h (by simp)

/-- Second revision, cache hit: the cached body is injected verbatim
(no substitution of the caller's props); no network fetch of the
fragment occurs. -/
theorem loadV2_cacheHit (env : Env) (fuel : Nat) (st : St) (path : String)
    (props : List (String × JValue)) (el : List Item) (cached : String)
    (hguard : st.inFlight.contains path = false)
    (hcache : truthyGet st.fileCache path = some cached) :
    ∀ st' r el', loadV2 env (fuel + 1) st path props el = some (st', r, el') →
      r = .loaded cached ∧
      (∃ rest, el' = .textPart cached :: rest) ∧
      st'.trace.count (.fetchComp path) = st.trace.count (.fetchComp path) := by
  intro st' r el' h
  simp only [loadV2, hguard, Bool.false_eq_true, if_false, ite_false] at h
  have hc2 : truthyGet ({ st with inFlight := st.inFlight ++ [path] } : St).fileCache path
      = some cached := hcache
  rw [hc2] at h
  split at h
  case h_2 htmp => exact absurd htmp (by simp)
  case h_1 cv htmp =>
  injection htmp with htmp
  subst htmp
  split at h
  · rename_i st4 el2 hnested
    simp only [Option.some.injEq, Prod.mk.injEq] at h
    obtain ⟨h1, h2, h3⟩ := h
    refine ⟨h2.symm, ?_, ?_⟩
    · obtain ⟨rest', hr⟩ := loadNestedV2_textPart_head env _ _ _ _
        ((scanAttr "data-component" cached).map fun p => Item.compChild p "")
        _ _ hnested
      exact ⟨rest', h3 ▸ hr⟩
    · subst h1
      set stA := emit { st with inFlight := st.inFlight ++ [path] } (.inject path) with hstA
      have hpA : path ∈ stA.inFlight := List.mem_append_right _ (by simp)
      have hcA : stA.trace.count (.fetchComp path) = st.trace.count (.fetchComp path) := by
        rw [hstA]
        exact count_append_nil_of_not_mem (by simp) _
      obtain ⟨cB, mB⟩ := execScriptsV2_pcount path stA path cached hpA
      have hb : PCount path (execScriptsV2 stA path cached) st4 :=
        loadNestedV2_rel (PCount path) PCount_trans (PCount_refl path) env _
          (loadCssModel_pcount path env) (loadJsModel_pcount path env)
          (fun _ _ _ _ _ _ hh => loadV2_pcount path fuel _ _ _ _ _ _ _ _ hh) _ _ _ _ _ hnested
      obtain ⟨c4, m4⟩ := hb mB
      show (emit st4 (.nestedSettled path)).trace.count _ = _
      show (st4.trace ++ [Ev.nestedSettled path]).count _ = _
      rw [count_append_nil_of_not_mem (by simp) _, c4, cB, hcA]
  · exact absurd h (by simp)

/-- Second revision, network path: embedded scripts execute immediately
after injection, before nested dependency resolution begins. -/
theorem loadV2_scripts_first (env : Env) (fuel : Nat) (st : St) (path : String)
    (props : List (String × JValue)) (el : List Item) (raw : String)
    (hguard : st.inFlight.contains path = false)
    (hcache : truthyGet st.fileCache path = none)
    (hresp : env path = .ok raw)
    (hjs : st.jsEnabled = true) :
    ∀ st' r el', loadV2 env (fuel + 1) st path props el = some (st', r, el') →
      ∃ Δn, st'.trace = st.trace ++ [.fetchComp path, .inject path]
        ++ scriptEvsV2 path (if props.isEmpty then raw else processTemplate raw props)
        ++ [.bindEvents path] ++ Δn ++ [.nestedSettled path] := by
  intro st' r el' h
  simp only [loadV2, hguard, Bool.false_eq_true, if_false, ite_false] at h
  have hc2 : truthyGet ({ st with inFlight := st.inFlight ++ [path] } : St).fileCache path
      = none := hcache
  rw [hc2] at h
  have hr2 : env path = FetchResp.ok raw := hresp
  rw [hr2] at h
  split at h
  case h_1 cv htmp => exact absurd htmp (by simp)
  case h_2 htmp =>
  split at h
  case h_2 status statusText htmp2 => exact absurd htmp2 (by simp)
  case h_3 msg htmp2 => exact absurd htmp2 (by simp)
  case h_1 rawv htmp2 =>
  injection htmp2 with htmp2
  subst htmp2
  split at h
  · rename_i st7 el2 hnested
    simp only [Option.some.injEq, Prod.mk.injEq] at h
    obtain ⟨h1, _, _⟩ := h
    subst h1
    set body := if props.isEmpty then raw else processTemplate raw props with hbody
    set stA := emit { st with inFlight := st.inFlight ++ [path] } (.fetchComp path) with hstA
    set stI := emit { stA with fileCache := cacheSet stA.fileCache stA.now path body, now := stA.now + 1 } (.inject path) with hstI
    have hjsI : stI.jsEnabled = true := hjs
    have hexec : (execScriptsV2 stI path body).trace = stI.trace ++ scriptEvsV2 path body := by
      unfold execScriptsV2
      rw [hjsI]
      rfl
    have hb : PBase (emit (execScriptsV2 stI path body) (.bindEvents path)) st7 :=
      loadNestedV2_rel PBase PBase_trans PBase_refl env _
        (loadCssModel_pbase env) (loadJsModel_pbase env)
        (fun _ _ _ _ _ _ hh => loadV2_pbase fuel _ _ _ _ _ _ _ _ hh) _ _ _ _ _ hnested
    obtain ⟨_, _, Δn, ht⟩ := hb
    refine ⟨Δn, ?_⟩
    show (emit st7 (.nestedSettled path)).trace = _
    show st7.trace ++ [Ev.nestedSettled path] = _
    rw [ht]
    show ((execScriptsV2 stI path body).trace ++ [Ev.bindEvents path]) ++ Δn ++ _ = _
    rw [hexec, hstI, hstA]
    simp [emit]
  · exact absurd h (by simp)

/-! ## The ten claims -/

/-- Transport for the C1 run: greeting.html is a fragment whose template
holds a placeholder for the spec prop username. -/
def envC1 : Env := fun p =>
  if p = "greeting.html" then .ok "<p>\x7b\x7busername\x7d\x7d</p>"
  else .netError "Failed to fetch"

/-- An object component spec whose username prop is a function returning
Ada. -/
def specC1 : CompSpec :=
  .objSpec "greeting.html" none [("username", .func (.str "Ada"))] none none none none none

/-- C1: REFUTED (code bug in the second revision).  The page assembler
evaluates the function-valued prop into the final PropertyMap (first
conjunct), but the second revision's processComponentDefinition
(line 2120) invokes the fragment loader without passing the computed
props, so the placeholder for the spec prop is injected unsubstituted
(second conjunct); the first revision (line 604) passes the computed
props and injects the substituted value (third conjunct). -/
theorem pageAssembler_drops_computed_props :
    evalProps [("username", PropV.func (.str "Ada"))] = [("username", JValue.str "Ada")] ∧
    (processCompDefV2 envC1 2 initSt [] specC1).map (fun r => r.2.1)
      = some [.textPart "<p>\x7b\x7busername\x7d\x7d</p>"] ∧
    (processCompDefV1 envC1 2 initSt [] specC1).map (fun r => r.2.1)
      = some [.textPart "<p>Ada</p>"] :=
  ⟨rfl, rfl, rfl⟩

/-- C2 (amended): on a raw-content cache hit for fragmentId (a non-empty
cached entry: an empty one is falsy and refetches), the first revision
substitutes the caller's props into the cached body before injecting it,
while the second revision injects the cached body verbatim with no
substitution; in both revisions the call fulfils with the cached content
and no network fetch of fragmentId occurs. -/
theorem cacheHit_injection_amended (env : Env) (fuel : Nat) (st : St) (path : String)
    (props : List (String × JValue)) (el : List Item) (cached : String)
    (hguard : st.inFlight.contains path = false)
    (hcache : truthyGet st.fileCache path = some cached) :
    (∀ st' r el', loadV1 env (fuel + 1) st path props el = some (st', r, el') →
       r = .loaded cached ∧
       (∃ rest, el' = .textPart (processTemplate cached props) :: rest) ∧
       st'.trace.count (.fetchComp path) = st.trace.count (.fetchComp path)) ∧
    (∀ st' r el', loadV2 env (fuel + 1) st path props el = some (st', r, el') →
       r = .loaded cached ∧
       (∃ rest, el' = .textPart cached :: rest) ∧
       st'.trace.count (.fetchComp path) = st.trace.count (.fetchComp path)) :=
  ⟨loadV1_cacheHit env fuel st path props el cached hguard hcache,
   loadV2_cacheHit env fuel st path props el cached hguard hcache⟩

/-- State with a non-empty raw-content cache entry for frag.html. -/
def stC2 : St :=
  { initSt with fileCache := ⟨true, [("frag.html", ⟨"<h1>\x7b\x7btitle\x7d\x7d</h1>", 0⟩)]⟩ }

/-- Transport that the C2 runs never reach. -/
def envC2 : Env := fun _ => .netError "unreachable"

/-- C2 counterexample: with the body holding a title placeholder cached
for frag.html and props binding title to Hi, the second revision injects
the cached body verbatim rather than the substituted body the claim
requires (and the two differ). -/
theorem cacheHit_substitution_counterexample :
    (loadV2 envC2 1 stC2 "frag.html" [("title", JValue.str "Hi")] []).map (fun r => r.2.2)
      = some [.textPart "<h1>\x7b\x7btitle\x7d\x7d</h1>"] ∧
    processTemplate "<h1>\x7b\x7btitle\x7d\x7d</h1>" [("title", JValue.str "Hi")] = "<h1>Hi</h1>" ∧
    ([Item.textPart "<h1>\x7b\x7btitle\x7d\x7d</h1>"] ≠ [Item.textPart "<h1>Hi</h1>"]) :=
  ⟨rfl, rfl, by decide⟩

/-- C2 witness: a concrete cache-hit run of both revisions; the first
substitutes, the second injects verbatim, neither fetches. -/
theorem cacheHit_injection_amended_witness :
    ((loadV1 envC2 1 stC2 "frag.html" [("title", JValue.str "Hi")] []).map
        (fun r => (r.2.1, r.2.2.head?, r.1.trace.count (.fetchComp "frag.html")))
      = some (.loaded "<h1>\x7b\x7btitle\x7d\x7d</h1>", some (.textPart "<h1>Hi</h1>"), 0)) ∧
    ((loadV2 envC2 1 stC2 "frag.html" [("title", JValue.str "Hi")] []).map
        (fun r => (r.2.1, r.2.2.head?, r.1.trace.count (.fetchComp "frag.html")))
      = some (.loaded "<h1>\x7b\x7btitle\x7d\x7d</h1>", some (.textPart "<h1>\x7b\x7btitle\x7d\x7d</h1>"), 0)) := by
  have H := cacheHit_injection_amended envC2 0 stC2 "frag.html" [("title", JValue.str "Hi")] []
    "<h1>\x7b\x7btitle\x7d\x7d</h1>" rfl rfl
  constructor
  · cases hres : loadV1 envC2 1 stC2 "frag.html" [("title", JValue.str "Hi")] [] with
    | none =>
      have hs : (loadV1 envC2 1 stC2 "frag.html" [("title", JValue.str "Hi")] []).isSome = true := rfl
      rw [hres] at hs
      exact Bool.noConfusion hs
    | some a =>
      obtain ⟨st', rr, el'⟩ := a
      obtain ⟨h1, ⟨rest, h2⟩, h3⟩ := H.1 st' rr el' hres
      have e : (some (st', rr, el')).map
          (fun r => (r.2.1, r.2.2.head?, r.1.trace.count (.fetchComp "frag.html")))
        = some (rr, el'.head?, st'.trace.count (.fetchComp "frag.html")) := rfl
      rw [e, h1, h2, h3]
      rfl
  · cases hres : loadV2 envC2 1 stC2 "frag.html" [("title", JValue.str "Hi")] [] with
    | none =>
      have hs : (loadV2 envC2 1 stC2 "frag.html" [("title", JValue.str "Hi")] []).isSome = true := rfl
      rw [hres] at hs
      exact Bool.noConfusion hs
    | some a =>
      obtain ⟨st', rr, el'⟩ := a
      obtain ⟨h1, ⟨rest, h2⟩, h3⟩ := H.2 st' rr el' hres
      have e : (some (st', rr, el')).map
          (fun r => (r.2.1, r.2.2.head?, r.1.trace.count (.fetchComp "frag.html")))
        = some (rr, el'.head?, st'.trace.count (.fetchComp "frag.html")) := rfl
      rw [e, h1, h2, h3]
      rfl

/-- C3 (amended): every first-revision load's whole event delta passes
the scripts-after-settlement checker (a fragment's embedded scripts
execute only after that fragment's nested dependencies have settled),
whereas a second-revision network-path load (with scripting enabled)
emits its script events immediately after injection, before event
binding and before nested dependency resolution begins, with the
fragment's own nested-settled event last. -/
theorem script_ordering_amended (env : Env) (fuel : Nat) (st : St) (path : String)
    (props : List (String × JValue)) (el : List Item) (raw : String)
    (hguard : st.inFlight.contains path = false)
    (hmiss : truthyGet st.fileCache path = none)
    (hresp : env path = .ok raw)
    (hjs : st.jsEnabled = true) :
    (∀ st' r el', loadV1 env (fuel + 1) st path props el = some (st', r, el') →
       ∃ Δ, st'.trace = st.trace ++ Δ ∧ ∀ s, scriptsOk Δ s = true) ∧
    (∀ st' r el', loadV2 env (fuel + 1) st path props el = some (st', r, el') →
       ∃ Δn, st'.trace = st.trace ++ [.fetchComp path, .inject path]
         ++ scriptEvsV2 path (if props.isEmpty then raw else processTemplate raw props)
         ++ [.bindEvents path] ++ Δn ++ [.nestedSettled path]) := by
  constructor
  · intro st' r el' h
    have hp := loadV1_porder (fuel + 1) env st path props el st' r el' h
    obtain ⟨Δ, h1, h2⟩ := hp
    exact ⟨Δ, h1, h2⟩
  · exact loadV2_scripts_first env fuel st path props el raw hguard hmiss hresp hjs

/-- Transport for the C3 runs: p.html embeds an inline script and a
nested fragment b.html. -/
def envC3 : Env := fun p =>
  if p = "p.html" then
    .ok "<script>hi()</script><div data-component=\"b.html\"></div>"
  else if p = "b.html" then .ok "<b>b</b>"
  else .netError "Failed to fetch"

/-- C3 counterexample: the second revision's trace for p.html runs the
inline script (third event) before b.html has even been fetched, and the
scripts-after-settlement checker rejects the trace. -/
theorem script_ordering_counterexample :
    (loadV2 envC3 3 initSt "p.html" [] []).map (fun r => r.1.trace)
      = some [.fetchComp "p.html", .inject "p.html", .execInline "p.html" "hi()",
              .bindEvents "p.html", .fetchComp "b.html", .inject "b.html",
              .bindEvents "b.html", .nestedSettled "b.html", .nestedSettled "p.html"] ∧
    scriptsOk [.fetchComp "p.html", .inject "p.html", .execInline "p.html" "hi()",
              .bindEvents "p.html", .fetchComp "b.html", .inject "b.html",
              .bindEvents "b.html", .nestedSettled "b.html", .nestedSettled "p.html"] [] = false :=
  ⟨rfl, rfl⟩

/-- C3 witness: on the same fragment the first revision's run passes the
checker, while the second revision's trace begins with fetch, injection,
the inline script, then event binding. -/
theorem script_ordering_amended_witness :
    ((loadV1 envC3 3 initSt "p.html" [] []).map (fun r => scriptsOk r.1.trace []) = some true) ∧
    ((loadV2 envC3 3 initSt "p.html" [] []).map (fun r => r.1.trace.take 4)
      = some [.fetchComp "p.html", .inject "p.html", .execInline "p.html" "hi()",
              .bindEvents "p.html"]) := by
  have H := script_ordering_amended envC3 2 initSt "p.html" [] []
    "<script>hi()</script><div data-component=\"b.html\"></div>" rfl rfl rfl rfl
  constructor
  · cases hres : loadV1 envC3 3 initSt "p.html" [] [] with
    | none =>
      have hs : (loadV1 envC3 3 initSt "p.html" [] []).isSome = true := rfl
      rw [hres] at hs
      exact Bool.noConfusion hs
    | some a =>
      obtain ⟨st', rr, el'⟩ := a
      obtain ⟨Δ, hΔ, hok⟩ := H.1 st' rr el' hres
      have e : (some (st', rr, el')).map (fun r => scriptsOk r.1.trace [])
        = some (scriptsOk st'.trace []) := rfl
      rw [e, hΔ]
      show some (scriptsOk Δ []) = some true
      rw [hok []]
  · cases hres : loadV2 envC3 3 initSt "p.html" [] [] with
    | none =>
      have hs : (loadV2 envC3 3 initSt "p.html" [] []).isSome = true := rfl
      rw [hres] at hs
      exact Bool.noConfusion hs
    | some a =>
      obtain ⟨st', rr, el'⟩ := a
      obtain ⟨Δn, hΔ⟩ := H.2 st' rr el' hres
      have e : (some (st', rr, el')).map (fun r => r.1.trace.take 4)
        = some (st'.trace.take 4) := rfl
      rw [e, hΔ]
      rfl

/-- C4: any load call that returns (in either revision) leaves the
in-flight set exactly as it found it: the identifier is inserted at call
start and removed on every exit path — cache hit, network success, and
failure — never left dangling. -/
theorem inFlight_bracketing (env : Env) (fuel : Nat) (st : St) (path : String)
    (props : List (String × JValue)) (el : List Item)
    (st1 st2 : St) (r1 r2 : LRes) (el1 el2 : List Item)
    (h1 : loadV1 env fuel st path props el = some (st1, r1, el1))
    (h2 : loadV2 env fuel st path props el = some (st2, r2, el2)) :
    st1.inFlight = st.inFlight ∧ st2.inFlight = st.inFlight :=
  ⟨(loadV1_pbase fuel env st path props el st1 r1 el1 h1).1,
   (loadV2_pbase fuel env st path props el st2 r2 el2 h2).1⟩

/-- Transport for the C4 runs: ok.html succeeds, everything else is a
404. -/
def envC4 : Env := fun p => if p = "ok.html" then .ok "<i>ok</i>" else .httpError 404 "Not Found"

/-- State with a cached entry for hit.html (the cache-hit exit path). -/
def stC4 : St := { initSt with fileCache := ⟨true, [("hit.html", ⟨"<b>h</b>", 0⟩)]⟩ }

/-- C4 witness: the in-flight set is restored on all three exit paths of
both revisions — network success (ok.html), cache hit (hit.html), and
failure (missing.html). -/
theorem inFlight_bracketing_witness :
    ((loadV1 envC4 1 stC4 "ok.html" [] []).map (fun r => r.1.inFlight) = some stC4.inFlight) ∧
    ((loadV2 envC4 1 stC4 "ok.html" [] []).map (fun r => r.1.inFlight) = some stC4.inFlight) ∧
    ((loadV1 envC4 1 stC4 "hit.html" [] []).map (fun r => r.1.inFlight) = some stC4.inFlight) ∧
    ((loadV2 envC4 1 stC4 "hit.html" [] []).map (fun r => r.1.inFlight) = some stC4.inFlight) ∧
    ((loadV1 envC4 1 stC4 "missing.html" [] []).map (fun r => r.1.inFlight) = some stC4.inFlight) ∧
    ((loadV2 envC4 1 stC4 "missing.html" [] []).map (fun r => r.1.inFlight) = some stC4.inFlight) := by
  refine ⟨?_, ?_, ?_, ?_, ?_, ?_⟩
  · cases hres1 : loadV1 envC4 1 stC4 "ok.html" [] [] with
    | none =>
      have hs : (loadV1 envC4 1 stC4 "ok.html" [] []).isSome = true := rfl
      rw [hres1] at hs
      exact Bool.noConfusion hs
    | some a =>
      obtain ⟨s1, r1, e1⟩ := a
      cases hres2 : loadV2 envC4 1 stC4 "ok.html" [] [] with
      | none =>
        have hs : (loadV2 envC4 1 stC4 "ok.html" [] []).isSome = true := rfl
        rw [hres2] at hs
        exact Bool.noConfusion hs
      | some b =>
        obtain ⟨s2, r2, e2⟩ := b
        have h := inFlight_bracketing envC4 1 stC4 "ok.html" [] [] s1 s2 r1 r2 e1 e2 hres1 hres2
        have e : (some (s1, r1, e1)).map (fun r => r.1.inFlight) = some s1.inFlight := rfl
        rw [e, h.1]
  · cases hres1 : loadV1 envC4 1 stC4 "ok.html" [] [] with
    | none =>
      have hs : (loadV1 envC4 1 stC4 "ok.html" [] []).isSome = true := rfl
      rw [hres1] at hs
      exact Bool.noConfusion hs
    | some a =>
      obtain ⟨s1, r1, e1⟩ := a
      cases hres2 : loadV2 envC4 1 stC4 "ok.html" [] [] with
      | none =>
        have hs : (loadV2 envC4 1 stC4 "ok.html" [] []).isSome = true := rfl
        rw [hres2] at hs
        exact Bool.noConfusion hs
      | some b =>
        obtain ⟨s2, r2, e2⟩ := b
        have h := inFlight_bracketing envC4 1 stC4 "ok.html" [] [] s1 s2 r1 r2 e1 e2 hres1 hres2
        have e : (some (s2, r2, e2)).map (fun r => r.1.inFlight) = some s2.inFlight := rfl
        rw [e, h.2]
  · cases hres1 : loadV1 envC4 1 stC4 "hit.html" [] [] with
    | none =>
      have hs : (loadV1 envC4 1 stC4 "hit.html" [] []).isSome = true := rfl
      rw [hres1] at hs
      exact Bool.noConfusion hs
    | some a =>
      obtain ⟨s1, r1, e1⟩ := a
      cases hres2 : loadV2 envC4 1 stC4 "hit.html" [] [] with
      | none =>
        have hs : (loadV2 envC4 1 stC4 "hit.html" [] []).isSome = true := rfl
        rw [hres2] at hs
        exact Bool.noConfusion hs
      | some b =>
        obtain ⟨s2, r2, e2⟩ := b
        have h := inFlight_bracketing envC4 1 stC4 "hit.html" [] [] s1 s2 r1 r2 e1 e2 hres1 hres2
        have e : (some (s1, r1, e1)).map (fun r => r.1.inFlight) = some s1.inFlight := rfl
        rw [e, h.1]
  · cases hres1 : loadV1 envC4 1 stC4 "hit.html" [] [] with
    | none =>
      have hs : (loadV1 envC4 1 stC4 "hit.html" [] []).isSome = true := rfl
      rw [hres1] at hs
      exact Bool.noConfusion hs
    | some a =>
      obtain ⟨s1, r1, e1⟩ := a
      cases hres2 : loadV2 envC4 1 stC4 "hit.html" [] [] with
      | none =>
        have hs : (loadV2 envC4 1 stC4 "hit.html" [] []).isSome = true := rfl
        rw [hres2] at hs
        exact Bool.noConfusion hs
      | some b =>
        obtain ⟨s2, r2, e2⟩ := b
        have h := inFlight_bracketing envC4 1 stC4 "hit.html" [] [] s1 s2 r1 r2 e1 e2 hres1 hres2
        have e : (some (s2, r2, e2)).map (fun r => r.1.inFlight) = some s2.inFlight := rfl
        rw [e, h.2]
  · cases hres1 : loadV1 envC4 1 stC4 "missing.html" [] [] with
    | none =>
      have hs : (loadV1 envC4 1 stC4 "missing.html" [] []).isSome = true := rfl
      rw [hres1] at hs
      exact Bool.noConfusion hs
    | some a =>
      obtain ⟨s1, r1, e1⟩ := a
      cases hres2 : loadV2 envC4 1 stC4 "missing.html" [] [] with
      | none =>
        have hs : (loadV2 envC4 1 stC4 "missing.html" [] []).isSome = true := rfl
        rw [hres2] at hs
        exact Bool.noConfusion hs
      | some b =>
        obtain ⟨s2, r2, e2⟩ := b
        have h := inFlight_bracketing envC4 1 stC4 "missing.html" [] [] s1 s2 r1 r2 e1 e2 hres1 hres2
        have e : (some (s1, r1, e1)).map (fun r => r.1.inFlight) = some s1.inFlight := rfl
        rw [e, h.1]
  · cases hres1 : loadV1 envC4 1 stC4 "missing.html" [] [] with
    | none =>
      have hs : (loadV1 envC4 1 stC4 "missing.html" [] []).isSome = true := rfl
      rw [hres1] at hs
      exact Bool.noConfusion hs
    | some a =>
      obtain ⟨s1, r1, e1⟩ := a
      cases hres2 : loadV2 envC4 1 stC4 "missing.html" [] [] with
      | none =>
        have hs : (loadV2 envC4 1 stC4 "missing.html" [] []).isSome = true := rfl
        rw [hres2] at hs
        exact Bool.noConfusion hs
      | some b =>
        obtain ⟨s2, r2, e2⟩ := b
        have h := inFlight_bracketing envC4 1 stC4 "missing.html" [] [] s1 s2 r1 r2 e1 e2 hres1 hres2
        have e : (some (s2, r2, e2)).map (fun r => r.1.inFlight) = some s2.inFlight := rfl
        rw [e, h.2]

/-- C5 (amended): for a non-empty PropertyMap whose keys are identifier
names and whose stringified values contain neither brace nor dollar
characters, and a well-formed template given by its segment
decomposition (brace-free literal chunks and placeholder tokens
tolerating whitespace inside the braces), substitution equals the
segment-wise map that replaces every token whose name is a key by the
stringified value (empty string for null, JSON-encoded for structured
values, plain text otherwise — all folded into stringifyProp) and leaves
tokens whose name is not a key verbatim; afterwards no token of any
substituted key remains.  Both carve-outs are forced by the
counterexample: substitution is a sequential per-key pass, so a value
may reintroduce an earlier key's placeholder, and a replacement value is
subject to the dollar-pattern expansion of String.prototype.replace, so
the brace-free value dollar-ampersand reinserts the matched token
itself. -/
theorem substitution_amended (props : List (String × JValue)) (segs : List Seg)
    (hne : props ≠ [])
    (hkeys : ∀ kv ∈ props, identOk kv.1.data = true)
    (hvals : ∀ kv ∈ props, litOk (stringifyProp kv.2).data = true)
    (hdollar : ∀ kv ∈ props, dollarFree (stringifyProp kv.2).data = true)
    (hok : segsOk segs = true) :
    processTemplate (String.mk (renderSegs segs)) props
      = String.mk (renderSegs (substSegs props segs)) ∧
    (∀ k ∈ props.map Prod.fst,
      hasTok k.data (processTemplate (String.mk (renderSegs segs)) props).data = false) :=
  ⟨processTemplate_renderSegs props segs hne hkeys hvals hdollar hok,
   processTemplate_no_key_tok props segs hne hkeys hvals hdollar hok⟩

/-- C5 counterexample, refuting the claim twice over.  First family: P
binds a to x and b to the literal text of a's own placeholder; the
template holds a token for each key of P, yet the substituted output
still contains the token for key a (replacement is a sequential per-key
pass).  Second family: P binds k to the two-character dollar-ampersand
value — admitted by the brace-free condition (litOk) — which
String.prototype.replace expands to the matched text, so the output is
the token itself, not the stringified value, and the token for k
remains. -/
theorem substitution_counterexample :
    hasTok "a".data "\x7b\x7ba\x7d\x7d \x7b\x7bb\x7d\x7d".data = true ∧
    hasTok "b".data "\x7b\x7ba\x7d\x7d \x7b\x7bb\x7d\x7d".data = true ∧
    processTemplate "\x7b\x7ba\x7d\x7d \x7b\x7bb\x7d\x7d"
        [("a", JValue.str "x"), ("b", JValue.str "\x7b\x7ba\x7d\x7d")]
      = "x \x7b\x7ba\x7d\x7d" ∧
    hasTok "a".data ("x \x7b\x7ba\x7d\x7d").data = true ∧
    litOk "$&".data = true ∧
    hasTok "k".data "\x7b\x7bk\x7d\x7d".data = true ∧
    processTemplate "\x7b\x7bk\x7d\x7d" [("k", JValue.str "$&")] = "\x7b\x7bk\x7d\x7d" ∧
    hasTok "k".data (processTemplate "\x7b\x7bk\x7d\x7d" [("k", JValue.str "$&")]).data
      = true :=
  ⟨rfl, rfl, rfl, rfl, rfl, rfl, rfl, rfl⟩

/-- C5 witness: one placeholder token followed by a literal chunk, with
one string-valued key whose value is brace- and dollar-free;
substitution yields the segment-wise result and leaves no token of the
key. -/
theorem substitution_amended_witness :
    processTemplate (String.mk (renderSegs [Seg.tok [] "name".data [], Seg.lit " x".data]))
        [("name", JValue.str "Bob")]
      = String.mk (renderSegs (substSegs [("name", JValue.str "Bob")]
          [Seg.tok [] "name".data [], Seg.lit " x".data])) ∧
    (∀ k ∈ [("name", JValue.str "Bob")].map Prod.fst,
      hasTok k.data (processTemplate
          (String.mk (renderSegs [Seg.tok [] "name".data [], Seg.lit " x".data]))
          [("name", JValue.str "Bob")]).data = false) :=
  substitution_amended [("name", JValue.str "Bob")]
    [Seg.tok [] "name".data [], Seg.lit " x".data]
    (by simp) (by decide) (by decide) (by decide) (by decide)

/-- C6: when fragmentId is already a member of the in-flight set, a load
call in either revision returns success immediately (the skipped
resolution), leaves the whole state unchanged — hence no network fetch
and no second in-flight insertion — and does not modify the element's
content. -/
theorem duplicate_load_suppressed (env : Env) (fuel : Nat) (st : St) (path : String)
    (props : List (String × JValue)) (el : List Item)
    (h : st.inFlight.contains path = true) :
    loadV1 env (fuel + 1) st path props el = some (st, .skipped, el) ∧
    loadV2 env (fuel + 1) st path props el = some (st, .skipped, el) := by
  constructor
  · show loadV1 env (fuel + 1) st path props el = _
    unfold loadV1
    rw [if_pos h]
  · show loadV2 env (fuel + 1) st path props el = _
    unfold loadV2
    rw [if_pos h]

/-- Transport the C6 runs never reach. -/
def envC6 : Env := fun _ => .netError "unreachable"

/-- State with self.html already in flight. -/
def stC6 : St := { initSt with inFlight := ["self.html"] }

/-- C6 witness: a second interleaved load of self.html resolves without
touching the state or the element, in both revisions. -/
theorem duplicate_load_suppressed_witness :
    loadV1 envC6 1 stC6 "self.html" [] [.textPart "<u>u</u>"]
      = some (stC6, .skipped, [.textPart "<u>u</u>"]) ∧
    loadV2 envC6 1 stC6 "self.html" [] [.textPart "<u>u</u>"]
      = some (stC6, .skipped, [.textPart "<u>u</u>"]) :=
  duplicate_load_suppressed envC6 0 stC6 "self.html" [] [.textPart "<u>u</u>"] rfl

/-- C7: a disabled cache (either instance — both are CacheSt values with
the same operations) always misses on get and ignores set while keeping
its entries; clear empties the entries unconditionally without touching
the flag; enable and disable only flip the flag and never clear
content. -/
theorem cache_disabled_invariant (c : CacheSt) (now : Nat) (k content : String)
    (h : c.enabled = false) :
    cacheGet c k = none ∧ cacheSet c now k content = c ∧
    (cacheClear c).entries = [] ∧ (cacheClear c).enabled = c.enabled ∧
    (cacheEnable c).enabled = true ∧ (cacheEnable c).entries = c.entries ∧
    (cacheDisable c).enabled = false ∧ (cacheDisable c).entries = c.entries := by
  refine ⟨?_, ?_, rfl, rfl, rfl, rfl, rfl, rfl⟩
  · simp [cacheGet, h]
  · simp [cacheSet, h]

/-- C7 witness: a concrete disabled cache holding one entry misses on
get, ignores set, clears unconditionally, and flips flags without
touching entries. -/
theorem cache_disabled_invariant_witness :
    cacheGet ⟨false, [("k", ⟨"v", 3⟩)]⟩ "k" = none ∧
    cacheSet ⟨false, [("k", ⟨"v", 3⟩)]⟩ 7 "k" "w" = ⟨false, [("k", ⟨"v", 3⟩)]⟩ ∧
    (cacheClear ⟨false, [("k", ⟨"v", 3⟩)]⟩).entries = [] ∧
    (cacheClear ⟨false, [("k", ⟨"v", 3⟩)]⟩).enabled = (⟨false, [("k", ⟨"v", 3⟩)]⟩ : CacheSt).enabled ∧
    (cacheEnable ⟨false, [("k", ⟨"v", 3⟩)]⟩).enabled = true ∧
    (cacheEnable ⟨false, [("k", ⟨"v", 3⟩)]⟩).entries = (⟨false, [("k", ⟨"v", 3⟩)]⟩ : CacheSt).entries ∧
    (cacheDisable ⟨false, [("k", ⟨"v", 3⟩)]⟩).enabled = false ∧
    (cacheDisable ⟨false, [("k", ⟨"v", 3⟩)]⟩).entries = (⟨false, [("k", ⟨"v", 3⟩)]⟩ : CacheSt).entries :=
  cache_disabled_invariant ⟨false, [("k", ⟨"v", 3⟩)]⟩ 7 "k" "w" rfl

/-- C8: a load whose fetch reports a non-success HTTP status rejects
with the HTTP error message, and the target's content is replaced (in
both revisions) by exactly the inline error block — never emptied or
left half-updated — and that block names the fragment path, the status
code, and the full error message. -/
theorem loadV1_httpError (env : Env) (fuel : Nat) (st : St) (path : String)
    (props : List (String × JValue)) (el : List Item) (status : Nat) (statusText : String)
    (hguard : st.inFlight.contains path = false)
    (hmiss : truthyGet st.fileCache path = none)
    (hresp : env path = .httpError status statusText) :
    loadV1 env (fuel + 1) st path props el
      = some (emit { (emit { st with inFlight := st.inFlight ++ [path] } (.fetchComp path)) with
                  inFlight := (emit { st with inFlight := st.inFlight ++ [path] }
                    (.fetchComp path)).inFlight.erase path } (.inject path),
              .failed (httpMsg status statusText),
              [.textPart (errorBlock path (httpMsg status statusText))]) := by
  simp only [loadV1, hguard, Bool.false_eq_true, if_false, ite_false]
  rw [show truthyGet ({ st with inFlight := st.inFlight ++ [path] } : St).fileCache path
        = none from hmiss,
      show env path = FetchResp.httpError status statusText from hresp]
  rfl

theorem loadV2_httpError (env : Env) (fuel : Nat) (st : St) (path : String)
    (props : List (String × JValue)) (el : List Item) (status : Nat) (statusText : String)
    (hguard : st.inFlight.contains path = false)
    (hmiss : truthyGet st.fileCache path = none)
    (hresp : env path = .httpError status statusText) :
    loadV2 env (fuel + 1) st path props el
      = some (emit { (emit { st with inFlight := st.inFlight ++ [path] } (.fetchComp path)) with
                  inFlight := (emit { st with inFlight := st.inFlight ++ [path] }
                    (.fetchComp path)).inFlight.erase path } (.inject path),
              .failed (httpMsg status statusText),
              [.textPart (errorBlock path (httpMsg status statusText))]) := by
  simp only [loadV2, hguard, Bool.false_eq_true, if_false, ite_false]
  rw [show truthyGet ({ st with inFlight := st.inFlight ++ [path] } : St).fileCache path
        = none from hmiss,
      show env path = FetchResp.httpError status statusText from hresp]
  rfl

theorem failed_fetch_error_block (env : Env) (fuel : Nat) (st : St) (path : String)
    (props : List (String × JValue)) (el : List Item) (status : Nat) (statusText : String)
    (hguard : st.inFlight.contains path = false)
    (hmiss : truthyGet st.fileCache path = none)
    (hresp : env path = .httpError status statusText) :
    (∃ st1, loadV1 env (fuel + 1) st path props el
       = some (st1, .failed (httpMsg status statusText),
               [.textPart (errorBlock path (httpMsg status statusText))])) ∧
    (∃ st2, loadV2 env (fuel + 1) st path props el
       = some (st2, .failed (httpMsg status statusText),
               [.textPart (errorBlock path (httpMsg status statusText))])) ∧
    path.data <:+: (errorBlock path (httpMsg status statusText)).data ∧
    (toString status).data <:+: (errorBlock path (httpMsg status statusText)).data ∧
    (httpMsg status statusText).data <:+: (errorBlock path (httpMsg status statusText)).data := by
  have hinfix : (httpMsg status statusText).data <:+: (errorBlock path (httpMsg status statusText)).data := by
    refine ⟨("<div style=\"color: red; padding: 1rem; border: 1px solid red; background: #ffe6e6;\">"
        ++ "<strong>Component Load Error:</strong> " ++ path ++ "<br>" ++ "<small>").data,
      "</small></div>".data, ?_⟩
    simp [errorBlock, String.data_append, List.append_assoc]
  refine ⟨⟨_, loadV1_httpError env fuel st path props el status statusText hguard hmiss hresp⟩,
    ⟨_, loadV2_httpError env fuel st path props el status statusText hguard hmiss hresp⟩,
    ?_, ?_, hinfix⟩
  · refine ⟨("<div style=\"color: red; padding: 1rem; border: 1px solid red; background: #ffe6e6;\">"
        ++ "<strong>Component Load Error:</strong> ").data,
      ("<br>" ++ "<small>" ++ httpMsg status statusText ++ "</small></div>").data, ?_⟩
    simp [errorBlock, String.data_append, List.append_assoc]
  · have h1 : (toString status).data <:+: (httpMsg status statusText).data := by
      refine ⟨"HTTP ".data, (": " ++ statusText).data, ?_⟩
      simp [httpMsg, String.data_append, List.append_assoc]
    exact h1.trans hinfix

/-- Transport for the C8 witness: every fetch is a 404. -/
def envC8 : Env := fun _ => .httpError 404 "Not Found"

/-- C8 witness: loading missing.html against a 404 transport rejects
with the HTTP message and replaces the target's old content with the
error block, which mentions missing.html and 404. -/
theorem failed_fetch_error_block_witness :
    (∃ st1, loadV1 envC8 1 initSt "missing.html" [] [.textPart "<p>old</p>"]
       = some (st1, .failed (httpMsg 404 "Not Found"),
               [.textPart (errorBlock "missing.html" (httpMsg 404 "Not Found"))])) ∧
    (∃ st2, loadV2 envC8 1 initSt "missing.html" [] [.textPart "<p>old</p>"]
       = some (st2, .failed (httpMsg 404 "Not Found"),
               [.textPart (errorBlock "missing.html" (httpMsg 404 "Not Found"))])) ∧
    "missing.html".data <:+: (errorBlock "missing.html" (httpMsg 404 "Not Found")).data ∧
    (toString 404).data <:+: (errorBlock "missing.html" (httpMsg 404 "Not Found")).data ∧
    (httpMsg 404 "Not Found").data <:+: (errorBlock "missing.html" (httpMsg 404 "Not Found")).data :=
  failed_fetch_error_block envC8 0 initSt "missing.html" [] [.textPart "<p>old</p>"]
    404 "Not Found" rfl rfl rfl

/-- C9: with caching on, a truthy rendered-page cache hit makes
buildPage (both revisions) replace the target with the cached markup and
return fromCache with the state untouched — so no component spec is
processed and no fetch occurs; and after a first (settled) build under a
non-empty key whose rendered markup is non-empty, a second identical
buildPage call short-circuits to fromCache and reproduces exactly the
first call's target markup. -/
theorem buildPage_cache_short_circuit (env : Env) (fuel fuel2 : Nat)
    (st q : St) (doc doc2 qdoc : DocSt) (clearT clearT2 qclear : Bool)
    (title desc ln : Option String) (styles : List String) (meta : List (String × String))
    (comps : Option (List CompSpec)) (k cached targetSel : String)
    (st1 : St) (doc1 : DocSt) (oks : List Bool)
    (st2 : St) (doc2v : DocSt) (oks2 : List Bool)
    (hk : k ≠ "")
    (hsten : st.pageCache.enabled = true)
    (hhit : truthyGet st.pageCache k = some cached)
    (hen : q.pageCache.enabled = true)
    (hmiss : truthyGet q.pageCache k = none)
    (h1 : buildPageV1 env fuel q qdoc true (.obj title desc ln styles meta comps (some k) none) qclear
            = some (st1, doc1, .settled oks))
    (hne1 : renderItems doc1.target ≠ "")
    (h2 : buildPageV2 env fuel q qdoc true (.obj title desc ln styles meta comps (some k) none)
            targetSel qclear none none
            = some (st2, doc2v, .settled oks2))
    (hne2 : renderItems doc2v.target ≠ "") :
    (buildPageV1 env fuel2 st doc true (.obj title desc ln styles meta comps (some k) none) clearT
       = some (st, { doc with target := [.textPart cached] }, .fromCache)) ∧
    (buildPageV2 env fuel2 st doc true (.obj title desc ln styles meta comps (some k) none)
       targetSel clearT none none
       = some (st, { doc with target := [.textPart cached] }, .fromCache)) ∧
    (buildPageV1 env fuel2 st1 doc2 true (.obj title desc ln styles meta comps (some k) none) clearT2
       = some (st1, { doc2 with target := [.textPart (renderItems doc1.target)] }, .fromCache)) ∧
    (buildPageV2 env fuel2 st2 doc2 true (.obj title desc ln styles meta comps (some k) none)
       targetSel clearT2 none none
       = some (st2, { doc2 with target := [.textPart (renderItems doc2v.target)] }, .fromCache)) ∧
    renderItems [Item.textPart (renderItems doc1.target)] = renderItems doc1.target := by
  have S1 := buildPageV1_stores env fuel q qdoc qclear title desc ln styles meta comps none k
    hk hmiss hen st1 doc1 oks h1
  have S2 := buildPageV2_stores env fuel q qdoc targetSel qclear title desc ln styles meta comps k
    hk hen hmiss st2 doc2v oks2 h2
  have hhit1 : truthyGet st1.pageCache k = some (renderItems doc1.target) := by
    have hcg : cacheGet st1.pageCache k = some (renderItems doc1.target) := by
      unfold cacheGet
      rw [if_pos S1.1]
      exact S1.2
    unfold truthyGet
    rw [hcg]
    show (if renderItems doc1.target = "" then none else some (renderItems doc1.target))
        = some (renderItems doc1.target)
    rw [if_neg hne1]
  have hhit2 : truthyGet st2.pageCache k = some (renderItems doc2v.target) := by
    have hcg : cacheGet st2.pageCache k = some (renderItems doc2v.target) := by
      unfold cacheGet
      rw [if_pos S2.1]
      exact S2.2
    unfold truthyGet
    rw [hcg]
    show (if renderItems doc2v.target = "" then none else some (renderItems doc2v.target))
        = some (renderItems doc2v.target)
    rw [if_neg hne2]
  refine ⟨buildPageV1_hit env fuel2 st doc clearT title desc ln styles meta comps none k cached
      hk hhit,
    buildPageV2_hit env fuel2 st doc targetSel clearT title desc ln styles meta comps k cached
      hk hsten hhit,
    buildPageV1_hit env fuel2 st1 doc2 clearT2 title desc ln styles meta comps none k
      (renderItems doc1.target) hk hhit1,
    buildPageV2_hit env fuel2 st2 doc2 targetSel clearT2 title desc ln styles meta comps k
      (renderItems doc2v.target) hk S2.1 hhit2,
    renderItems_single _⟩

/-- Transport for the C9 witness: w.html is a plain fragment. -/
def envC9 : Env := fun p => if p = "w.html" then .ok "<w></w>" else .netError "Failed to fetch"

/-- Page definition for the C9 and C10 witnesses' first family: one
string spec and an explicit cache key. -/
def pdC9 : PageDef := .obj none none none [] [] (some [CompSpec.strSpec "w.html"]) (some "pk") none

/-- State whose rendered-page cache already holds markup under pk. -/
def stC9h : St := { initSt with pageCache := ⟨true, [("pk", ⟨"<z></z>", 0⟩)]⟩ }

/-- C9 witness: a seeded cache hit short-circuits both revisions, and
after a first settled build of pdC9 a second identical call replays the
first call's markup from the cache. -/
theorem buildPage_cache_short_circuit_witness :
    (buildPageV1 envC9 2 stC9h ⟨"t", none, []⟩ true pdC9 true
      = some (stC9h, ⟨"t", none, [.textPart "<z></z>"]⟩, .fromCache)) ∧
    (buildPageV2 envC9 2 stC9h ⟨"t", none, []⟩ true pdC9 "main" true none none
      = some (stC9h, ⟨"t", none, [.textPart "<z></z>"]⟩, .fromCache)) ∧
    ((buildPageV1 envC9 2 initSt ⟨"t", none, []⟩ true pdC9 true).map
       (fun r => (buildPageV1 envC9 2 r.1 ⟨"t", none, []⟩ true pdC9 true).map
         (fun r2 => (r2.2.1.target, r2.2.2)))
      = some (some ([.textPart "<w></w>"], .fromCache))) ∧
    ((buildPageV2 envC9 2 initSt ⟨"t", none, []⟩ true pdC9 "main" true none none).map
       (fun r => (buildPageV2 envC9 2 r.1 ⟨"t", none, []⟩ true pdC9 "main" true none none).map
         (fun r2 => (r2.2.1.target, r2.2.2)))
      = some (some ([.textPart "<w></w>"], .fromCache))) := by
  cases hres1 : buildPageV1 envC9 2 initSt ⟨"t", none, []⟩ true pdC9 true with
  | none =>
    have hs : (buildPageV1 envC9 2 initSt ⟨"t", none, []⟩ true pdC9 true).isSome = true := rfl
    rw [hres1] at hs
    exact Bool.noConfusion hs
  | some a =>
    obtain ⟨st1, doc1, res1⟩ := a
    cases hres2 : buildPageV2 envC9 2 initSt ⟨"t", none, []⟩ true pdC9 "main" true none none with
    | none =>
      have hs : (buildPageV2 envC9 2 initSt ⟨"t", none, []⟩ true pdC9 "main" true none none).isSome
          = true := rfl
      rw [hres2] at hs
      exact Bool.noConfusion hs
    | some b =>
      obtain ⟨st2, doc2v, res2⟩ := b
      have e1 : (buildPageV1 envC9 2 initSt ⟨"t", none, []⟩ true pdC9 true).map
          (fun r => (r.2.1.target, r.2.2))
          = some ([Item.textPart "<w></w>"], BuildRes.settled [true]) := rfl
      rw [hres1] at e1
      have e1p := Option.some.inj e1
      have htgt1 : doc1.target = [Item.textPart "<w></w>"] := congrArg Prod.fst e1p
      have hres1p : res1 = BuildRes.settled [true] := congrArg Prod.snd e1p
      have e2 : (buildPageV2 envC9 2 initSt ⟨"t", none, []⟩ true pdC9 "main" true none none).map
          (fun r => (r.2.1.target, r.2.2))
          = some ([Item.textPart "<w></w>"], BuildRes.settled [true]) := rfl
      rw [hres2] at e2
      have e2p := Option.some.inj e2
      have htgt2 : doc2v.target = [Item.textPart "<w></w>"] := congrArg Prod.fst e2p
      have hres2p : res2 = BuildRes.settled [true] := congrArg Prod.snd e2p
      subst hres1p
      subst hres2p
      have H := buildPage_cache_short_circuit envC9 2 2 stC9h initSt
        ⟨"t", none, []⟩ ⟨"t", none, []⟩ ⟨"t", none, []⟩ true true true
        none none none [] [] (some [CompSpec.strSpec "w.html"]) "pk" "<z></z>" "main"
        st1 doc1 [true] st2 doc2v [true]
        (by decide) rfl rfl rfl rfl hres1 (by rw [htgt1]; decide) hres2 (by rw [htgt2]; decide)
      refine ⟨H.1, H.2.1, ?_, ?_⟩
      · have em : (some (st1, doc1, BuildRes.settled [true])).map
            (fun r => (buildPageV1 envC9 2 r.1 ⟨"t", none, []⟩ true pdC9 true).map
              (fun r2 => (r2.2.1.target, r2.2.2)))
            = some ((buildPageV1 envC9 2 st1 ⟨"t", none, []⟩ true pdC9 true).map
              (fun r2 => (r2.2.1.target, r2.2.2))) := rfl
        rw [em]
        rw [show pdC9 = PageDef.obj none none none [] []
              (some [CompSpec.strSpec "w.html"]) (some "pk") none from rfl]
        rw [H.2.2.1, htgt1]
        rfl
      · have em : (some (st2, doc2v, BuildRes.settled [true])).map
            (fun r => (buildPageV2 envC9 2 r.1 ⟨"t", none, []⟩ true pdC9 "main" true none none).map
              (fun r2 => (r2.2.1.target, r2.2.2)))
            = some ((buildPageV2 envC9 2 st2 ⟨"t", none, []⟩ true pdC9 "main" true none none).map
              (fun r2 => (r2.2.1.target, r2.2.2))) := rfl
        rw [em]
        rw [show pdC9 = PageDef.obj none none none [] []
              (some [CompSpec.strSpec "w.html"]) (some "pk") none from rfl]
        rw [H.2.2.2.1, htgt2]
        rfl

/-- Transport for the C10 runs: every fetch is a 404, so every component
load fails and leaves an error block. -/
def envC10 : Env := fun _ => .httpError 404 "Not Found"

/-- Page definition for the C10 runs: one failing string spec and an
explicit cache key. -/
def pdC10 : PageDef := .obj none none none [] [] (some [CompSpec.strSpec "x.html"]) (some "kb") none

/-- C10: after a settled buildPage run under a non-empty key with the
page cache enabled, the target's final markup is stored under that key
regardless of the per-spec outcomes (no success hypothesis), in both
revisions; and concretely a page whose single component load fails is
cached as its inline error block and replayed verbatim from the cache by
a second identical call. -/
theorem buildPage_caches_failed_renders (env : Env) (fuel : Nat) (q : St) (qdoc : DocSt)
    (qclear : Bool) (title desc ln : Option String) (styles : List String)
    (meta : List (String × String)) (comps : Option (List CompSpec)) (k targetSel : String)
    (st1 : St) (doc1 : DocSt) (oks : List Bool)
    (st2 : St) (doc2 : DocSt) (oks2 : List Bool)
    (hk : k ≠ "") (hen : q.pageCache.enabled = true) (hmiss : truthyGet q.pageCache k = none)
    (h1 : buildPageV1 env fuel q qdoc true (.obj title desc ln styles meta comps (some k) none) qclear
            = some (st1, doc1, .settled oks))
    (h2 : buildPageV2 env fuel q qdoc true (.obj title desc ln styles meta comps (some k) none)
            targetSel qclear none none
            = some (st2, doc2, .settled oks2)) :
    ((st1.pageCache.entries.lookup k).map CacheEntry.content = some (renderItems doc1.target)) ∧
    ((st2.pageCache.entries.lookup k).map CacheEntry.content = some (renderItems doc2.target)) ∧
    ((buildPageV1 envC10 2 initSt ⟨"t", none, []⟩ true pdC10 true).map
       (fun r => ((r.1.pageCache.entries.lookup "kb").map CacheEntry.content, r.2.2,
         (buildPageV1 envC10 2 r.1 ⟨"t", none, []⟩ true pdC10 true).map
           (fun r2 => (r2.2.1.target, r2.2.2))))
      = some (some (errorBlock "x.html" (httpMsg 404 "Not Found")), .settled [false],
              some ([.textPart (errorBlock "x.html" (httpMsg 404 "Not Found"))], .fromCache))) :=
  ⟨(buildPageV1_stores env fuel q qdoc qclear title desc ln styles meta comps none k
      hk hmiss hen st1 doc1 oks h1).2,
   (buildPageV2_stores env fuel q qdoc targetSel qclear title desc ln styles meta comps k
      hk hen hmiss st2 doc2 oks2 h2).2,
   rfl⟩

/-- C10 witness: the all-failed build of pdC10 stores exactly the
rendered error-block markup under kb in both revisions. -/
theorem buildPage_caches_failed_renders_witness :
    ((buildPageV1 envC10 2 initSt ⟨"t", none, []⟩ true pdC10 true).map
       (fun r => ((r.1.pageCache.entries.lookup "kb").map CacheEntry.content,
         renderItems r.2.1.target))
      = some (some (errorBlock "x.html" (httpMsg 404 "Not Found")),
              errorBlock "x.html" (httpMsg 404 "Not Found"))) ∧
    ((buildPageV2 envC10 2 initSt ⟨"t", none, []⟩ true pdC10 "main" true none none).map
       (fun r => ((r.1.pageCache.entries.lookup "kb").map CacheEntry.content,
         renderItems r.2.1.target))
      = some (some (errorBlock "x.html" (httpMsg 404 "Not Found")),
              errorBlock "x.html" (httpMsg 404 "Not Found"))) := by
  cases hres1 : buildPageV1 envC10 2 initSt ⟨"t", none, []⟩ true pdC10 true with
  | none =>
    have hs : (buildPageV1 envC10 2 initSt ⟨"t", none, []⟩ true pdC10 true).isSome = true := rfl
    rw [hres1] at hs
    exact Bool.noConfusion hs
  | some a =>
    obtain ⟨st1, doc1, res1⟩ := a
    cases hres2 : buildPageV2 envC10 2 initSt ⟨"t", none, []⟩ true pdC10 "main" true none none with
    | none =>
      have hs : (buildPageV2 envC10 2 initSt ⟨"t", none, []⟩ true pdC10 "main" true none none).isSome
          = true := rfl
      rw [hres2] at hs
      exact Bool.noConfusion hs
    | some b =>
      obtain ⟨st2, doc2v, res2⟩ := b
      have e1 : (buildPageV1 envC10 2 initSt ⟨"t", none, []⟩ true pdC10 true).map
          (fun r => (r.2.1.target, r.2.2))
          = some ([Item.textPart (errorBlock "x.html" (httpMsg 404 "Not Found"))],
                  BuildRes.settled [false]) := rfl
      rw [hres1] at e1
      have e1p := Option.some.inj e1
      have htgt1 : doc1.target = [Item.textPart (errorBlock "x.html" (httpMsg 404 "Not Found"))] :=
        congrArg Prod.fst e1p
      have hres1p : res1 = BuildRes.settled [false] := congrArg Prod.snd e1p
      have e2 : (buildPageV2 envC10 2 initSt ⟨"t", none, []⟩ true pdC10 "main" true none none).map
          (fun r => (r.2.1.target, r.2.2))
          = some ([Item.textPart (errorBlock "x.html" (httpMsg 404 "Not Found"))],
                  BuildRes.settled [false]) := rfl
      rw [hres2] at e2
      have e2p := Option.some.inj e2
      have htgt2 : doc2v.target = [Item.textPart (errorBlock "x.html" (httpMsg 404 "Not Found"))] :=
        congrArg Prod.fst e2p
      have hres2p : res2 = BuildRes.settled [false] := congrArg Prod.snd e2p
      subst hres1p
      subst hres2p
      have H := buildPage_caches_failed_renders envC10 2 initSt ⟨"t", none, []⟩ true
        none none none [] [] (some [CompSpec.strSpec "x.html"]) "kb" "main"
        st1 doc1 [false] st2 doc2v [false]
        (by decide) rfl rfl hres1 hres2
      constructor
      · have em : (some (st1, doc1, BuildRes.settled [false])).map
            (fun r => ((r.1.pageCache.entries.lookup "kb").map CacheEntry.content,
              renderItems r.2.1.target))
            = some ((st1.pageCache.entries.lookup "kb").map CacheEntry.content,
              renderItems doc1.target) := rfl
        rw [em, H.1, htgt1]
        rw [show renderItems [Item.textPart (errorBlock "x.html" (httpMsg 404 "Not Found"))]
              = errorBlock "x.html" (httpMsg 404 "Not Found") from renderItems_single _]
      · have em : (some (st2, doc2v, BuildRes.settled [false])).map
            (fun r => ((r.1.pageCache.entries.lookup "kb").map CacheEntry.content,
              renderItems r.2.1.target))
            = some ((st2.pageCache.entries.lookup "kb").map CacheEntry.content,
              renderItems doc2v.target) := rfl
        rw [em, H.2.1, htgt2]
        rw [show renderItems [Item.textPart (errorBlock "x.html" (httpMsg 404 "Not Found"))]
              = errorBlock "x.html" (httpMsg 404 "Not Found") from renderItems_single _]

end HtmlComponents
